import Mathlib

/-
Verification of the Euler Tour Tree code in sonLib (C/impl/sonLibEulerTour.c).

Vertex identifiers are C `void *` pointers; we model them as `Nat`, with `0`
playing the role of the null pointer.  Half-edges own exactly one treap node
each (`stEulerHalfEdge_construct` allocates the node with the half-edge as its
payload), so a single `Nat` identifier serves for both the half-edge and its
treap node.

The treap itself is not part of the source under verification; it is the
collaborator specified in section 6 of the specification (an implicit-key
sequence structure with split/concat/order queries).  `TreapForest` below is
modelled from the spec: a forest of treaps is a list of ordered sequences of
node ids, `findRoot`-equality of two nodes is membership in the same sequence,
`findMin`/`findMax` are the ends of the sequence, `next`/`prev`/`compare` are
positional, `splitBefore`/`splitAfter` cut one sequence in two, and `concat`
joins two sequences.

Undefined C behaviour (null-pointer dereference, concat of a tree with
itself) is modelled by returning the state unchanged / `none`; the theorems
below never rely on those fallback branches except where a claim is
explicitly about the undefined case.
-/

abbrev VId := Nat
abbrev EId := Nat
abbrev TreapForest := List (List EId)

/-- Modelled from the spec: the sequence (treap) containing node `x`;
`[]` when `x` is in no treap. -/
def tSeqOf (ts : TreapForest) (x : EId) : List EId :=
  match ts.find? (fun s => s.contains x) with
  | some s => s
  | none => []

def tRemoveTreeOf (ts : TreapForest) (x : EId) : TreapForest :=
  ts.filter (fun s => !s.contains x)

/-- Modelled from the spec: `stTreap_size` of the treap containing `x`. -/
def tSize (ts : TreapForest) (x : EId) : Nat := (tSeqOf ts x).length

/-- Modelled from the spec: `stTreap_next`. -/
def tNext (ts : TreapForest) (x : EId) : Option EId :=
  (((tSeqOf ts x).dropWhile (fun y => y != x)).drop 1).head?

/-- Modelled from the spec: `stTreap_prev`. -/
def tPrev (ts : TreapForest) (x : EId) : Option EId :=
  ((tSeqOf ts x).takeWhile (fun y => y != x)).getLast?

/-- In-order position of `x` inside its treap. -/
def tIdx (ts : TreapForest) (x : EId) : Nat :=
  ((tSeqOf ts x).takeWhile (fun y => y != x)).length

/-- Modelled from the spec: `stTreap_compare` (sign of position difference,
defined for two nodes of the same treap). -/
def tCompare (ts : TreapForest) (a b : EId) : Int :=
  if tIdx ts a < tIdx ts b then -1 else if tIdx ts b < tIdx ts a then 1 else 0

/-- Modelled from the spec: `stTreap_findMin (stTreap_findRoot x)`. -/
def tMinOf (ts : TreapForest) (x : EId) : Option EId := (tSeqOf ts x).head?

/-- Modelled from the spec: `stTreap_findMax (stTreap_findRoot x)`. -/
def tMaxOf (ts : TreapForest) (x : EId) : Option EId := (tSeqOf ts x).getLast?

/-- Modelled from the spec: `stTreap_splitAfter x`.  The treap of `x` becomes
the part up to and including `x`; the part after `x` becomes a new treap and
a handle to it (its first node) is returned, `none` when it is empty. -/
def tSplitAfter (ts : TreapForest) (x : EId) : Option EId × TreapForest :=
  let s := tSeqOf ts x
  if s.contains x then
    let L := s.takeWhile (fun y => y != x) ++ [x]
    let R := (s.dropWhile (fun y => y != x)).drop 1
    (R.head?, tRemoveTreeOf ts x ++ (if R.isEmpty then [L] else [L, R]))
  else (none, ts)

/-- Modelled from the spec: `stTreap_splitBefore x`.  The treap of `x` keeps
the part from `x` on; the part before `x` becomes a new treap and a handle to
it is returned, `none` when it is empty. -/
def tSplitBefore (ts : TreapForest) (x : EId) : Option EId × TreapForest :=
  let s := tSeqOf ts x
  if s.contains x then
    let L := s.takeWhile (fun y => y != x)
    let R := s.dropWhile (fun y => y != x)
    (L.head?, tRemoveTreeOf ts x ++ (if L.isEmpty then [R] else [L, R]))
  else (none, ts)

/-- Modelled from the spec: `stTreap_concat a b` joins the treap of `a`
(in front) with the treap of `b` (behind).  Concatenating a treap with
itself or with a non-existent treap is undefined in C; modelled as a no-op. -/
def tConcat (ts : TreapForest) (a b : EId) : TreapForest :=
  let sa := tSeqOf ts a
  let sb := tSeqOf ts b
  if sa.isEmpty || sb.isEmpty then ts
  else if sa.contains b then ts
  else tRemoveTreeOf (tRemoveTreeOf ts a) b ++ [sa ++ sb]

/- ------------------------------------------------------------------ -/
/- Data model of sonLibEulerTour.c                                     -/
/- ------------------------------------------------------------------ -/

structure stEulerHalfEdge where
  isForwardEdge : Bool
  fr : VId
  toV : VId
  inverse : EId
deriving Repr, DecidableEq

structure stEulerVertex where
  leftOut : Option EId
  rightIn : Option EId
deriving Repr, DecidableEq

structure stEulerTour where
  vertices : List (VId × stEulerVertex)
  halfEdges : List (EId × stEulerHalfEdge)
  forwardEdges : List ((VId × VId) × EId)
  backwardEdges : List ((VId × VId) × EId)
  treaps : TreapForest
  nComponents : Int
  nextEdgeId : EId
deriving Repr, DecidableEq

def assocFind {α β : Type} [DecidableEq α] (l : List (α × β)) (k : α) : Option β :=
  match l with
  | [] => none
  | (k', v) :: rest => if k' = k then some v else assocFind rest k

def assocRemove {α β : Type} [DecidableEq α] (l : List (α × β)) (k : α) :
    List (α × β) :=
  l.filter (fun p => decide (p.1 ≠ k))

def getVertex (t : stEulerTour) (v : VId) : Option stEulerVertex :=
  assocFind t.vertices v

def setVertex (t : stEulerTour) (v : VId) (r : stEulerVertex) : stEulerTour :=
  { t with vertices := t.vertices.map (fun p => if p.1 = v then (v, r) else p) }

def getEdge (t : stEulerTour) (e : EId) : Option stEulerHalfEdge :=
  assocFind t.halfEdges e

def stEulerVertex_isSingleton (r : stEulerVertex) : Bool := r.leftOut.isNone

def stEulerHalfEdge_contains (e : stEulerHalfEdge) (v : VId) : Bool :=
  e.fr == v || e.toV == v

/-- `stEulerVertex_connected`, lifted over the two (possibly null) vertex
record pointers; `none` models the null-pointer dereference that the C code
performs when exactly one of the two pointers is null. -/
def stEulerVertex_connected (t : stEulerTour) (a b : Option VId) : Option Bool :=
  if a = b then some true
  else
    match a, b with
    | some ua, some ub =>
      match getVertex t ua, getVertex t ub with
      | some ra, some rb =>
        match ra.leftOut, rb.leftOut with
        | some ea, some eb => some (decide (tSeqOf t.treaps ea = tSeqOf t.treaps eb))
        | _, _ => some false
      | _, _ => none
    | _, _ => none

def presentId (t : stEulerTour) (v : VId) : Option VId :=
  match getVertex t v with
  | some _ => some v
  | none => none

def stEulerTour_connected (t : stEulerTour) (u v : VId) : Option Bool :=
  stEulerVertex_connected t (presentId t u) (presentId t v)

/-- `stEulerTour_size`; `none` models the null dereference on an absent id. -/
def stEulerTour_size (t : stEulerTour) (v : VId) : Option Nat :=
  match getVertex t v with
  | none => none
  | some r =>
    match r.leftOut with
    | none => some 1
    | some lo => some (tSize t.treaps lo / 2 + 1)

def stEulerTour_findRoot (t : stEulerTour) (v : VId) : Option EId :=
  match getVertex t v with
  | none => none
  | some r =>
    match r.leftOut with
    | none => none
    | some lo => tMinOf t.treaps lo

def stEulerTour_findRootNode (t : stEulerTour) (v : VId) : Option VId :=
  match stEulerTour_findRoot t v with
  | none => none
  | some m =>
    match getEdge t m with
    | none => none
    | some e => some e.fr

def stEulerTour_construct : stEulerTour :=
  { vertices := [], halfEdges := [], forwardEdges := [], backwardEdges := [],
    treaps := [], nComponents := 0, nextEdgeId := 1 }

def stEulerTour_createVertex (t : stEulerTour) (v : VId) : stEulerTour :=
  { t with vertices := (v, ⟨none, none⟩) :: t.vertices,
           nComponents := t.nComponents + 1 }

def stEulerTour_removeVertex (t : stEulerTour) (v : VId) : stEulerTour :=
  { t with vertices := assocRemove t.vertices v,
           nComponents := t.nComponents - 1 }

/-- The rotation at the end of `stEulerTour_makeRoot`: split after `g`,
and when the right part is non-empty, concatenate it in front of `g`'s part. -/
def rotateAfter (ts : TreapForest) (g : EId) : TreapForest :=
  match tSplitAfter ts g with
  | (some r, ts1) => tConcat ts1 r g
  | (none, ts1) => ts1

/-- `stEulerTour_makeRoot` (sonLibEulerTour.c lines 243 to 321).  The C code
takes the vertex record pointer; here the record is read from the tour by id.
All `assert`s are compiled out; undefined dereferences return `t` unchanged. -/
def stEulerTour_makeRoot (t : stEulerTour) (vid : VId) : stEulerTour :=
  match getVertex t vid with
  | none => t
  | some vrec =>
    match vrec.leftOut, vrec.rightIn with
    | none, _ => t
    | some _, none => t
    | some lo, some ri =>
      if tSize t.treaps lo = 2 then t
      else
        let f0 := if tCompare t.treaps lo ri > 0 then ri else lo
        match getEdge t f0 with
        | none => t
        | some fe =>
          let other := if fe.toV = vid then fe.fr else fe.toV
          match tNext t.treaps f0 with
          | none => t
          | some nx =>
            match getEdge t nx with
            | none => t
            | some nxe =>
              if !(stEulerHalfEdge_contains nxe vid) then
                match tPrev t.treaps f0 with
                | none => t
                | some pv => { t with treaps := rotateAfter t.treaps pv }
              else if stEulerHalfEdge_contains nxe other then
                let nn? := match tNext t.treaps nx with
                           | some z => some z
                           | none => tPrev t.treaps f0
                match nn? with
                | none => { t with treaps := rotateAfter t.treaps f0 }
                | some nnId =>
                  match getEdge t nnId with
                  | none => t
                  | some nne =>
                    if stEulerHalfEdge_contains nne vid then
                      { t with treaps := rotateAfter t.treaps nx }
                    else
                      { t with treaps := rotateAfter t.treaps f0 }
              else
                { t with treaps := rotateAfter t.treaps f0 }

/-- `stEulerTour_link` (sonLibEulerTour.c lines 322 to 394).  The forward
half-edge gets id `t.nextEdgeId`, the backward one `t.nextEdgeId + 1`; both
start as singleton treaps, as `stEulerHalfEdge_construct` allocates them.
`tleft` is the local variable of the C code, declared null and never
assigned before it is consulted. -/
def stEulerTour_link (t0 : stEulerTour) (u v : VId) : stEulerTour :=
  match getVertex t0 u, getVertex t0 v with
  | some _, some _ =>
    let fid := t0.nextEdgeId
    let bid := fid + 1
    let fE : stEulerHalfEdge := ⟨true, u, v, bid⟩
    let bE : stEulerHalfEdge := ⟨false, v, u, fid⟩
    let t1 : stEulerTour :=
      { t0 with nComponents := t0.nComponents - 1,
                halfEdges := (fid, fE) :: (bid, bE) :: t0.halfEdges,
                treaps := t0.treaps ++ [[fid], [bid]],
                forwardEdges := ((u, v), fid) :: t0.forwardEdges,
                backwardEdges := ((v, u), bid) :: t0.backwardEdges,
                nextEdgeId := bid + 1 }
    let t2 := stEulerTour_makeRoot t1 u
    let t3 := stEulerTour_makeRoot t2 v
    let t4 :=
      match (getVertex t3 u).bind (fun r => r.leftOut) with
      | some lo =>
        match tMinOf t3.treaps lo with
        | some m => { t3 with treaps := tConcat t3.treaps m fid }
        | none => t3
      | none =>
        match getVertex t3 u with
        | some r => setVertex t3 u { r with leftOut := some fid }
        | none => t3
    let t5 :=
      match (getVertex t4 v).bind (fun r => r.leftOut) with
      | some lo => { t4 with treaps := tConcat t4.treaps fid lo }
      | none =>
        match getVertex t4 v with
        | some r => setVertex t4 v { r with leftOut := some fid }
        | none => t4
    let t6 :=
      match (getVertex t5 v).bind (fun r => r.rightIn) with
      | some ri => { t5 with treaps := tConcat t5.treaps ri bid }
      | none =>
        let t5a :=
          match getVertex t5 v with
          | some r => setVertex t5 v { r with rightIn := some bid }
          | none => t5
        match (getVertex t5a u).bind (fun r => r.leftOut) with
        | some lo => { t5a with treaps := tConcat t5a.treaps lo bid }
        | none => t5a
    let tleft : Option EId := none
    match tleft with
    | some tl =>
      let t7 := { t6 with treaps := tConcat t6.treaps bid tl }
      match getVertex t7 u with
      | some r => setVertex t7 u { r with rightIn := some tl }
      | none => t7
    | none =>
      match getVertex t6 u with
      | some r => setVertex t6 u { r with rightIn := some bid }
      | none => t6
  | _, _ => t0

def setAnchors (t : stEulerTour) (v : VId) (lo ri : Option EId) : stEulerTour :=
  match getVertex t v with
  | some r => setVertex t v { r with leftOut := lo, rightIn := ri }
  | none => t

def edgeIndexFind (idx : List ((VId × VId) × EId)) (a b : VId) : Option EId :=
  assocFind idx (a, b)

/-- One `stEdgeContainer_deleteEdge` call on the forward container: the
container owns its half-edges, so deleting the index entry also frees the
half-edge record and tears down its (by now isolated) treap node. -/
def deleteEdgeF (t : stEulerTour) (a b : VId) : stEulerTour :=
  match edgeIndexFind t.forwardEdges a b with
  | none => t
  | some e =>
    { t with forwardEdges := assocRemove t.forwardEdges (a, b),
             halfEdges := assocRemove t.halfEdges e,
             treaps := tRemoveTreeOf t.treaps e }

def deleteEdgeB (t : stEulerTour) (a b : VId) : stEulerTour :=
  match edgeIndexFind t.backwardEdges a b with
  | none => t
  | some e =>
    { t with backwardEdges := assocRemove t.backwardEdges (a, b),
             halfEdges := assocRemove t.halfEdges e,
             treaps := tRemoveTreeOf t.treaps e }

/-- `stEulerTour_cut` (sonLibEulerTour.c lines 430 to 628), with `assert`s
compiled out.  `frV`/`toV` are `f->from`/`f->to` read before the orientation
swap, exactly as in the C code. -/
def stEulerTour_cut (t0 : stEulerTour) (u v : VId) : stEulerTour :=
  let t := { t0 with nComponents := t0.nComponents + 1 }
  let f? := match edgeIndexFind t.forwardEdges u v with
            | some e => some e
            | none => edgeIndexFind t.forwardEdges v u
  let b? := match edgeIndexFind t.backwardEdges u v with
            | some e => some e
            | none => edgeIndexFind t.backwardEdges v u
  match f?, b? with
  | some f0, some b0 =>
    match getEdge t f0 with
    | none => t
    | some f0e =>
      let frV := f0e.fr
      let toV := f0e.toV
      let fb := if tCompare t.treaps f0 b0 > 0 then (b0, f0) else (f0, b0)
      let f := fb.1
      let b := fb.2
      let p := tPrev t.treaps f
      let n := tNext t.treaps b
      let pn := tNext t.treaps f
      let nn := tPrev t.treaps b
      let s1 := tSplitBefore t.treaps f
      let s2 := tSplitAfter s1.2 b
      let ts3 := match s1.1, s2.1 with
                 | some h1, some h2 => tConcat s2.2 h1 h2
                 | _, _ => s2.2
      let t := { t with treaps := ts3 }
      match pn, nn with
      | some pnId, some nnId =>
        match getEdge t pnId, getEdge t nnId with
        | some pnE, some _ =>
          let t :=
            if stEulerHalfEdge_contains pnE frV && stEulerHalfEdge_contains pnE toV then
              let np : Option EId × Option EId :=
                if (n.isSome || p.isSome) && !(n.isSome && p.isSome) then
                  match n, p with
                  | none, some pId => (tMinOf t.treaps pId, p)
                  | some nId, none => (n, tMaxOf t.treaps nId)
                  | _, _ => (n, p)
                else (n, p)
              match np.1 with
              | some nId =>
                match getEdge t nId, np.2 with
                | some nE, some pId =>
                  if stEulerHalfEdge_contains nE frV then
                    setAnchors (setAnchors t frV (some nId) (some pId)) toV none none
                  else
                    setAnchors (setAnchors t toV (some nId) (some pId)) frV none none
                | _, _ => t
              | none =>
                setAnchors (setAnchors t frV none none) toV none none
            else if stEulerHalfEdge_contains pnE frV then
              let t := setAnchors t frV (some pnId) (some nnId)
              let np : Option EId × Option EId :=
                if (n.isSome || p.isSome) && !(n.isSome && p.isSome) then
                  match n, p with
                  | none, some pId => (tMinOf t.treaps pId, p)
                  | some nId, none => (n, tMaxOf t.treaps nId)
                  | _, _ => (n, p)
                else (n, p)
              match np.1 with
              | some nId =>
                match np.2 with
                | some pId => setAnchors t toV (some nId) (some pId)
                | none => t
              | none => setAnchors t toV none none
            else if stEulerHalfEdge_contains pnE toV then
              let t := setAnchors t toV (some pnId) (some nnId)
              let np : Option EId × Option EId :=
                if (n.isSome || p.isSome) && !(n.isSome && p.isSome) then
                  match n, p with
                  | none, some pId => (tMinOf t.treaps pId, p)
                  | some nId, none => (n, tMaxOf t.treaps nId)
                  | _, _ => (n, p)
                else (n, p)
              match np.1 with
              | some nId =>
                match np.2 with
                | some pId => setAnchors t frV (some nId) (some pId)
                | none => t
              | none => setAnchors t frV none none
            else t
          let t := { t with treaps := (tSplitAfter t.treaps f).2 }
          let t := { t with treaps := (tSplitBefore t.treaps b).2 }
          let t :=
            match (getVertex t frV).bind (fun r => r.leftOut) with
            | some lo => if tSize t.treaps lo = 1 then setAnchors t frV none none else t
            | none => t
          let t :=
            match (getVertex t toV).bind (fun r => r.leftOut) with
            | some lo => if tSize t.treaps lo = 1 then setAnchors t toV none none else t
            | none => t
          let t := deleteEdgeF t u v
          let t := deleteEdgeF t v u
          let t := deleteEdgeB t u v
          let t := deleteEdgeB t v u
          t
        | _, _ => t
      | _, _ => t
  | _, _ => t

/- ------------------------------------------------------------------ -/
/- Iterators                                                           -/
/- ------------------------------------------------------------------ -/

structure stEulerTourIterator where
  currentVertex : VId
  currentEdgeNode : Option EId
deriving Repr, DecidableEq

def stEulerTour_getIterator (t : stEulerTour) (v : VId) : stEulerTourIterator :=
  ⟨v, stEulerTour_findRoot t v⟩

/-- `stEulerTourIterator_getNext`.  The C function returns `void *`, so the
null pointer `0` doubles as the end-of-iteration sentinel and as a value. -/
def stEulerTourIterator_getNext (t : stEulerTour) (it : stEulerTourIterator) :
    VId × stEulerTourIterator :=
  match it.currentEdgeNode with
  | none => (it.currentVertex, ⟨0, none⟩)
  | some e =>
    match getEdge t e with
    | none => (it.currentVertex, ⟨0, none⟩)
    | some ed => (ed.fr, ⟨ed.toV, tNext t.treaps e⟩)

/-- The `while ((node = stEulerTourIterator_getNext(it)))` idiom: collect
yields until the iterator returns the null pointer. -/
def tourYieldsAux (t : stEulerTour) (it : stEulerTourIterator) : Nat → List VId
  | 0 => []
  | fuel + 1 =>
    let r := stEulerTourIterator_getNext t it
    if r.1 = 0 then [] else r.1 :: tourYieldsAux t r.2 fuel

/-- All values yielded by an iterator over `v`'s tour, in order, up to the
first null.  The fuel bound exceeds any tour length. -/
def stEulerTour_yields (t : stEulerTour) (v : VId) : List VId :=
  tourYieldsAux t (stEulerTour_getIterator t v) (t.halfEdges.length + 2)

/-- `stEulerTour_getNodesInComponent`: the set of yielded ids (an `stSet`
keeps one copy of each). -/
def stEulerTour_getNodesInComponent (t : stEulerTour) (v : VId) : List VId :=
  (stEulerTour_yields t v).dedup

/- ------------------------------------------------------------------ -/
/- Cross-structure invariants of the specification (section 3) and    -/
/- well-formedness checkers used as theorem hypotheses                 -/
/- ------------------------------------------------------------------ -/

def sameTreeB (ts : TreapForest) (a b : EId) : Bool := (tSeqOf ts a).contains b

/-- Cross-structure invariant 1: for each non-singleton vertex, `leftOut`
and `rightIn` are in the same treap (and they are absent together,
invariant I1). -/
def inv1holds (t : stEulerTour) : Bool :=
  t.vertices.all fun p =>
    match p.2.leftOut, p.2.rightIn with
    | some lo, some ri => sameTreeB t.treaps lo ri
    | none, none => true
    | _, _ => false

/-- Cross-structure invariant 2: for each present edge, its forward and
backward half-edges are in the same treap. -/
def inv2holds (t : stEulerTour) : Bool :=
  t.halfEdges.all fun p => sameTreeB t.treaps p.1 p.2.inverse

/-- The occurrences of vertex `w` in a treap sequence: the edges that
contain `w` as an endpoint, in tour order. -/
def occurrences (t : stEulerTour) (w : VId) (s : List EId) : List EId :=
  s.filter fun e =>
    match getEdge t e with
    | some ed => stEulerHalfEdge_contains ed w
    | none => false

/-- Cross-structure invariant 3: in the in-order treap sequence, the
minimum-ranked occurrence of each vertex is its `leftOut` and the
maximum-ranked is its `rightIn`. -/
def inv3holds (t : stEulerTour) : Bool :=
  t.vertices.all fun p =>
    match p.2.leftOut, p.2.rightIn with
    | some lo, some ri =>
      (occurrences t p.1 (tSeqOf t.treaps lo)).head? == some lo &&
      (occurrences t p.1 (tSeqOf t.treaps lo)).getLast? == some ri
    | _, _ => true

/-- The treap of each non-singleton vertex, as a set (so that re-rooting
rotations do not change the key); one entry per non-singleton vertex. -/
def componentKeys (t : stEulerTour) : List (Finset EId) :=
  t.vertices.filterMap fun p =>
    p.2.leftOut.map fun lo => (tSeqOf t.treaps lo).toFinset

def singletonCount (t : stEulerTour) : Nat :=
  (t.vertices.filter fun p => p.2.leftOut.isNone).length

/-- Cross-structure invariant 4: `nComponents` equals the number of
singleton vertices plus the number of distinct treaps among the
non-singleton vertices. -/
def inv4holds (t : stEulerTour) : Bool :=
  t.nComponents == (singletonCount t + (componentKeys t).dedup.length : Int)

/-- Treap forest sanity: every treap is non-empty and no node occurs twice
(also across treaps), every treap node carries an allocated half-edge and
every allocated half-edge sits in some treap role, half-edge ids are keyed
uniquely, and all node ids are below the allocation counter. -/
def wfForest (t : stEulerTour) : Bool :=
  t.treaps.all (fun s => !s.isEmpty) &&
  t.treaps.flatten.Nodup &&
  t.treaps.flatten.all (fun e => (getEdge t e).isSome) &&
  t.halfEdges.all (fun p => t.treaps.flatten.contains p.1) &&
  (t.halfEdges.map Prod.fst).Nodup &&
  t.treaps.flatten.all (fun e => e < t.nextEdgeId)

/-- Vertex table sanity: keys unique and non-null. -/
def wfVertices (t : stEulerTour) : Bool :=
  (t.vertices.map Prod.fst).Nodup && t.vertices.all (fun p => p.1 != 0)

/-- Anchor sanity: anchors are absent together or present together; present
anchors are two distinct allocated edges in one treap, and both contain the
vertex. -/
def wfAnchors (t : stEulerTour) : Bool :=
  t.vertices.all fun p =>
    match p.2.leftOut, p.2.rightIn with
    | none, none => true
    | some lo, some ri =>
      lo != ri &&
      (tSeqOf t.treaps lo).contains lo &&
      (tSeqOf t.treaps lo).contains ri &&
      (match getEdge t lo with
       | some e => stEulerHalfEdge_contains e p.1
       | none => false) &&
      (match getEdge t ri with
       | some e => stEulerHalfEdge_contains e p.1
       | none => false)
    | _, _ => false

/-- Half-edge pairing sanity: `inverse` is a distinct allocated edge in the
same treap, the involution and endpoint-swap laws hold, and the two
endpoints are distinct. -/
def wfPairs (t : stEulerTour) : Bool :=
  t.halfEdges.all fun p =>
    p.2.inverse != p.1 &&
    (tSeqOf t.treaps p.1).contains p.1 &&
    (tSeqOf t.treaps p.1).contains p.2.inverse &&
    p.2.fr != p.2.toV &&
    (match getEdge t p.2.inverse with
     | some inv => inv.inverse == p.1 && inv.fr == p.2.toV && inv.toV == p.2.fr
     | none => false)

/-- Endpoint sanity: each endpoint of an allocated edge is a present,
non-singleton vertex whose `leftOut` anchor lies in that edge's treap. -/
def wfEndpoints (t : stEulerTour) : Bool :=
  t.halfEdges.all fun p =>
    let chk := fun (w : VId) =>
      match getVertex t w with
      | some r =>
        match r.leftOut with
        | some lo => (tSeqOf t.treaps lo).contains p.1
        | none => false
      | none => false
    chk p.2.fr && chk p.2.toV

/-- Local tour-order conditions around each non-singleton vertex's earlier
anchor; these are what `makeRoot`'s case analysis relies on to leave an
edge containing the vertex at both ends of the rotated treap. -/
def wfOrder (t : stEulerTour) : Bool :=
  t.vertices.all fun p =>
    match p.2.leftOut, p.2.rightIn with
    | some lo, some ri =>
      let w := p.1
      let f0 := if tCompare t.treaps lo ri > 0 then ri else lo
      let s := tSeqOf t.treaps lo
      let cont := fun (e : EId) =>
        match getEdge t e with
        | some ed => stEulerHalfEdge_contains ed w
        | none => false
      (match tNext t.treaps f0 with
       | some nx =>
         if !(cont nx) then
           (match tPrev t.treaps f0 with
            | none => (match s.getLast? with | some l => cont l | none => false)
            | some q => cont q)
         else
           (match getEdge t f0 with
            | some fe =>
              let other := if fe.toV = w then fe.fr else fe.toV
              (match getEdge t nx with
               | some nxe =>
                 if stEulerHalfEdge_contains nxe other then
                   (match tNext t.treaps nx with
                    | none =>
                      (match tPrev t.treaps f0 with
                       | some q => !(cont q) ||
                           (match s.head? with | some h => cont h | none => false)
                       | none => true)
                    | some _ => true)
                 else true
               | none => false)
            | none => false)
       | none => false)
    | _, _ => true

/-- The conjunction of all well-formedness checkers.  Every state reachable
from an empty tour by `createVertex` / `link` / `cut` with non-null ids
satisfies it (checked exhaustively for small operation sequences). -/
def wfTour (t : stEulerTour) : Bool :=
  wfForest t && wfVertices t && wfAnchors t && wfPairs t &&
  wfEndpoints t && wfOrder t

/-- The ids of the vertices in `v`'s component, per the connectivity query. -/
def componentIds (t : stEulerTour) (v : VId) : List VId :=
  (t.vertices.map Prod.fst).filter fun w => stEulerTour_connected t v w == some true

/-- Whether the allocated half-edge `e` contains vertex `w` (false when `e`
is not allocated); the test used inside `wfOrder`. -/
def contE (t : stEulerTour) (w : VId) (e : EId) : Bool :=
  match getEdge t e with
  | some ed => stEulerHalfEdge_contains ed w
  | none => false

/-- A sane treap forest: trees are non-empty and no node appears twice. -/
def PartForest (ts : TreapForest) : Prop := (∀ s ∈ ts, s ≠ []) ∧ ts.flatten.Nodup

/-- Remove the treap of an optional anchor (no-op for an absent anchor). -/
def removeAnchorTree (ts : TreapForest) (o : Option EId) : TreapForest :=
  match o with
  | some e => tRemoveTreeOf ts e
  | none => ts

/-- The tail of `stEulerTour_link` after the two `makeRoot` calls, as a
function of the intermediate state; used only to state the evaluation of
`link` in stages (see `link_unfold`). -/
def linkTail (t3 : stEulerTour) (u v : VId) (fid bid : EId) : stEulerTour :=
  let t4 :=
    match (getVertex t3 u).bind (fun r => r.leftOut) with
    | some lo =>
      match tMinOf t3.treaps lo with
      | some m => { t3 with treaps := tConcat t3.treaps m fid }
      | none => t3
    | none =>
      match getVertex t3 u with
      | some r => setVertex t3 u { r with leftOut := some fid }
      | none => t3
  let t5 :=
    match (getVertex t4 v).bind (fun r => r.leftOut) with
    | some lo => { t4 with treaps := tConcat t4.treaps fid lo }
    | none =>
      match getVertex t4 v with
      | some r => setVertex t4 v { r with leftOut := some fid }
      | none => t4
  let t6 :=
    match (getVertex t5 v).bind (fun r => r.rightIn) with
    | some ri => { t5 with treaps := tConcat t5.treaps ri bid }
    | none =>
      let t5a :=
        match getVertex t5 v with
        | some r => setVertex t5 v { r with rightIn := some bid }
        | none => t5
      match (getVertex t5a u).bind (fun r => r.leftOut) with
      | some lo => { t5a with treaps := tConcat t5a.treaps lo bid }
      | none => t5a
  let tleft : Option EId := none
  match tleft with
  | some tl =>
    let t7 := { t6 with treaps := tConcat t6.treaps bid tl }
    match getVertex t7 u with
    | some r => setVertex t7 u { r with rightIn := some tl }
    | none => t7
  | none =>
    match getVertex t6 u with
    | some r => setVertex t6 u { r with rightIn := some bid }
    | none => t6

/-- Everything `stEulerTour_link` produces, stated against the pre-state:
`U` and `V` are the re-rooted tours of `u` and `v` (empty for singletons),
`ts'` is the resulting forest, in which the merged tour is
`U ++ fid :: (V ++ [bid])` with `fid`/`bid` the two freshly allocated
half-edges, and every other treap is untouched. -/
def LinkShapeConcl (t0 : stEulerTour) (u v : VId) (ru rv : stEulerVertex)
    (U V : List EId) (ts' : TreapForest) : Prop :=
  ((U = []) ↔ ru.leftOut = none) ∧
  ((V = []) ↔ rv.leftOut = none) ∧
  (∀ lo, ru.leftOut = some lo → U.Perm (tSeqOf t0.treaps lo)) ∧
  (∀ lo, rv.leftOut = some lo → V.Perm (tSeqOf t0.treaps lo)) ∧
  (∀ hd, U.head? = some hd → contE t0 u hd = true) ∧
  (∀ l, U.getLast? = some l → contE t0 u l = true) ∧
  (∀ hd, V.head? = some hd → contE t0 v hd = true) ∧
  (∀ l, V.getLast? = some l → contE t0 v l = true) ∧
  PartForest ts' ∧
  ts'.flatten.Perm (t0.nextEdgeId :: (t0.nextEdgeId + 1) :: t0.treaps.flatten) ∧
  (∀ x ∈ U ++ t0.nextEdgeId :: (V ++ [t0.nextEdgeId + 1]),
    tSeqOf ts' x = U ++ t0.nextEdgeId :: (V ++ [t0.nextEdgeId + 1])) ∧
  (∀ x, x ∉ U → x ∉ V → x ≠ t0.nextEdgeId → x ≠ t0.nextEdgeId + 1 →
    tSeqOf ts' x = tSeqOf t0.treaps x) ∧
  stEulerTour_link t0 u v =
    { vertices := t0.vertices.map (fun p =>
        if p.1 = u then
          (u, ⟨some (ru.leftOut.getD t0.nextEdgeId), some (t0.nextEdgeId + 1)⟩)
        else if p.1 = v then
          (v, ⟨some (rv.leftOut.getD t0.nextEdgeId),
              some (rv.rightIn.getD (t0.nextEdgeId + 1))⟩)
        else p),
      halfEdges := (t0.nextEdgeId, ⟨true, u, v, t0.nextEdgeId + 1⟩) ::
                   (t0.nextEdgeId + 1, ⟨false, v, u, t0.nextEdgeId⟩) ::
                   t0.halfEdges,
      forwardEdges := ((u, v), t0.nextEdgeId) :: t0.forwardEdges,
      backwardEdges := ((v, u), t0.nextEdgeId + 1) :: t0.backwardEdges,
      treaps := ts',
      nComponents := t0.nComponents - 1,
      nextEdgeId := t0.nextEdgeId + 2 }

/-- What `makeRoot` guarantees about its result (used by the link and cut
proofs): the result differs from `t` only in the treap forest; the forest
stays a sane partition with the same node classes; and the tree of the
vertex's `leftOut` anchor becomes a permutation of the old one whose first
and last edges both contain the vertex. -/
def MakeRootConcl (t : stEulerTour) (w : VId) (lo : EId) : Prop :=
  (∃ ts', stEulerTour_makeRoot t w = { t with treaps := ts' }) ∧
  PartForest (stEulerTour_makeRoot t w).treaps ∧
  (stEulerTour_makeRoot t w).treaps.flatten.Perm t.treaps.flatten ∧
  (∀ x, x ∉ tSeqOf t.treaps lo →
    tSeqOf (stEulerTour_makeRoot t w).treaps x = tSeqOf t.treaps x) ∧
  (∀ x ∈ tSeqOf t.treaps lo,
    tSeqOf (stEulerTour_makeRoot t w).treaps x
      = tSeqOf (stEulerTour_makeRoot t w).treaps lo) ∧
  (tSeqOf (stEulerTour_makeRoot t w).treaps lo).Perm (tSeqOf t.treaps lo) ∧
  (∃ hd, (tSeqOf (stEulerTour_makeRoot t w).treaps lo).head? = some hd ∧
    contE t w hd = true) ∧
  (∃ l, (tSeqOf (stEulerTour_makeRoot t w).treaps lo).getLast? = some l ∧
    contE t w l = true)

/-- The chain `1 - 2 - 3` plus the isolated vertex `4`: the smallest
configuration on which `makeRoot`'s rotation during a later `link`
re-orders another vertex's occurrences. -/
def chainTour : stEulerTour :=
  stEulerTour_link (stEulerTour_link (stEulerTour_createVertex
    (stEulerTour_createVertex (stEulerTour_createVertex
      (stEulerTour_createVertex stEulerTour_construct 1) 2) 3) 4) 1 2) 2 3

/-- The two-vertex tour `1 - 2`. -/
def pairTour : stEulerTour :=
  stEulerTour_link (stEulerTour_createVertex
    (stEulerTour_createVertex stEulerTour_construct 1) 2) 1 2

/-- The `from` endpoint of an allocated half-edge (`0` when unallocated);
what one `getNext` step yields. -/
def edFr (t : stEulerTour) (e : EId) : VId :=
  match getEdge t e with
  | some ed => ed.fr
  | none => 0

/-- The `to` endpoint of an allocated half-edge (`0` when unallocated). -/
def edTo (t : stEulerTour) (e : EId) : VId :=
  match getEdge t e with
  | some ed => ed.toV
  | none => 0

/- ------------------------------------------------------------------ -/
/- Lemma kit: association lists                                        -/
/- ------------------------------------------------------------------ -/

theorem assocFind_mem {α β : Type} [DecidableEq α] {l : List (α × β)} {k : α} {b : β}
    (h : assocFind l k = some b) : (k, b) ∈ l := by
  induction l with
  | nil => simp [assocFind] at h
  | cons p rest ih =>
    obtain ⟨k', v⟩ := p
    rw [assocFind] at h
    by_cases hk : k' = k
    · subst hk
      simp at h
      subst h
      exact List.mem_cons_self _ _
    · simp [hk] at h
      exact List.mem_cons_of_mem _ (ih h)

theorem assocFind_isSome_iff {α β : Type} [DecidableEq α] {l : List (α × β)} {k : α} :
    (assocFind l k).isSome ↔ ∃ b, (k, b) ∈ l := by
  constructor
  · intro h
    obtain ⟨b, hb⟩ := Option.isSome_iff_exists.mp h
    exact ⟨b, assocFind_mem hb⟩
  · intro ⟨b, hb⟩
    induction l with
    | nil => cases hb
    | cons p rest ih =>
      obtain ⟨k', v⟩ := p
      rw [assocFind]
      by_cases hk : k' = k
      · simp [hk]
      · simp [hk]
        rcases List.mem_cons.mp hb with heq | hmem
        · cases heq; exact absurd rfl hk
        · exact ih hmem

/- ------------------------------------------------------------------ -/
/- Lemma kit: takeWhile / dropWhile around a distinguished element     -/
/- ------------------------------------------------------------------ -/

theorem takeWhile_ne_eq {g : EId} : ∀ (T D : List EId), (∀ t ∈ T, t ≠ g) →
    (T ++ g :: D).takeWhile (fun y => y != g) = T := by
  intro T D hT
  induction T with
  | nil => simp
  | cons a T ih =>
    have ha : (a != g) = true := by
      simp only [bne_iff_ne, ne_eq]
      exact hT a (List.mem_cons_self _ _)
    simp only [List.cons_append, List.takeWhile_cons, ha, if_true]
    rw [ih (fun t ht => hT t (List.mem_cons_of_mem _ ht))]

theorem dropWhile_ne_eq {g : EId} : ∀ (T D : List EId), (∀ t ∈ T, t ≠ g) →
    (T ++ g :: D).dropWhile (fun y => y != g) = g :: D := by
  intro T D hT
  induction T with
  | nil => simp
  | cons a T ih =>
    have ha : (a != g) = true := by
      simp only [bne_iff_ne, ne_eq]
      exact hT a (List.mem_cons_self _ _)
    simp only [List.cons_append, List.dropWhile_cons, ha, if_true]
    exact ih (fun t ht => hT t (List.mem_cons_of_mem _ ht))

theorem contains_iff {l : List EId} {x : EId} : l.contains x = true ↔ x ∈ l := by
  simp [List.contains, List.elem_iff]

theorem contains_false_iff {l : List EId} {x : EId} :
    l.contains x = false ↔ x ∉ l := by
  rw [← Bool.not_eq_true, not_iff_not]
  exact contains_iff

/- ------------------------------------------------------------------ -/
/- Lemma kit: tSeqOf on a sane forest                                  -/
/- ------------------------------------------------------------------ -/

theorem tSeqOf_eq {ts : TreapForest} (hn : ts.flatten.Nodup) {s : List EId} {x : EId}
    (hs : s ∈ ts) (hx : x ∈ s) : tSeqOf ts x = s := by
  induction ts with
  | nil => cases hs
  | cons a rest ih =>
    rw [List.flatten_cons, List.nodup_append] at hn
    by_cases ha : x ∈ a
    · have hsa : s = a := by
        rcases List.mem_cons.mp hs with rfl | hs'
        · rfl
        · exact absurd (hn.2.2 ha (List.mem_flatten.mpr ⟨s, hs', hx⟩)) (by simp)
      subst hsa
      have hfind : List.find? (fun s => s.contains x) (s :: rest) = some s := by
        have hc : (fun (s : List EId) => s.contains x) s = true := contains_iff.mpr ha
        exact List.find?_cons_of_pos _ hc
      unfold tSeqOf
      rw [hfind]
    · have hsr : s ∈ rest := by
        rcases List.mem_cons.mp hs with rfl | hs'
        · exact absurd hx ha
        · exact hs'
      have hfind : List.find? (fun s => s.contains x) (a :: rest) =
          List.find? (fun s => s.contains x) rest := by
        have hc : ¬ (fun (s : List EId) => s.contains x) a = true := by
          intro h
          exact ha (contains_iff.mp h)
        exact List.find?_cons_of_neg _ hc
      unfold tSeqOf
      rw [hfind]
      exact ih hn.2.1 hsr

theorem tSeqOf_spec (ts : TreapForest) (x : EId) :
    tSeqOf ts x = [] ∨ (tSeqOf ts x ∈ ts ∧ x ∈ tSeqOf ts x) := by
  cases hf : List.find? (fun s => s.contains x) ts with
  | none =>
    left
    unfold tSeqOf
    rw [hf]
  | some s =>
    right
    have h1 : tSeqOf ts x = s := by unfold tSeqOf; rw [hf]
    rw [h1]
    exact ⟨List.mem_of_find?_eq_some hf,
           contains_iff.mp (by simpa using List.find?_some hf)⟩

theorem tSeqOf_self_mem {ts : TreapForest} {x : EId} (hx : x ∈ ts.flatten) :
    tSeqOf ts x ∈ ts ∧ x ∈ tSeqOf ts x := by
  rcases tSeqOf_spec ts x with h | h
  · exfalso
    obtain ⟨s, hs, hxs⟩ := List.mem_flatten.mp hx
    cases hf : List.find? (fun s => s.contains x) ts with
    | none =>
      rw [List.find?_eq_none] at hf
      exact hf s hs (contains_iff.mpr hxs)
    | some s' =>
      have h1 : tSeqOf ts x = s' := by unfold tSeqOf; rw [hf]
      have h2 : x ∈ s' := contains_iff.mp (by simpa using List.find?_some hf)
      rw [h1] at h
      subst h
      cases h2
  · exact h

theorem tSeqOf_eq_nil {ts : TreapForest} {x : EId} (hx : x ∉ ts.flatten) :
    tSeqOf ts x = [] := by
  rcases tSeqOf_spec ts x with h | h
  · exact h
  · exact absurd (List.mem_flatten.mpr ⟨tSeqOf ts x, h.1, h.2⟩) hx

theorem mem_flatten_of_mem_tSeqOf {ts : TreapForest} {x y : EId}
    (hy : y ∈ tSeqOf ts x) : y ∈ ts.flatten := by
  rcases tSeqOf_spec ts x with h | h
  · rw [h] at hy; cases hy
  · exact List.mem_flatten.mpr ⟨tSeqOf ts x, h.1, hy⟩

theorem tSeqOf_same {ts : TreapForest} (hn : ts.flatten.Nodup) {x y : EId}
    (hy : y ∈ tSeqOf ts x) : tSeqOf ts y = tSeqOf ts x := by
  rcases tSeqOf_spec ts x with h | h
  · rw [h] at hy; cases hy
  · exact tSeqOf_eq hn h.1 hy

theorem nodup_of_mem_flatten {ts : TreapForest} (hn : ts.flatten.Nodup)
    {s : List EId} (hs : s ∈ ts) : s.Nodup := by
  induction ts with
  | nil => cases hs
  | cons a rest ih =>
    rw [List.flatten_cons, List.nodup_append] at hn
    rcases List.mem_cons.mp hs with rfl | hs'
    · exact hn.1
    · exact ih hn.2.1 hs'

theorem flatten_filter_sublist (ts : TreapForest) (p : List EId → Bool) :
    (ts.filter p).flatten.Sublist ts.flatten := by
  induction ts with
  | nil => simp
  | cons a rest ih =>
    rw [List.flatten_cons]
    by_cases hp : p a = true
    · rw [List.filter_cons_of_pos hp, List.flatten_cons]
      exact ih.append_left a
    · rw [List.filter_cons_of_neg (by simp [hp])]
      exact ih.trans (List.sublist_append_right a rest.flatten)

theorem filter_contains_eq {ts : TreapForest} (hn : ts.flatten.Nodup) {g : EId}
    (hg : g ∈ ts.flatten) :
    ts.filter (fun s => s.contains g) = [tSeqOf ts g] := by
  induction ts with
  | nil => cases hg
  | cons a rest ih =>
    rw [List.flatten_cons, List.nodup_append] at hn
    by_cases ha : g ∈ a
    · have hstep : List.filter (fun s => s.contains g) (a :: rest) =
          a :: List.filter (fun s => s.contains g) rest :=
        List.filter_cons_of_pos (contains_iff.mpr ha)
      rw [hstep]
      have h1 : tSeqOf (a :: rest) g = a :=
        tSeqOf_eq (by rw [List.flatten_cons, List.nodup_append]; exact hn)
          (List.mem_cons_self _ _) ha
      rw [h1]
      have h2 : rest.filter (fun s => s.contains g) = [] := by
        rw [List.filter_eq_nil_iff]
        intro s hs hcon
        exact hn.2.2 ha (List.mem_flatten.mpr ⟨s, hs, contains_iff.mp hcon⟩)
      rw [h2]
    · have hfa : List.find? (fun s => s.contains g) (a :: rest) =
          List.find? (fun s => s.contains g) rest := by
        have hc : ¬ (fun (s : List EId) => s.contains g) a = true := by
          intro h
          exact ha (contains_iff.mp h)
        exact List.find?_cons_of_neg _ hc
      have hgr : g ∈ rest.flatten := by
        rw [List.flatten_cons, List.mem_append] at hg
        rcases hg with h | h
        · exact absurd h ha
        · exact h
      have hstep : List.filter (fun s => s.contains g) (a :: rest) =
          List.filter (fun s => s.contains g) rest :=
        List.filter_cons_of_neg (fun h => ha (contains_iff.mp h))
      rw [hstep]
      have : tSeqOf (a :: rest) g = tSeqOf rest g := by
        unfold tSeqOf
        rw [hfa]
      rw [this]
      exact ih hn.2.1 hgr

theorem removeTree_perm {ts : TreapForest} (hn : ts.flatten.Nodup) {g : EId}
    (hg : g ∈ ts.flatten) :
    ts.Perm (tRemoveTreeOf ts g ++ [tSeqOf ts g]) := by
  have h1 := List.filter_append_perm (fun s => s.contains g) ts
  rw [filter_contains_eq hn hg] at h1
  have h2 : ts.Perm ([tSeqOf ts g] ++ tRemoveTreeOf ts g) := h1.symm
  exact h2.trans (List.perm_append_comm)

theorem flatten_removeTree_perm {ts : TreapForest} (hn : ts.flatten.Nodup) {g : EId}
    (hg : g ∈ ts.flatten) :
    ts.flatten.Perm ((tRemoveTreeOf ts g).flatten ++ tSeqOf ts g) := by
  have := (removeTree_perm hn hg).flatten
  rw [List.flatten_append] at this
  simpa using this

theorem seq_split {ts : TreapForest} (hn : ts.flatten.Nodup) {x : EId}
    (hx : x ∈ ts.flatten) :
    ∃ T D, tSeqOf ts x = T ++ x :: D ∧ x ∉ T ∧ x ∉ D := by
  obtain ⟨hmem, hxin⟩ := tSeqOf_self_mem hx
  obtain ⟨T, D, hTD⟩ := List.append_of_mem hxin
  have hnd : (tSeqOf ts x).Nodup := nodup_of_mem_flatten hn hmem
  rw [hTD] at hnd
  have h2 := List.nodup_middle.mp hnd
  have h3 := List.nodup_cons.mp h2
  exact ⟨T, D, hTD,
    fun hT => h3.1 (List.mem_append_left D hT),
    fun hD => h3.1 (List.mem_append_right T hD)⟩

theorem ne_of_not_mem {T : List EId} {x : EId} (hx : x ∉ T) : ∀ t ∈ T, t ≠ x :=
  fun t ht heq => hx (heq ▸ ht)

theorem tNext_eq {ts : TreapForest} {x : EId} {T D : List EId}
    (hS : tSeqOf ts x = T ++ x :: D) (hxT : x ∉ T) :
    tNext ts x = D.head? := by
  unfold tNext
  rw [hS, dropWhile_ne_eq T D (ne_of_not_mem hxT)]
  simp

theorem tPrev_eq {ts : TreapForest} {x : EId} {T D : List EId}
    (hS : tSeqOf ts x = T ++ x :: D) (hxT : x ∉ T) :
    tPrev ts x = T.getLast? := by
  unfold tPrev
  rw [hS, takeWhile_ne_eq T D (ne_of_not_mem hxT)]

theorem tIdx_eq {ts : TreapForest} {x : EId} {T D : List EId}
    (hS : tSeqOf ts x = T ++ x :: D) (hxT : x ∉ T) :
    tIdx ts x = T.length := by
  unfold tIdx
  rw [hS, takeWhile_ne_eq T D (ne_of_not_mem hxT)]

theorem tree_eq_of_shared {ts : TreapForest} (hn : ts.flatten.Nodup)
    {s s' : List EId} (hs : s ∈ ts) (hs' : s' ∈ ts) {y : EId}
    (hy : y ∈ s) (hy' : y ∈ s') : s = s' := by
  rw [← tSeqOf_eq hn hs hy, ← tSeqOf_eq hn hs' hy']

theorem mem_of_mem_removeTree {ts : TreapForest} {g : EId} {s : List EId}
    (hs : s ∈ tRemoveTreeOf ts g) : s ∈ ts :=
  List.mem_of_mem_filter hs

theorem not_mem_of_mem_removeTree {ts : TreapForest} {g : EId} {s : List EId}
    (hs : s ∈ tRemoveTreeOf ts g) : g ∉ s := by
  have h := List.of_mem_filter hs
  simp only [Bool.not_eq_true'] at h
  exact contains_false_iff.mp h

theorem removeTree_avoid {ts : TreapForest} (hn : ts.flatten.Nodup) {g : EId}
    {s : List EId} (hs : s ∈ tRemoveTreeOf ts g) {d : EId}
    (hd : d ∈ tSeqOf ts g) : d ∉ s := by
  intro hds
  rcases tSeqOf_spec ts g with h | h
  · rw [h] at hd; cases hd
  · have := tree_eq_of_shared hn (mem_of_mem_removeTree hs) h.1 hds hd
    subst this
    exact not_mem_of_mem_removeTree hs h.2

theorem flatten_remove_append_perm {ts : TreapForest} (hn : ts.flatten.Nodup)
    {g : EId} (hg : g ∈ ts.flatten) (L : TreapForest)
    (hL : L.flatten.Perm (tSeqOf ts g)) :
    (tRemoveTreeOf ts g ++ L).flatten.Perm ts.flatten := by
  rw [List.flatten_append]
  have h1 : ((tRemoveTreeOf ts g).flatten ++ L.flatten).Perm
      ((tRemoveTreeOf ts g).flatten ++ tSeqOf ts g) := List.Perm.append_left _ hL
  exact h1.trans (flatten_removeTree_perm hn hg).symm

theorem part_remove_append {ts : TreapForest} (hp : PartForest ts)
    {g : EId} (hg : g ∈ ts.flatten) (L : TreapForest)
    (hL : L.flatten.Perm (tSeqOf ts g)) (hLne : ∀ s ∈ L, s ≠ []) :
    PartForest (tRemoveTreeOf ts g ++ L) := by
  constructor
  · intro s hs
    rcases List.mem_append.mp hs with h | h
    · exact hp.1 s (mem_of_mem_removeTree h)
    · exact hLne s h
  · exact (flatten_remove_append_perm hp.2 hg L hL).nodup_iff.mpr hp.2

theorem tSplitAfter_eq {ts : TreapForest} {x : EId} {T D : List EId}
    (hS : tSeqOf ts x = T ++ x :: D) (hxT : x ∉ T) :
    tSplitAfter ts x =
      (D.head?, tRemoveTreeOf ts x ++ if D.isEmpty then [T ++ [x]] else [T ++ [x], D]) := by
  have hc : (T ++ x :: D).contains x = true := contains_iff.mpr (by simp)
  unfold tSplitAfter
  rw [hS]
  simp only [hc, if_true, takeWhile_ne_eq T D (ne_of_not_mem hxT),
    dropWhile_ne_eq T D (ne_of_not_mem hxT), List.drop_succ_cons, List.drop_zero]

theorem tSplitBefore_eq {ts : TreapForest} {x : EId} {T D : List EId}
    (hS : tSeqOf ts x = T ++ x :: D) (hxT : x ∉ T) :
    tSplitBefore ts x =
      (T.head?, tRemoveTreeOf ts x ++ if T.isEmpty then [x :: D] else [T, x :: D]) := by
  have hc : (T ++ x :: D).contains x = true := contains_iff.mpr (by simp)
  unfold tSplitBefore
  rw [hS]
  simp only [hc, if_true, takeWhile_ne_eq T D (ne_of_not_mem hxT),
    dropWhile_ne_eq T D (ne_of_not_mem hxT)]

theorem tConcat_eq {ts : TreapForest} (hn : ts.flatten.Nodup) {a b : EId}
    (ha : a ∈ ts.flatten) (hb : b ∈ ts.flatten)
    (hab : b ∉ tSeqOf ts a) :
    tConcat ts a b =
      tRemoveTreeOf (tRemoveTreeOf ts a) b ++ [tSeqOf ts a ++ tSeqOf ts b] := by
  have hane : tSeqOf ts a ≠ [] := by
    intro h
    have := (tSeqOf_self_mem ha).2
    rw [h] at this
    cases this
  have hbne : tSeqOf ts b ≠ [] := by
    intro h
    have := (tSeqOf_self_mem hb).2
    rw [h] at this
    cases this
  have hcb : (tSeqOf ts a).contains b = false := contains_false_iff.mpr hab
  simp only [tConcat]
  rw [if_neg (by simp [List.isEmpty_iff, hane, hbne])]
  rw [if_neg (by simp only [contains_iff]; exact hab)]

theorem part_of_perm {ts ts' : TreapForest} (hperm : ts'.flatten.Perm ts.flatten)
    (hn : ts.flatten.Nodup) (hne : ∀ s ∈ ts', s ≠ []) : PartForest ts' :=
  ⟨hne, hperm.nodup_iff.mpr hn⟩

theorem removeTree_flatten_nodup {ts : TreapForest} (hn : ts.flatten.Nodup)
    (g : EId) : (tRemoveTreeOf ts g).flatten.Nodup :=
  (flatten_filter_sublist ts _).nodup hn

theorem mem_removeTree_flatten {ts : TreapForest} (hn : ts.flatten.Nodup) {a g : EId}
    (hg : g ∈ ts.flatten) (ha : a ∈ ts.flatten) (hag : a ∉ tSeqOf ts g) :
    a ∈ (tRemoveTreeOf ts g).flatten := by
  have hperm := flatten_removeTree_perm hn hg
  have := hperm.mem_iff.mp ha
  rcases List.mem_append.mp this with h | h
  · exact h
  · exact absurd h hag

theorem tSeqOf_removeTree {ts : TreapForest} (hn : ts.flatten.Nodup) {b g : EId}
    (hb : b ∈ ts.flatten) (hbg : b ∉ tSeqOf ts g) :
    tSeqOf (tRemoveTreeOf ts g) b = tSeqOf ts b := by
  obtain ⟨hmem, hbin⟩ := tSeqOf_self_mem hb
  have hsb : tSeqOf ts b ∈ tRemoveTreeOf ts g := by
    apply List.mem_filter.mpr
    refine ⟨hmem, ?_⟩
    simp only [Bool.not_eq_true']
    rw [contains_false_iff]
    intro hg'
    have heq : tSeqOf ts g = tSeqOf ts b := tSeqOf_same hn hg'
    rw [heq] at hbg
    exact hbg hbin
  exact tSeqOf_eq (removeTree_flatten_nodup hn g) hsb hbin

theorem tConcat_perm {ts : TreapForest} (hn : ts.flatten.Nodup) {a b : EId}
    (ha : a ∈ ts.flatten) (hb : b ∈ ts.flatten) (hab : b ∉ tSeqOf ts a) :
    (tConcat ts a b).flatten.Perm ts.flatten := by
  rw [tConcat_eq hn ha hb hab]
  have hrm1n : (tRemoveTreeOf ts a).flatten.Nodup := removeTree_flatten_nodup hn a
  have hbrm1 : b ∈ (tRemoveTreeOf ts a).flatten := mem_removeTree_flatten hn ha hb hab
  have hseq : tSeqOf (tRemoveTreeOf ts a) b = tSeqOf ts b := tSeqOf_removeTree hn hb hab
  have h2 := flatten_removeTree_perm hrm1n hbrm1
  rw [hseq] at h2
  have h1 := flatten_removeTree_perm hn ha
  rw [List.flatten_append]
  simp only [List.flatten_cons, List.flatten_nil, List.append_nil]
  have habc : ∀ X A B : List EId, (X ++ (A ++ B)).Perm ((X ++ B) ++ A) := by
    intro X A B
    have hstep : (X ++ (A ++ B)).Perm (X ++ (B ++ A)) :=
      List.Perm.append_left _ List.perm_append_comm
    have heq : X ++ (B ++ A) = (X ++ B) ++ A := (List.append_assoc X B A).symm
    rw [heq] at hstep
    exact hstep
  have hh := habc ((tRemoveTreeOf (tRemoveTreeOf ts a) b).flatten)
      (tSeqOf ts a) (tSeqOf ts b)
  exact hh.trans ((List.Perm.append_right _ h2.symm).trans h1.symm)

theorem tConcat_nodup {ts : TreapForest} (hn : ts.flatten.Nodup) {a b : EId}
    (ha : a ∈ ts.flatten) (hb : b ∈ ts.flatten) (hab : b ∉ tSeqOf ts a) :
    (tConcat ts a b).flatten.Nodup :=
  (tConcat_perm hn ha hb hab).nodup_iff.mpr hn

theorem tSeqOf_tConcat_new {ts : TreapForest} (hn : ts.flatten.Nodup) {a b : EId}
    (ha : a ∈ ts.flatten) (hb : b ∈ ts.flatten) (hab : b ∉ tSeqOf ts a)
    {x : EId} (hx : x ∈ tSeqOf ts a ++ tSeqOf ts b) :
    tSeqOf (tConcat ts a b) x = tSeqOf ts a ++ tSeqOf ts b := by
  have hnd := tConcat_nodup hn ha hb hab
  rw [tConcat_eq hn ha hb hab] at hnd ⊢
  exact tSeqOf_eq hnd (List.mem_append_right _ (List.mem_singleton.mpr rfl)) hx

theorem tSeqOf_tConcat_old {ts : TreapForest} (hn : ts.flatten.Nodup) {a b : EId}
    (ha : a ∈ ts.flatten) (hb : b ∈ ts.flatten) (hab : b ∉ tSeqOf ts a)
    {x : EId} (hxa : x ∉ tSeqOf ts a) (hxb : x ∉ tSeqOf ts b) :
    tSeqOf (tConcat ts a b) x = tSeqOf ts x := by
  have hnd := tConcat_nodup hn ha hb hab
  by_cases hx : x ∈ ts.flatten
  · obtain ⟨hmem, hxin⟩ := tSeqOf_self_mem hx
    have hs1 : tSeqOf ts x ∈ tRemoveTreeOf ts a := by
      apply List.mem_filter.mpr
      refine ⟨hmem, ?_⟩
      simp only [Bool.not_eq_true']
      rw [contains_false_iff]
      intro ha'
      have := tSeqOf_same hn ha'
      rw [this] at hxa
      exact hxa hxin
    have hs2 : tSeqOf ts x ∈ tRemoveTreeOf (tRemoveTreeOf ts a) b := by
      apply List.mem_filter.mpr
      refine ⟨hs1, ?_⟩
      simp only [Bool.not_eq_true']
      rw [contains_false_iff]
      intro hb'
      have hrm1n := removeTree_flatten_nodup hn a
      have heq : tSeqOf (tRemoveTreeOf ts a) b = tSeqOf ts x := by
        apply tSeqOf_eq hrm1n hs1 hb'
      have heq2 : tSeqOf (tRemoveTreeOf ts a) b = tSeqOf ts b :=
        tSeqOf_removeTree hn hb hab
      rw [heq2] at heq
      rw [heq] at hxb
      exact hxb hxin
    rw [tConcat_eq hn ha hb hab] at hnd ⊢
    rw [tSeqOf_eq hnd (List.mem_append_left _ hs2) hxin]
  · rw [tSeqOf_eq_nil hx, tSeqOf_eq_nil]
    intro hmem
    exact hx ((tConcat_perm hn ha hb hab).mem_iff.mp hmem)

theorem rotateAfter_eq {ts : TreapForest} (hp : PartForest ts) {g : EId}
    {T D : List EId} (hS : tSeqOf ts g = T ++ g :: D) (hg : g ∈ ts.flatten) :
    rotateAfter ts g = tRemoveTreeOf ts g ++ [D ++ (T ++ [g])] := by
  have hnds : (T ++ g :: D).Nodup := by
    have := nodup_of_mem_flatten hp.2 (tSeqOf_self_mem hg).1
    rw [hS] at this
    exact this
  have hsplit := List.nodup_append.mp hnds
  have hgT : g ∉ T := fun h => hsplit.2.2 h (List.mem_cons_self _ _)
  have hgD : g ∉ D := (List.nodup_cons.mp hsplit.2.1).1
  unfold rotateAfter
  rw [tSplitAfter_eq hS hgT]
  cases D with
  | nil => simp
  | cons d D' =>
    simp only [List.isEmpty_cons, List.head?_cons, if_false, Bool.false_eq_true]
    have hdT : d ∉ T := fun h => hsplit.2.2 h (by simp)
    have hdg : d ≠ g := by
      intro h
      exact hgD (h ▸ List.mem_cons_self _ _)
    have hdD' : d ∉ D' := (List.nodup_cons.mp (List.nodup_cons.mp hsplit.2.1).2).1
    have hLperm : ([T ++ [g], d :: D'] : TreapForest).flatten.Perm (tSeqOf ts g) := by
      rw [hS]
      simp only [List.flatten_cons, List.flatten_nil, List.append_nil]
      have : (T ++ [g]) ++ d :: D' = T ++ g :: d :: D' := by
        rw [List.append_assoc]
        rfl
      rw [this]
    have hpart1 : PartForest (tRemoveTreeOf ts g ++ [T ++ [g], d :: D']) :=
      part_remove_append hp hg _ hLperm (by
        intro s hs
        rcases List.mem_cons.mp hs with rfl | hs'
        · simp
        · rcases List.mem_cons.mp hs' with rfl | h
          · simp
          · cases h)
    have hmem1 : (T ++ [g]) ∈ tRemoveTreeOf ts g ++ [T ++ [g], d :: D'] := by
      apply List.mem_append_right
      simp
    have hmem2 : (d :: D') ∈ tRemoveTreeOf ts g ++ [T ++ [g], d :: D'] := by
      apply List.mem_append_right
      simp
    have hseq_g : tSeqOf (tRemoveTreeOf ts g ++ [T ++ [g], d :: D']) g = T ++ [g] :=
      tSeqOf_eq hpart1.2 hmem1 (by simp)
    have hseq_d : tSeqOf (tRemoveTreeOf ts g ++ [T ++ [g], d :: D']) d = d :: D' :=
      tSeqOf_eq hpart1.2 hmem2 (by simp)
    have hdflat : d ∈ (tRemoveTreeOf ts g ++ [T ++ [g], d :: D']).flatten :=
      List.mem_flatten.mpr ⟨d :: D', hmem2, by simp⟩
    have hgflat : g ∈ (tRemoveTreeOf ts g ++ [T ++ [g], d :: D']).flatten :=
      List.mem_flatten.mpr ⟨T ++ [g], hmem1, by simp⟩
    have hgnotd : g ∉ tSeqOf (tRemoveTreeOf ts g ++ [T ++ [g], d :: D']) d := by
      rw [hseq_d]
      intro h
      rcases List.mem_cons.mp h with h' | h'
      · exact hdg h'.symm
      · exact hgD (List.mem_cons_of_mem _ h')
    rw [tConcat_eq hpart1.2 hdflat hgflat hgnotd, hseq_d, hseq_g]
    have hf1 : List.filter (fun s => !s.contains d) (tRemoveTreeOf ts g)
        = tRemoveTreeOf ts g := by
      apply List.filter_eq_self.mpr
      intro s hs
      simp only [Bool.not_eq_true']
      rw [contains_false_iff]
      exact removeTree_avoid hp.2 hs (by rw [hS]; simp)
    have hc1 : ((T ++ [g]).contains d) = false := by
      rw [contains_false_iff]
      intro h
      rcases List.mem_append.mp h with h' | h'
      · exact hdT h'
      · simp at h'
        exact hdg h'
    have hc2 : ((d :: D').contains d) = true := contains_iff.mpr (by simp)
    have hf2 : List.filter (fun s => !s.contains d) ([T ++ [g], d :: D'] : TreapForest)
        = [T ++ [g]] := by
      have hs1 : List.filter (fun s => !s.contains d) ([T ++ [g], d :: D'] : TreapForest)
          = (T ++ [g]) :: List.filter (fun s => !s.contains d) ([d :: D'] : TreapForest) :=
        List.filter_cons_of_pos (by rw [hc1]; rfl)
      have hs2 : List.filter (fun s => !s.contains d) ([d :: D'] : TreapForest)
          = List.filter (fun s => !s.contains d) ([] : TreapForest) :=
        List.filter_cons_of_neg (by rw [hc2]; simp)
      rw [hs1, hs2, List.filter_nil]
    have hf3 : List.filter (fun s => !s.contains g) (tRemoveTreeOf ts g)
        = tRemoveTreeOf ts g := by
      apply List.filter_eq_self.mpr
      intro s hs
      simp only [Bool.not_eq_true']
      rw [contains_false_iff]
      exact not_mem_of_mem_removeTree hs
    have hf4 : List.filter (fun s => !s.contains g) ([T ++ [g]] : TreapForest) = [] := by
      have hc : ((T ++ [g]).contains g) = true := contains_iff.mpr (by simp)
      have hs1 : List.filter (fun s => !s.contains g) ([T ++ [g]] : TreapForest)
          = List.filter (fun s => !s.contains g) ([] : TreapForest) :=
        List.filter_cons_of_neg (by rw [hc]; simp)
      rw [hs1, List.filter_nil]
    have h1 : tRemoveTreeOf (tRemoveTreeOf ts g ++ [T ++ [g], d :: D']) d
        = tRemoveTreeOf ts g ++ [T ++ [g]] := by
      show List.filter (fun s => !s.contains d) (tRemoveTreeOf ts g ++ [T ++ [g], d :: D'])
          = tRemoveTreeOf ts g ++ [T ++ [g]]
      rw [List.filter_append, hf1, hf2]
    have h2 : tRemoveTreeOf (tRemoveTreeOf ts g ++ [T ++ [g]]) g = tRemoveTreeOf ts g := by
      show List.filter (fun s => !s.contains g) (tRemoveTreeOf ts g ++ [T ++ [g]])
          = tRemoveTreeOf ts g
      rw [List.filter_append, hf3, hf4, List.append_nil]
    rw [h1, h2]

theorem rotSeq_perm {g : EId} (T D : List EId) :
    (D ++ (T ++ [g])).Perm (T ++ g :: D) := by
  have h1 : (D ++ (T ++ [g])).Perm ((T ++ [g]) ++ D) := List.perm_append_comm
  have h2 : (T ++ [g]) ++ D = T ++ g :: D := by
    rw [List.append_assoc]
    rfl
  rw [h2] at h1
  exact h1

theorem rotateAfter_perm {ts : TreapForest} (hp : PartForest ts) {g : EId}
    {T D : List EId} (hS : tSeqOf ts g = T ++ g :: D) (hg : g ∈ ts.flatten) :
    (rotateAfter ts g).flatten.Perm ts.flatten := by
  rw [rotateAfter_eq hp hS hg]
  apply flatten_remove_append_perm hp.2 hg
  simp only [List.flatten_cons, List.flatten_nil, List.append_nil]
  rw [hS]
  exact rotSeq_perm T D

theorem rotateAfter_part {ts : TreapForest} (hp : PartForest ts) {g : EId}
    {T D : List EId} (hS : tSeqOf ts g = T ++ g :: D) (hg : g ∈ ts.flatten) :
    PartForest (rotateAfter ts g) := by
  rw [rotateAfter_eq hp hS hg]
  apply part_remove_append hp hg
  · simp only [List.flatten_cons, List.flatten_nil, List.append_nil]
    rw [hS]
    exact rotSeq_perm T D
  · intro s hs
    rcases List.mem_cons.mp hs with rfl | h
    · simp
    · cases h

theorem tSeqOf_rotateAfter_new {ts : TreapForest} (hp : PartForest ts) {g : EId}
    {T D : List EId} (hS : tSeqOf ts g = T ++ g :: D) (hg : g ∈ ts.flatten)
    {x : EId} (hx : x ∈ tSeqOf ts g) :
    tSeqOf (rotateAfter ts g) x = D ++ (T ++ [g]) := by
  have hperm := rotateAfter_perm hp hS hg
  have hnd : (rotateAfter ts g).flatten.Nodup := hperm.nodup_iff.mpr hp.2
  rw [rotateAfter_eq hp hS hg] at hnd ⊢
  apply tSeqOf_eq hnd (List.mem_append_right _ (List.mem_singleton.mpr rfl))
  have := (rotSeq_perm T D).mem_iff.mpr (hS ▸ hx)
  exact this

theorem tSeqOf_rotateAfter_old {ts : TreapForest} (hp : PartForest ts) {g : EId}
    {T D : List EId} (hS : tSeqOf ts g = T ++ g :: D) (hg : g ∈ ts.flatten)
    {x : EId} (hx : x ∉ tSeqOf ts g) :
    tSeqOf (rotateAfter ts g) x = tSeqOf ts x := by
  have hperm := rotateAfter_perm hp hS hg
  have hnd : (rotateAfter ts g).flatten.Nodup := hperm.nodup_iff.mpr hp.2
  by_cases hxf : x ∈ ts.flatten
  · obtain ⟨hmem, hxin⟩ := tSeqOf_self_mem hxf
    have hsx : tSeqOf ts x ∈ tRemoveTreeOf ts g := by
      apply List.mem_filter.mpr
      refine ⟨hmem, ?_⟩
      simp only [Bool.not_eq_true']
      rw [contains_false_iff]
      intro hg'
      have := tSeqOf_same hp.2 hg'
      rw [this] at hx
      exact hx hxin
    rw [rotateAfter_eq hp hS hg] at hnd ⊢
    exact tSeqOf_eq hnd (List.mem_append_left _ hsx) hxin
  · rw [tSeqOf_eq_nil hxf, tSeqOf_eq_nil]
    intro h
    exact hxf (hperm.mem_iff.mp h)

theorem tNext_mem {ts : TreapForest} {x y : EId} (h : tNext ts x = some y) :
    y ∈ tSeqOf ts x := by
  unfold tNext at h
  have h1 : y ∈ ((tSeqOf ts x).dropWhile (fun z => z != x)).drop 1 := by
    cases hl : ((tSeqOf ts x).dropWhile (fun z => z != x)).drop 1 with
    | nil => rw [hl] at h; cases h
    | cons a l =>
      rw [hl] at h
      simp at h
      subst h
      simp
  have h2 := (List.dropWhile_sublist (fun z => z != x) (l := tSeqOf ts x))
  exact h2.mem ((List.drop_sublist 1 _).mem h1)

theorem tPrev_mem {ts : TreapForest} {x y : EId} (h : tPrev ts x = some y) :
    y ∈ tSeqOf ts x := by
  unfold tPrev at h
  have h1 : y ∈ ((tSeqOf ts x).takeWhile (fun z => z != x)).getLast? :=
    Option.mem_def.mpr h
  obtain ⟨hne, heq⟩ := List.mem_getLast?_eq_getLast h1
  have h2 : y ∈ (tSeqOf ts x).takeWhile (fun z => z != x) := by
    rw [heq]
    exact List.getLast_mem hne
  exact (List.takeWhile_sublist _).mem h2

/- ------------------------------------------------------------------ -/
/- Access lemmas for the Bool well-formedness checkers                 -/
/- ------------------------------------------------------------------ -/

theorem all_vertices_spec {t : stEulerTour} {f : VId × stEulerVertex → Bool}
    (h : t.vertices.all f = true) {w : VId} {r : stEulerVertex}
    (hr : getVertex t w = some r) : f (w, r) = true :=
  List.all_eq_true.mp h _ (assocFind_mem hr)

theorem all_halfEdges_spec {t : stEulerTour} {f : EId × stEulerHalfEdge → Bool}
    (h : t.halfEdges.all f = true) {e : EId} {ed : stEulerHalfEdge}
    (he : getEdge t e = some ed) : f (e, ed) = true :=
  List.all_eq_true.mp h _ (assocFind_mem he)

theorem wfForest_parts {t : stEulerTour} (h : wfForest t = true) :
    PartForest t.treaps := by
  unfold wfForest at h
  simp only [Bool.and_eq_true] at h
  constructor
  · intro s hs
    have := List.all_eq_true.mp h.1.1.1.1.1 s hs
    simp only [Bool.not_eq_true'] at this
    exact List.isEmpty_eq_false.mp this
  · exact of_decide_eq_true h.1.1.1.1.2

theorem wfForest_getEdge {t : stEulerTour} (h : wfForest t = true) {e : EId}
    (he : e ∈ t.treaps.flatten) : ∃ ed, getEdge t e = some ed := by
  unfold wfForest at h
  simp only [Bool.and_eq_true] at h
  have := List.all_eq_true.mp h.1.1.1.2 e he
  exact Option.isSome_iff_exists.mp this

theorem wfForest_keys {t : stEulerTour} (h : wfForest t = true) {e : EId}
    {ed : stEulerHalfEdge} (he : getEdge t e = some ed) : e ∈ t.treaps.flatten := by
  unfold wfForest at h
  simp only [Bool.and_eq_true] at h
  have := List.all_eq_true.mp h.1.1.2 _ (assocFind_mem he)
  exact contains_iff.mp this

theorem wfForest_keysNodup {t : stEulerTour} (h : wfForest t = true) :
    (t.halfEdges.map Prod.fst).Nodup := by
  unfold wfForest at h
  simp only [Bool.and_eq_true] at h
  exact of_decide_eq_true h.1.2

theorem wfForest_fresh {t : stEulerTour} (h : wfForest t = true) {e : EId}
    (he : e ∈ t.treaps.flatten) : e < t.nextEdgeId := by
  unfold wfForest at h
  simp only [Bool.and_eq_true] at h
  exact of_decide_eq_true (List.all_eq_true.mp h.2 e he)

theorem wfAnchors_spec {t : stEulerTour} (h : wfAnchors t = true) {w : VId}
    {r : stEulerVertex} (hr : getVertex t w = some r) {lo ri : EId}
    (hlo : r.leftOut = some lo) (hri : r.rightIn = some ri) :
    lo ≠ ri ∧ lo ∈ tSeqOf t.treaps lo ∧ ri ∈ tSeqOf t.treaps lo ∧
    (∃ e, getEdge t lo = some e ∧ stEulerHalfEdge_contains e w = true) ∧
    (∃ e, getEdge t ri = some e ∧ stEulerHalfEdge_contains e w = true) := by
  have hb := all_vertices_spec h hr
  simp only [hlo, hri] at hb
  rw [Bool.and_eq_true, Bool.and_eq_true, Bool.and_eq_true, Bool.and_eq_true] at hb
  refine ⟨bne_iff_ne.mp hb.1.1.1.1, contains_iff.mp hb.1.1.1.2,
    contains_iff.mp hb.1.1.2, ?_, ?_⟩
  · cases hge : getEdge t lo with
    | none => rw [hge] at hb; cases hb.1.2
    | some e =>
      rw [hge] at hb
      exact ⟨e, rfl, hb.1.2⟩
  · cases hge : getEdge t ri with
    | none => rw [hge] at hb; cases hb.2
    | some e =>
      rw [hge] at hb
      exact ⟨e, rfl, hb.2⟩

theorem wfAnchors_iff {t : stEulerTour} (h : wfAnchors t = true) {w : VId}
    {r : stEulerVertex} (hr : getVertex t w = some r) :
    (r.leftOut = none ∧ r.rightIn = none) ∨
    (∃ lo ri, r.leftOut = some lo ∧ r.rightIn = some ri) := by
  have hb := all_vertices_spec h hr
  cases hlo : r.leftOut with
  | none =>
    cases hri : r.rightIn with
    | none => exact Or.inl ⟨rfl, rfl⟩
    | some ri =>
      simp only [hlo, hri] at hb
      cases hb
  | some lo =>
    cases hri : r.rightIn with
    | none =>
      simp only [hlo, hri] at hb
      cases hb
    | some ri => exact Or.inr ⟨lo, ri, rfl, rfl⟩

theorem wfVertices_nodup {t : stEulerTour} (h : wfVertices t = true) :
    (t.vertices.map Prod.fst).Nodup := by
  unfold wfVertices at h
  rw [Bool.and_eq_true] at h
  exact of_decide_eq_true h.1

theorem wfVertices_nonzero {t : stEulerTour} (h : wfVertices t = true) {w : VId}
    {r : stEulerVertex} (hr : getVertex t w = some r) : w ≠ 0 := by
  unfold wfVertices at h
  rw [Bool.and_eq_true] at h
  have := List.all_eq_true.mp h.2 _ (assocFind_mem hr)
  exact bne_iff_ne.mp this

theorem wfPairs_spec {t : stEulerTour} (h : wfPairs t = true) {e : EId}
    {ed : stEulerHalfEdge} (he : getEdge t e = some ed) :
    ed.inverse ≠ e ∧ e ∈ tSeqOf t.treaps e ∧ ed.inverse ∈ tSeqOf t.treaps e ∧
    ed.fr ≠ ed.toV ∧
    (∃ inv, getEdge t ed.inverse = some inv ∧ inv.inverse = e ∧
      inv.fr = ed.toV ∧ inv.toV = ed.fr) := by
  have hb := all_halfEdges_spec h he
  rw [Bool.and_eq_true, Bool.and_eq_true, Bool.and_eq_true, Bool.and_eq_true] at hb
  refine ⟨bne_iff_ne.mp hb.1.1.1.1, contains_iff.mp hb.1.1.1.2,
    contains_iff.mp hb.1.1.2, bne_iff_ne.mp hb.1.2, ?_⟩
  cases hge : getEdge t ed.inverse with
  | none => rw [hge] at hb; cases hb.2
  | some inv =>
    rw [hge] at hb
    rw [Bool.and_eq_true, Bool.and_eq_true] at hb
    exact ⟨inv, rfl, by
      have := hb.2.1.1
      simp only [beq_iff_eq] at this
      exact this, by
      have := hb.2.1.2
      simp only [beq_iff_eq] at this
      exact this, by
      have := hb.2.2
      simp only [beq_iff_eq] at this
      exact this⟩

theorem wfEndpoints_spec {t : stEulerTour} (h : wfEndpoints t = true) {e : EId}
    {ed : stEulerHalfEdge} (he : getEdge t e = some ed) :
    (∃ r lo, getVertex t ed.fr = some r ∧ r.leftOut = some lo ∧
       e ∈ tSeqOf t.treaps lo) ∧
    (∃ r lo, getVertex t ed.toV = some r ∧ r.leftOut = some lo ∧
       e ∈ tSeqOf t.treaps lo) := by
  have hb := all_halfEdges_spec h he
  rw [Bool.and_eq_true] at hb
  constructor
  · have h1 := hb.1
    cases hgv : getVertex t ed.fr with
    | none => simp only [hgv] at h1; cases h1
    | some r =>
      simp only [hgv] at h1
      cases hlo : r.leftOut with
      | none => simp only [hlo] at h1; cases h1
      | some lo =>
        simp only [hlo] at h1
        exact ⟨r, lo, rfl, hlo, contains_iff.mp h1⟩
  · have h1 := hb.2
    cases hgv : getVertex t ed.toV with
    | none => simp only [hgv] at h1; cases h1
    | some r =>
      simp only [hgv] at h1
      cases hlo : r.leftOut with
      | none => simp only [hlo] at h1; cases h1
      | some lo =>
        simp only [hlo] at h1
        exact ⟨r, lo, rfl, hlo, contains_iff.mp h1⟩

theorem wfTour_parts {t : stEulerTour} (h : wfTour t = true) :
    wfForest t = true ∧ wfVertices t = true ∧ wfAnchors t = true ∧
    wfPairs t = true ∧ wfEndpoints t = true ∧ wfOrder t = true := by
  unfold wfTour at h
  simp only [Bool.and_eq_true] at h
  exact ⟨h.1.1.1.1.1, h.1.1.1.1.2, h.1.1.1.2, h.1.1.2, h.1.2, h.2⟩

theorem contE_def (t : stEulerTour) (w : VId) (e : EId) :
    (match getEdge t e with
     | some ed => stEulerHalfEdge_contains ed w
     | none => false) = contE t w e := rfl

theorem wfOrder_next_isSome {t : stEulerTour} (h : wfOrder t = true) {w : VId}
    {r : stEulerVertex} (hr : getVertex t w = some r) {lo ri : EId}
    (hlo : r.leftOut = some lo) (hri : r.rightIn = some ri) :
    ∃ nx, tNext t.treaps (if tCompare t.treaps lo ri > 0 then ri else lo) = some nx := by
  have hb := all_vertices_spec h hr
  simp only [hlo, hri] at hb
  cases hnx : tNext t.treaps (if tCompare t.treaps lo ri > 0 then ri else lo) with
  | none => rw [hnx] at hb; cases hb
  | some nx => exact ⟨nx, rfl⟩

theorem wfOrder_case1 {t : stEulerTour} (h : wfOrder t = true) {w : VId}
    {r : stEulerVertex} (hr : getVertex t w = some r) {lo ri : EId}
    (hlo : r.leftOut = some lo) (hri : r.rightIn = some ri) {nx : EId}
    (hnx : tNext t.treaps (if tCompare t.treaps lo ri > 0 then ri else lo) = some nx)
    (hc : contE t w nx = false) :
    (tPrev t.treaps (if tCompare t.treaps lo ri > 0 then ri else lo) = none →
      ∃ l, (tSeqOf t.treaps lo).getLast? = some l ∧ contE t w l = true) ∧
    (∀ q, tPrev t.treaps (if tCompare t.treaps lo ri > 0 then ri else lo) = some q →
      contE t w q = true) := by
  have hb := all_vertices_spec h hr
  simp only [hlo, hri] at hb
  simp only [hnx, contE_def, hc, Bool.not_false, if_true] at hb
  constructor
  · intro hp
    simp only [hp] at hb
    cases hl : (tSeqOf t.treaps lo).getLast? with
    | none => simp only [hl] at hb; cases hb
    | some l =>
      simp only [hl, contE_def] at hb
      exact ⟨l, rfl, hb⟩
  · intro q hq
    simp only [hq] at hb
    exact hb

theorem wfOrder_case2wrap {t : stEulerTour} (h : wfOrder t = true) {w : VId}
    {r : stEulerVertex} (hr : getVertex t w = some r) {lo ri : EId}
    (hlo : r.leftOut = some lo) (hri : r.rightIn = some ri) {nx : EId}
    (hnx : tNext t.treaps (if tCompare t.treaps lo ri > 0 then ri else lo) = some nx)
    (hc : contE t w nx = true) {fe : stEulerHalfEdge}
    (hfe : getEdge t (if tCompare t.treaps lo ri > 0 then ri else lo) = some fe)
    {nxe : stEulerHalfEdge} (hnxe : getEdge t nx = some nxe)
    (hother : stEulerHalfEdge_contains nxe (if fe.toV = w then fe.fr else fe.toV) = true)
    (hnn : tNext t.treaps nx = none) {q : EId}
    (hq : tPrev t.treaps (if tCompare t.treaps lo ri > 0 then ri else lo) = some q)
    (hqc : contE t w q = true) :
    ∃ hd, (tSeqOf t.treaps lo).head? = some hd ∧ contE t w hd = true := by
  have hb := all_vertices_spec h hr
  simp only [hlo, hri] at hb
  simp only [hnx, contE_def, hc, Bool.not_true, Bool.false_eq_true, if_false] at hb
  simp only [hfe, hnxe, hother, if_true, hnn, hq, hqc, Bool.not_true,
    Bool.false_or] at hb
  cases hh : (tSeqOf t.treaps lo).head? with
  | none => simp only [hh] at hb; cases hb
  | some hd =>
    simp only [hh, contE_def] at hb
    exact ⟨hd, rfl, hb⟩

theorem contE_eq {t : stEulerTour} {e : EId} {ed : stEulerHalfEdge}
    (he : getEdge t e = some ed) {w : VId} :
    contE t w e = stEulerHalfEdge_contains ed w := by
  unfold contE
  rw [he]

theorem tPrev_adjacent {ts : TreapForest} (hn : ts.flatten.Nodup) {x q : EId}
    (hx : x ∈ ts.flatten) (hq : tPrev ts x = some q) : tNext ts q = some x := by
  obtain ⟨T, D, hTD, hxT, hxD⟩ := seq_split hn hx
  rw [tPrev_eq hTD hxT] at hq
  obtain ⟨hTne, hTlast⟩ := List.mem_getLast?_eq_getLast (Option.mem_def.mpr hq)
  obtain ⟨T0, hT0⟩ : ∃ T0, T = T0 ++ [q] :=
    ⟨T.dropLast, by rw [hTlast]; exact (List.dropLast_append_getLast hTne).symm⟩
  rw [hT0] at hTD
  have hS' : tSeqOf ts x = T0 ++ q :: (x :: D) := by
    rw [hTD, List.append_assoc]
    rfl
  have hq_mem : q ∈ tSeqOf ts x := by
    rw [hS']
    simp
  have hSq : tSeqOf ts q = tSeqOf ts x := tSeqOf_same hn hq_mem
  have hqT : q ∉ T0 := by
    have hndS : (tSeqOf ts x).Nodup :=
      nodup_of_mem_flatten hn (tSeqOf_self_mem hx).1
    rw [hS'] at hndS
    have := (List.nodup_append.mp hndS).2.2
    intro hmem
    exact this hmem (List.mem_cons_self _ _)
  have := tNext_eq (hSq.trans hS') hqT
  rw [this]
  rfl

theorem head_of_no_prev {ts : TreapForest} (hn : ts.flatten.Nodup) {x : EId}
    (hx : x ∈ ts.flatten) (hp : tPrev ts x = none) :
    (tSeqOf ts x).head? = some x := by
  obtain ⟨T, D, hTD, hxT, hxD⟩ := seq_split hn hx
  rw [tPrev_eq hTD hxT] at hp
  have hT : T = [] := by
    cases hT : T with
    | nil => rfl
    | cons a T' =>
      rw [hT] at hp
      rw [List.getLast?_eq_getLast_of_ne_nil (by simp)] at hp
      cases hp
  rw [hTD, hT]
  rfl

/-- All consequences of one rotation used by `makeRoot`: the partition stays
sane, tree membership classes are unchanged, and the rotated tree of `lo`
ends with `g` and begins with `g`'s old successor (or keeps its old head when
`g` was last). -/
theorem rotate_pack {ts : TreapForest} (hp : PartForest ts) {lo g : EId}
    (hlof : lo ∈ ts.flatten) (hg : g ∈ tSeqOf ts lo) :
    PartForest (rotateAfter ts g) ∧
    (rotateAfter ts g).flatten.Perm ts.flatten ∧
    (∀ x, x ∉ tSeqOf ts lo → tSeqOf (rotateAfter ts g) x = tSeqOf ts x) ∧
    (∀ x ∈ tSeqOf ts lo,
      tSeqOf (rotateAfter ts g) x = tSeqOf (rotateAfter ts g) lo) ∧
    (tSeqOf (rotateAfter ts g) lo).Perm (tSeqOf ts lo) ∧
    (tSeqOf (rotateAfter ts g) lo).getLast? = some g ∧
    (tSeqOf (rotateAfter ts g) lo).head? =
      (match tNext ts g with
       | some nx => some nx
       | none => (tSeqOf ts lo).head?) := by
  have hSg : tSeqOf ts g = tSeqOf ts lo := tSeqOf_same hp.2 hg
  have hgf : g ∈ ts.flatten := mem_flatten_of_mem_tSeqOf hg
  obtain ⟨T, D, hTD, hgT, hgD⟩ := seq_split hp.2 hgf
  have hnew : ∀ x ∈ tSeqOf ts lo, tSeqOf (rotateAfter ts g) x = D ++ (T ++ [g]) := by
    intro x hx
    exact tSeqOf_rotateAfter_new hp hTD hgf (hSg ▸ hx)
  have hlo_new : tSeqOf (rotateAfter ts g) lo = D ++ (T ++ [g]) :=
    hnew lo (tSeqOf_self_mem hlof).2
  refine ⟨rotateAfter_part hp hTD hgf, rotateAfter_perm hp hTD hgf, ?_, ?_, ?_, ?_, ?_⟩
  · intro x hx
    exact tSeqOf_rotateAfter_old hp hTD hgf (fun hmem => hx (hSg ▸ hmem))
  · intro x hx
    rw [hnew x hx, hlo_new]
  · rw [hlo_new, ← hSg, hTD]
    exact rotSeq_perm T D
  · rw [hlo_new]
    rw [List.getLast?_append_of_ne_nil _ (by simp)]
    rw [List.getLast?_append_of_ne_nil _ (by simp)]
    rfl
  · rw [hlo_new, tNext_eq hTD hgT]
    cases D with
    | nil =>
      simp only [List.nil_append]
      rw [← hSg, hTD]
      rfl
    | cons d D' => simp

theorem makeRoot_shape (t : stEulerTour) (w : VId) :
    ∃ ts', stEulerTour_makeRoot t w = { t with treaps := ts' } := by
  simp only [stEulerTour_makeRoot]
  repeat' split
  all_goals exact ⟨_, rfl⟩

theorem makeRoot_frame (t : stEulerTour) (w : VId) :
    (stEulerTour_makeRoot t w).vertices = t.vertices ∧
    (stEulerTour_makeRoot t w).halfEdges = t.halfEdges ∧
    (stEulerTour_makeRoot t w).forwardEdges = t.forwardEdges ∧
    (stEulerTour_makeRoot t w).backwardEdges = t.backwardEdges ∧
    (stEulerTour_makeRoot t w).nComponents = t.nComponents ∧
    (stEulerTour_makeRoot t w).nextEdgeId = t.nextEdgeId := by
  obtain ⟨ts', h⟩ := makeRoot_shape t w
  rw [h]
  exact ⟨rfl, rfl, rfl, rfl, rfl, rfl⟩

theorem makeRoot_absent {t : stEulerTour} {w : VId}
    (hr : getVertex t w = none) : stEulerTour_makeRoot t w = t := by
  unfold stEulerTour_makeRoot
  rw [hr]

theorem makeRoot_singleton {t : stEulerTour} {w : VId} {r : stEulerVertex}
    (hr : getVertex t w = some r) (hlo : r.leftOut = none) :
    stEulerTour_makeRoot t w = t := by
  unfold stEulerTour_makeRoot
  rw [hr]
  simp only [hlo]

theorem two_elem_ends {S : List EId} (hlen : S.length = 2) {lo ri : EId}
    (hlo : lo ∈ S) (hri : ri ∈ S) (hne : lo ≠ ri) :
    (S.head? = some lo ∨ S.head? = some ri) ∧
    (S.getLast? = some lo ∨ S.getLast? = some ri) := by
  obtain ⟨x, y, rfl⟩ := List.length_eq_two.mp hlen
  simp only [List.mem_cons, List.mem_singleton, List.not_mem_nil, or_false] at hlo hri
  rcases hlo with rfl | rfl
  · rcases hri with rfl | rfl
    · exact absurd rfl hne
    · exact ⟨Or.inl rfl, Or.inr rfl⟩
  · rcases hri with rfl | rfl
    · exact ⟨Or.inr rfl, Or.inl rfl⟩
    · exact absurd rfl hne

theorem makeRoot_pack_unchanged {t : stEulerTour} {w : VId} {lo : EId}
    (hp : PartForest t.treaps) (hlof : lo ∈ t.treaps.flatten)
    (hres : stEulerTour_makeRoot t w = t)
    (hhd : ∃ hd, (tSeqOf t.treaps lo).head? = some hd ∧ contE t w hd = true)
    (hlst : ∃ l, (tSeqOf t.treaps lo).getLast? = some l ∧ contE t w l = true) :
    MakeRootConcl t w lo := by
  unfold MakeRootConcl
  rw [hres]
  exact ⟨⟨t.treaps, rfl⟩, hp, List.Perm.refl _, fun x _ => rfl,
    fun x hx => tSeqOf_same hp.2 hx, List.Perm.refl _, hhd, hlst⟩

theorem makeRoot_pack_rotate {t : stEulerTour} {w : VId} {lo g : EId}
    (hp : PartForest t.treaps) (hlof : lo ∈ t.treaps.flatten)
    (hg : g ∈ tSeqOf t.treaps lo)
    (hres : stEulerTour_makeRoot t w = { t with treaps := rotateAfter t.treaps g })
    (hlast : contE t w g = true)
    (hhd : ∃ hd, (match tNext t.treaps g with
                  | some nx => some nx
                  | none => (tSeqOf t.treaps lo).head?) = some hd ∧
           contE t w hd = true) :
    MakeRootConcl t w lo := by
  obtain ⟨hpart, hperm, hold, hsame, hpermS, hlastEq, hheadEq⟩ :=
    rotate_pack hp hlof hg
  unfold MakeRootConcl
  rw [hres]
  refine ⟨⟨rotateAfter t.treaps g, rfl⟩, hpart, hperm, hold, hsame, hpermS, ?_, ?_⟩
  · obtain ⟨hd, hhd1, hhd2⟩ := hhd
    exact ⟨hd, by rw [hheadEq]; exact hhd1, hhd2⟩
  · exact ⟨g, hlastEq, hlast⟩

theorem makeRoot_main {t : stEulerTour} {w : VId} {r : stEulerVertex}
    (hr : getVertex t w = some r) {lo ri : EId}
    (hlo : r.leftOut = some lo) (hri : r.rightIn = some ri)
    (hp : PartForest t.treaps)
    (hedge : ∀ e ∈ tSeqOf t.treaps lo, ∃ ed, getEdge t e = some ed)
    (hne : lo ≠ ri) (hloS : lo ∈ tSeqOf t.treaps lo) (hriS : ri ∈ tSeqOf t.treaps lo)
    (hcloE : contE t w lo = true) (hcriE : contE t w ri = true)
    (hNext : ∃ nx,
      tNext t.treaps (if tCompare t.treaps lo ri > 0 then ri else lo) = some nx)
    (hCase1 : ∀ nx,
      tNext t.treaps (if tCompare t.treaps lo ri > 0 then ri else lo) = some nx →
      contE t w nx = false →
      ((tPrev t.treaps (if tCompare t.treaps lo ri > 0 then ri else lo) = none →
        ∃ l, (tSeqOf t.treaps lo).getLast? = some l ∧ contE t w l = true) ∧
       (∀ q, tPrev t.treaps (if tCompare t.treaps lo ri > 0 then ri else lo) = some q →
        contE t w q = true)))
    (hWrap : ∀ nx,
      tNext t.treaps (if tCompare t.treaps lo ri > 0 then ri else lo) = some nx →
      contE t w nx = true →
      ∀ fe, getEdge t (if tCompare t.treaps lo ri > 0 then ri else lo) = some fe →
      ∀ nxe, getEdge t nx = some nxe →
      stEulerHalfEdge_contains nxe (if fe.toV = w then fe.fr else fe.toV) = true →
      tNext t.treaps nx = none →
      ∀ q, tPrev t.treaps (if tCompare t.treaps lo ri > 0 then ri else lo) = some q →
      contE t w q = true →
      ∃ hd, (tSeqOf t.treaps lo).head? = some hd ∧ contE t w hd = true) :
    MakeRootConcl t w lo := by
  have hlof : lo ∈ t.treaps.flatten := mem_flatten_of_mem_tSeqOf hloS
  by_cases hsz : tSize t.treaps lo = 2
  · have hres : stEulerTour_makeRoot t w = t := by
      simp only [stEulerTour_makeRoot, hr, hlo, hri]
      rw [if_pos hsz]
    obtain ⟨hh, hl⟩ := two_elem_ends hsz hloS hriS hne
    apply makeRoot_pack_unchanged hp hlof hres
    · rcases hh with h | h
      · exact ⟨lo, h, hcloE⟩
      · exact ⟨ri, h, hcriE⟩
    · rcases hl with h | h
      · exact ⟨lo, h, hcloE⟩
      · exact ⟨ri, h, hcriE⟩
  · obtain ⟨nx, hnx⟩ := hNext
    have hf0S : (if tCompare t.treaps lo ri > 0 then ri else lo) ∈ tSeqOf t.treaps lo := by
      split
      · exact hriS
      · exact hloS
    have hf0c : contE t w (if tCompare t.treaps lo ri > 0 then ri else lo) = true := by
      split
      · exact hcriE
      · exact hcloE
    obtain ⟨fe, hfe⟩ := hedge _ hf0S
    have hSf0 : tSeqOf t.treaps (if tCompare t.treaps lo ri > 0 then ri else lo)
        = tSeqOf t.treaps lo := tSeqOf_same hp.2 hf0S
    have hnxS : nx ∈ tSeqOf t.treaps lo := by
      have h1 := tNext_mem hnx
      rw [hSf0] at h1
      exact h1
    obtain ⟨nxe, hnxe⟩ := hedge _ hnxS
    have hcnxE : contE t w nx = stEulerHalfEdge_contains nxe w := contE_eq hnxe
    by_cases hcnx : stEulerHalfEdge_contains nxe w = true
    · by_cases hoth :
          stEulerHalfEdge_contains nxe (if fe.toV = w then fe.fr else fe.toV) = true
      · cases hnnx : tNext t.treaps nx with
        | some z =>
          have hzS : z ∈ tSeqOf t.treaps lo := by
            have h1 := tNext_mem hnnx
            rw [tSeqOf_same hp.2 hnxS] at h1
            exact h1
          obtain ⟨ze, hze⟩ := hedge _ hzS
          by_cases hcz : stEulerHalfEdge_contains ze w = true
          · have hres : stEulerTour_makeRoot t w
                = { t with treaps := rotateAfter t.treaps nx } := by
              simp [stEulerTour_makeRoot, hr, hlo, hri, hsz, hfe, hnx, hnxe,
                hcnx, hoth, hnnx, hze, hcz]
            apply makeRoot_pack_rotate hp hlof hnxS hres
              (by rw [contE_eq hnxe]; exact hcnx)
            rw [hnnx]
            exact ⟨z, rfl, by rw [contE_eq hze]; exact hcz⟩
          · have hres : stEulerTour_makeRoot t w
                = { t with treaps := rotateAfter t.treaps (if tCompare t.treaps lo ri > 0 then ri else lo) } := by
              simp [stEulerTour_makeRoot, hr, hlo, hri, hsz, hfe, hnx, hnxe,
                hcnx, hoth, hnnx, hze, hcz]
            apply makeRoot_pack_rotate hp hlof hf0S hres hf0c
            rw [hnx]
            exact ⟨nx, rfl, by rw [contE_eq hnxe]; exact hcnx⟩
        | none =>
          cases hpv : tPrev t.treaps (if tCompare t.treaps lo ri > 0 then ri else lo) with
          | none =>
            have hres : stEulerTour_makeRoot t w
                = { t with treaps := rotateAfter t.treaps (if tCompare t.treaps lo ri > 0 then ri else lo) } := by
              simp [stEulerTour_makeRoot, hr, hlo, hri, hsz, hfe, hnx, hnxe,
                hcnx, hoth, hnnx, hpv]
            apply makeRoot_pack_rotate hp hlof hf0S hres hf0c
            rw [hnx]
            exact ⟨nx, rfl, by rw [contE_eq hnxe]; exact hcnx⟩
          | some q =>
            have hqS : q ∈ tSeqOf t.treaps lo := by
              have h1 := tPrev_mem hpv
              rw [hSf0] at h1
              exact h1
            obtain ⟨qe, hqe⟩ := hedge _ hqS
            by_cases hcq : stEulerHalfEdge_contains qe w = true
            · have hres : stEulerTour_makeRoot t w
                  = { t with treaps := rotateAfter t.treaps nx } := by
                simp [stEulerTour_makeRoot, hr, hlo, hri, hsz, hfe, hnx, hnxe,
                  hcnx, hoth, hnnx, hpv, hqe, hcq]
              apply makeRoot_pack_rotate hp hlof hnxS hres
                (by rw [contE_eq hnxe]; exact hcnx)
              rw [hnnx]
              exact hWrap nx hnx (by rw [contE_eq hnxe]; exact hcnx) fe hfe nxe hnxe
                hoth hnnx q hpv (by rw [contE_eq hqe]; exact hcq)
            · have hres : stEulerTour_makeRoot t w
                  = { t with treaps := rotateAfter t.treaps (if tCompare t.treaps lo ri > 0 then ri else lo) } := by
                simp [stEulerTour_makeRoot, hr, hlo, hri, hsz, hfe, hnx, hnxe,
                  hcnx, hoth, hnnx, hpv, hqe, hcq]
              apply makeRoot_pack_rotate hp hlof hf0S hres hf0c
              rw [hnx]
              exact ⟨nx, rfl, by rw [contE_eq hnxe]; exact hcnx⟩
      · have hres : stEulerTour_makeRoot t w
            = { t with treaps := rotateAfter t.treaps (if tCompare t.treaps lo ri > 0 then ri else lo) } := by
          simp [stEulerTour_makeRoot, hr, hlo, hri, hsz, hfe, hnx, hnxe,
            hcnx, hoth]
        apply makeRoot_pack_rotate hp hlof hf0S hres hf0c
        rw [hnx]
        exact ⟨nx, rfl, by rw [contE_eq hnxe]; exact hcnx⟩
    · have hcnx' : stEulerHalfEdge_contains nxe w = false :=
        eq_false_of_ne_true hcnx
      have hcE : contE t w nx = false := by rw [contE_eq hnxe]; exact hcnx'
      obtain ⟨hP_none, hP_some⟩ := hCase1 nx hnx hcE
      cases hpv : tPrev t.treaps (if tCompare t.treaps lo ri > 0 then ri else lo) with
      | none =>
        have hres : stEulerTour_makeRoot t w = t := by
          simp [stEulerTour_makeRoot, hr, hlo, hri, hsz, hfe, hnx, hnxe,
            hcnx', hpv]
        apply makeRoot_pack_unchanged hp hlof hres
        · have hh := head_of_no_prev hp.2 (mem_flatten_of_mem_tSeqOf hf0S) hpv
          rw [hSf0] at hh
          exact ⟨_, hh, hf0c⟩
        · exact hP_none hpv
      | some pv =>
        have hpvS : pv ∈ tSeqOf t.treaps lo := by
          have h1 := tPrev_mem hpv
          rw [hSf0] at h1
          exact h1
        have hres : stEulerTour_makeRoot t w
            = { t with treaps := rotateAfter t.treaps pv } := by
          simp [stEulerTour_makeRoot, hr, hlo, hri, hsz, hfe, hnx, hnxe,
            hcnx', hpv]
        apply makeRoot_pack_rotate hp hlof hpvS hres (hP_some pv hpv)
        rw [tPrev_adjacent hp.2 (mem_flatten_of_mem_tSeqOf hf0S) hpv]
        exact ⟨_, rfl, hf0c⟩

theorem find?_eq_some_tSeqOf {ts : TreapForest} {x : EId} (hx : x ∈ ts.flatten) :
    ts.find? (fun s => s.contains x) = some (tSeqOf ts x) := by
  cases hf : ts.find? (fun s => s.contains x) with
  | none =>
    exfalso
    have h1 : tSeqOf ts x = [] := by unfold tSeqOf; rw [hf]
    have := (tSeqOf_self_mem hx).2
    rw [h1] at this
    cases this
  | some s =>
    have h1 : tSeqOf ts x = s := by unfold tSeqOf; rw [hf]
    rw [h1]

theorem tSeqOf_append_left {ts : TreapForest} (L : TreapForest) {x : EId}
    (hx : x ∈ ts.flatten) : tSeqOf (ts ++ L) x = tSeqOf ts x := by
  have h1 : (ts ++ L).find? (fun s => s.contains x) = some (tSeqOf ts x) := by
    rw [List.find?_append, find?_eq_some_tSeqOf hx]
    rfl
  unfold tSeqOf
  rw [h1, find?_eq_some_tSeqOf hx]

theorem tSeqOf_append_new {ts : TreapForest} (L : TreapForest) {x : EId}
    (hx : x ∉ ts.flatten) : tSeqOf (ts ++ L) x = tSeqOf L x := by
  have h0 : ts.find? (fun s => s.contains x) = none := by
    rw [List.find?_eq_none]
    intro s hs hcon
    exact hx (List.mem_flatten.mpr ⟨s, hs, contains_iff.mp hcon⟩)
  have h1 : (ts ++ L).find? (fun s => s.contains x)
      = L.find? (fun s => s.contains x) := by
    rw [List.find?_append, h0]
    rfl
  unfold tSeqOf
  rw [h1]

theorem tNext_congr {ts ts' : TreapForest} {x : EId}
    (h : tSeqOf ts' x = tSeqOf ts x) : tNext ts' x = tNext ts x := by
  unfold tNext
  rw [h]

theorem tPrev_congr {ts ts' : TreapForest} {x : EId}
    (h : tSeqOf ts' x = tSeqOf ts x) : tPrev ts' x = tPrev ts x := by
  unfold tPrev
  rw [h]

theorem tCompare_congr {ts ts' : TreapForest} {a b : EId}
    (ha : tSeqOf ts' a = tSeqOf ts a) (hb : tSeqOf ts' b = tSeqOf ts b) :
    tCompare ts' a b = tCompare ts a b := by
  unfold tCompare tIdx
  rw [ha, hb]

theorem assocFind_map_update {l : List (VId × stEulerVertex)} {w : VId}
    {r0 r : stEulerVertex} (h : assocFind l w = some r0) :
    assocFind (l.map (fun p => if p.1 = w then (w, r) else p)) w = some r := by
  induction l with
  | nil => cases h
  | cons p rest ih =>
    obtain ⟨k, v0⟩ := p
    by_cases hk : k = w
    · subst hk
      rw [List.map_cons]
      have hstep : (if ((k, v0) : VId × stEulerVertex).1 = k then (k, r) else (k, v0))
          = (k, r) := if_pos rfl
      rw [hstep, assocFind, if_pos rfl]
    · rw [assocFind, if_neg hk] at h
      simp only [List.map_cons]
      rw [if_neg hk]
      show assocFind ((k, v0) :: _) w = some r
      rw [assocFind, if_neg hk]
      exact ih h

theorem assocFind_map_update_ne {l : List (VId × stEulerVertex)} {w x : VId}
    {r : stEulerVertex} (hx : x ≠ w) :
    assocFind (l.map (fun p => if p.1 = w then (w, r) else p)) x = assocFind l x := by
  induction l with
  | nil => rfl
  | cons p rest ih =>
    obtain ⟨k, v0⟩ := p
    by_cases hk : k = w
    · subst hk
      rw [List.map_cons]
      have hstep : (if ((k, v0) : VId × stEulerVertex).1 = k then (k, r) else (k, v0))
          = (k, r) := if_pos rfl
      rw [hstep, assocFind, assocFind, if_neg (fun h => hx h.symm),
        if_neg (fun h => hx h.symm)]
      exact ih
    · simp only [List.map_cons, if_neg hk]
      rw [assocFind, assocFind]
      by_cases hkx : k = x
      · simp [hkx]
      · rw [if_neg hkx, if_neg hkx]
        exact ih

theorem getVertex_setVertex_self {t : stEulerTour} {w : VId} {r0 r : stEulerVertex}
    (h : getVertex t w = some r0) :
    getVertex (setVertex t w r) w = some r := by
  unfold getVertex setVertex at *
  exact assocFind_map_update h

theorem getVertex_setVertex_ne {t : stEulerTour} {w x : VId} {r : stEulerVertex}
    (hx : x ≠ w) : getVertex (setVertex t w r) x = getVertex t x := by
  unfold getVertex setVertex
  exact assocFind_map_update_ne hx

theorem assocFind_cons_ne {α β : Type} [DecidableEq α] {l : List (α × β)}
    {k' k : α} {b : β} (h : k' ≠ k) :
    assocFind ((k', b) :: l) k = assocFind l k := by
  rw [assocFind, if_neg h]

theorem assocFind_cons_self {α β : Type} [DecidableEq α] {l : List (α × β)}
    {k : α} {b : β} : assocFind ((k, b) :: l) k = some b := by
  rw [assocFind, if_pos rfl]

theorem head?_mem_list {l : List EId} {a : EId} (h : l.head? = some a) : a ∈ l := by
  cases l with
  | nil => cases h
  | cons x xs =>
    simp at h
    subst h
    simp

theorem getLast?_mem_list {l : List EId} {a : EId} (h : l.getLast? = some a) :
    a ∈ l := by
  obtain ⟨hne, heq⟩ := List.mem_getLast?_eq_getLast (Option.mem_def.mpr h)
  rw [heq]
  exact List.getLast_mem hne

theorem contE_congr {t t' : stEulerTour} {w : VId} {e : EId}
    (h : getEdge t' e = getEdge t e) : contE t' w e = contE t w e := by
  unfold contE
  rw [h]

/-- Transfer: if a state `t'` agrees with a well-formed state `t` on `w`'s
record, on the tree of `w`'s anchors, and on the half-edges of that tree,
then `makeRoot` at `t'` satisfies the `MakeRootConcl` guarantees. -/
theorem makeRoot_transfer {t t' : stEulerTour} {w : VId} {r : stEulerVertex}
    {lo ri : EId}
    (hwf : wfTour t = true) (hr0 : getVertex t w = some r)
    (hlo : r.leftOut = some lo) (hri : r.rightIn = some ri)
    (hr : getVertex t' w = some r) (hp' : PartForest t'.treaps)
    (hseq : ∀ x ∈ tSeqOf t.treaps lo, tSeqOf t'.treaps x = tSeqOf t.treaps x)
    (hged : ∀ e ∈ tSeqOf t.treaps lo, getEdge t' e = getEdge t e) :
    MakeRootConcl t' w lo := by
  obtain ⟨hf, hv, ha, hpr, hep, ho⟩ := wfTour_parts hwf
  have hp : PartForest t.treaps := wfForest_parts hf
  obtain ⟨hne, hloS, hriS, ⟨elo, helo, hclo⟩, ⟨eri, heri, hcri⟩⟩ :=
    wfAnchors_spec ha hr0 hlo hri
  have hseqlo : tSeqOf t'.treaps lo = tSeqOf t.treaps lo := hseq lo hloS
  have hcmp : tCompare t'.treaps lo ri = tCompare t.treaps lo ri :=
    tCompare_congr hseqlo (by
      rw [hseq ri hriS, tSeqOf_same hp.2 hriS])
  have hif : (if tCompare t'.treaps lo ri > 0 then ri else lo)
      = (if tCompare t.treaps lo ri > 0 then ri else lo) := by rw [hcmp]
  have hf0S : (if tCompare t.treaps lo ri > 0 then ri else lo) ∈ tSeqOf t.treaps lo := by
    split
    · exact hriS
    · exact hloS
  have hSf0 : tSeqOf t.treaps (if tCompare t.treaps lo ri > 0 then ri else lo)
      = tSeqOf t.treaps lo := tSeqOf_same hp.2 hf0S
  have hseqf0 : tSeqOf t'.treaps (if tCompare t.treaps lo ri > 0 then ri else lo)
      = tSeqOf t.treaps (if tCompare t.treaps lo ri > 0 then ri else lo) := by
    rw [hseq _ hf0S, hSf0]
  apply makeRoot_main hr hlo hri hp'
  · intro e he
    rw [hseqlo] at he
    rw [hged e he]
    have : e ∈ t.treaps.flatten := mem_flatten_of_mem_tSeqOf he
    exact wfForest_getEdge hf this
  · exact hne
  · rw [hseqlo]; exact hloS
  · rw [hseqlo]; exact hriS
  · rw [contE_congr (hged lo hloS)]
    rw [contE_eq helo]
    exact hclo
  · rw [contE_congr (hged ri hriS)]
    rw [contE_eq heri]
    exact hcri
  · obtain ⟨nx, hnx⟩ := wfOrder_next_isSome ho hr0 hlo hri
    refine ⟨nx, ?_⟩
    rw [hif, tNext_congr hseqf0, hnx]
  · intro nx hnx hc
    rw [hif, tNext_congr hseqf0] at hnx
    have hnxS : nx ∈ tSeqOf t.treaps lo := by
      have h1 := tNext_mem hnx
      rw [hSf0] at h1
      exact h1
    rw [contE_congr (hged nx hnxS)] at hc
    obtain ⟨hN, hS⟩ := wfOrder_case1 ho hr0 hlo hri hnx hc
    constructor
    · intro hpv
      rw [hif, tPrev_congr hseqf0] at hpv
      obtain ⟨l, hl1, hl2⟩ := hN hpv
      have hlS : l ∈ tSeqOf t.treaps lo := getLast?_mem_list hl1
      refine ⟨l, ?_, ?_⟩
      · rw [hseqlo]; exact hl1
      · rw [contE_congr (hged l hlS)]; exact hl2
    · intro q hq
      rw [hif, tPrev_congr hseqf0] at hq
      have hqS : q ∈ tSeqOf t.treaps lo := by
        have h1 := tPrev_mem hq
        rw [hSf0] at h1
        exact h1
      rw [contE_congr (hged q hqS)]
      exact hS q hq
  · intro nx hnx hcnx fe hfe nxe hnxe hoth hnn q hq hqc
    rw [hif, tNext_congr hseqf0] at hnx
    have hnxS : nx ∈ tSeqOf t.treaps lo := by
      have h1 := tNext_mem hnx
      rw [hSf0] at h1
      exact h1
    rw [contE_congr (hged nx hnxS)] at hcnx
    rw [hif, hged _ hf0S] at hfe
    rw [hged nx hnxS] at hnxe
    have hseqnx : tSeqOf t'.treaps nx = tSeqOf t.treaps nx := by
      rw [hseq nx hnxS, tSeqOf_same hp.2 hnxS]
    rw [tNext_congr hseqnx] at hnn
    rw [hif, tPrev_congr hseqf0] at hq
    have hqS : q ∈ tSeqOf t.treaps lo := by
      have h1 := tPrev_mem hq
      rw [hSf0] at h1
      exact h1
    rw [contE_congr (hged q hqS)] at hqc
    obtain ⟨hd, hh1, hh2⟩ :=
      wfOrder_case2wrap ho hr0 hlo hri hnx hcnx hfe hnxe hoth hnn hq hqc
    have hhdS : hd ∈ tSeqOf t.treaps lo := head?_mem_list hh1
    refine ⟨hd, ?_, ?_⟩
    · rw [hseqlo]; exact hh1
    · rw [contE_congr (hged hd hhdS)]; exact hh2

theorem setVertex_treaps (t : stEulerTour) (w : VId) (r : stEulerVertex) :
    (setVertex t w r).treaps = t.treaps := rfl

theorem setVertex_halfEdges (t : stEulerTour) (w : VId) (r : stEulerVertex) :
    (setVertex t w r).halfEdges = t.halfEdges := rfl

theorem setVertex_forwardEdges (t : stEulerTour) (w : VId) (r : stEulerVertex) :
    (setVertex t w r).forwardEdges = t.forwardEdges := rfl

theorem setVertex_backwardEdges (t : stEulerTour) (w : VId) (r : stEulerVertex) :
    (setVertex t w r).backwardEdges = t.backwardEdges := rfl

theorem setVertex_nComponents (t : stEulerTour) (w : VId) (r : stEulerVertex) :
    (setVertex t w r).nComponents = t.nComponents := rfl

theorem setVertex_nextEdgeId (t : stEulerTour) (w : VId) (r : stEulerVertex) :
    (setVertex t w r).nextEdgeId = t.nextEdgeId := rfl

theorem setVertex_vertices (t : stEulerTour) (w : VId) (r : stEulerVertex) :
    (setVertex t w r).vertices
      = t.vertices.map (fun p => if p.1 = w then (w, r) else p) := rfl

theorem fid_not_mem_flatten {t0 : stEulerTour} (hf : wfForest t0 = true) :
    t0.nextEdgeId ∉ t0.treaps.flatten :=
  fun h => absurd (wfForest_fresh hf h) (lt_irrefl _)

theorem bid_not_mem_flatten {t0 : stEulerTour} (hf : wfForest t0 = true) :
    t0.nextEdgeId + 1 ∉ t0.treaps.flatten :=
  fun h => absurd (wfForest_fresh hf h)
    (fun hcon => absurd (Nat.lt_of_succ_lt hcon) (Nat.lt_irrefl _))

theorem t1_treaps_facts {t0 : stEulerTour} (hf : wfForest t0 = true) :
    PartForest (t0.treaps ++ [[t0.nextEdgeId], [t0.nextEdgeId + 1]]) ∧
    tSeqOf (t0.treaps ++ [[t0.nextEdgeId], [t0.nextEdgeId + 1]]) t0.nextEdgeId
      = [t0.nextEdgeId] ∧
    tSeqOf (t0.treaps ++ [[t0.nextEdgeId], [t0.nextEdgeId + 1]]) (t0.nextEdgeId + 1)
      = [t0.nextEdgeId + 1] ∧
    (∀ x ∈ t0.treaps.flatten,
      tSeqOf (t0.treaps ++ [[t0.nextEdgeId], [t0.nextEdgeId + 1]]) x
        = tSeqOf t0.treaps x) := by
  have hp := wfForest_parts hf
  have hfid := fid_not_mem_flatten hf
  have hbid := bid_not_mem_flatten hf
  refine ⟨⟨?_, ?_⟩, ?_, ?_, ?_⟩
  · intro s hs
    rcases List.mem_append.mp hs with h | h
    · exact hp.1 s h
    · rcases List.mem_cons.mp h with rfl | h'
      · simp
      · rcases List.mem_cons.mp h' with rfl | h''
        · simp
        · cases h''
  · rw [List.flatten_append]
    rw [List.nodup_append]
    refine ⟨hp.2, ?_, ?_⟩
    · simp only [List.flatten_cons, List.flatten_nil, List.append_nil,
        List.singleton_append, List.nodup_cons, List.mem_singleton,
        List.nodup_singleton, and_true]
      exact ⟨fun h => Nat.succ_ne_self _ h.symm, by simp, List.nodup_nil⟩
    intro a ha hb
    simp at hb
    rcases hb with rfl | rfl
    · exact hfid ha
    · exact hbid ha
  · rw [tSeqOf_append_new _ hfid]
    have hfind : List.find? (fun s => s.contains t0.nextEdgeId)
        [[t0.nextEdgeId], [t0.nextEdgeId + 1]] = some [t0.nextEdgeId] :=
      List.find?_cons_of_pos _ (by simp)
    unfold tSeqOf
    rw [hfind]
  · rw [tSeqOf_append_new _ hbid]
    have h1 : List.find? (fun s => s.contains (t0.nextEdgeId + 1))
        [[t0.nextEdgeId], [t0.nextEdgeId + 1]]
        = List.find? (fun s => s.contains (t0.nextEdgeId + 1))
          [[t0.nextEdgeId + 1]] :=
      List.find?_cons_of_neg _ (by intro hcon; simp at hcon)
    have h2 : List.find? (fun s => s.contains (t0.nextEdgeId + 1))
        [[t0.nextEdgeId + 1]] = some [t0.nextEdgeId + 1] :=
      List.find?_cons_of_pos _ (by simp)
    unfold tSeqOf
    rw [h1, h2]
  · intro x hx
    exact tSeqOf_append_left _ hx

theorem link_unfold {t0 : stEulerTour} {u v : VId} {ru rv : stEulerVertex}
    (hru : getVertex t0 u = some ru) (hrv : getVertex t0 v = some rv) :
    stEulerTour_link t0 u v =
      linkTail
        (stEulerTour_makeRoot
          (stEulerTour_makeRoot
            { t0 with nComponents := t0.nComponents - 1,
                      halfEdges := (t0.nextEdgeId,
                          ⟨true, u, v, t0.nextEdgeId + 1⟩) ::
                        (t0.nextEdgeId + 1, ⟨false, v, u, t0.nextEdgeId⟩) ::
                        t0.halfEdges,
                      treaps := t0.treaps ++ [[t0.nextEdgeId], [t0.nextEdgeId + 1]],
                      forwardEdges := ((u, v), t0.nextEdgeId) :: t0.forwardEdges,
                      backwardEdges := ((v, u), t0.nextEdgeId + 1) :: t0.backwardEdges,
                      nextEdgeId := t0.nextEdgeId + 2 } u) v)
        u v t0.nextEdgeId (t0.nextEdgeId + 1) := by
  simp only [stEulerTour_link, linkTail, hru, hrv]

theorem tConcat_part {ts : TreapForest} (hp : PartForest ts) {a b : EId}
    (ha : a ∈ ts.flatten) (hb : b ∈ ts.flatten) (hab : b ∉ tSeqOf ts a) :
    PartForest (tConcat ts a b) := by
  refine ⟨?_, (tConcat_perm hp.2 ha hb hab).nodup_iff.mpr hp.2⟩
  intro s hs
  rw [tConcat_eq hp.2 ha hb hab] at hs
  rcases List.mem_append.mp hs with h | h
  · exact hp.1 s (List.mem_filter.mp (List.mem_filter.mp h).1).1
  · rcases List.mem_singleton.mp h with rfl
    intro hcon
    have h1 := (List.append_eq_nil.mp hcon).1
    have h2 := (tSeqOf_self_mem ha).2
    rw [h1] at h2
    cases h2

theorem getVertex_set_treaps (t : stEulerTour) (ts : TreapForest) (w : VId) :
    getVertex { t with treaps := ts } w = getVertex t w := rfl

theorem link_shape_SS {t0 : stEulerTour} (hwf : wfTour t0 = true) {u v : VId}
    {ru rv : stEulerVertex}
    (hru : getVertex t0 u = some ru) (hrv : getVertex t0 v = some rv)
    (huv : u ≠ v)
    (hulo : ru.leftOut = none) (hvlo : rv.leftOut = none) :
    ∃ U V ts', LinkShapeConcl t0 u v ru rv U V ts' := by
  obtain ⟨hf, hvt, ha, hpr, hep, ho⟩ := wfTour_parts hwf
  have huri : ru.rightIn = none := by
    rcases wfAnchors_iff ha hru with ⟨_, h⟩ | ⟨lo, ri, h, _⟩
    · exact h
    · rw [hulo] at h; cases h
  have hvri : rv.rightIn = none := by
    rcases wfAnchors_iff ha hrv with ⟨_, h⟩ | ⟨lo, ri, h, _⟩
    · exact h
    · rw [hvlo] at h; cases h
  obtain ⟨hp1, hsfid, hsbid, hseq1⟩ := t1_treaps_facts hf
  have hfid1 : t0.nextEdgeId ∈
      (t0.treaps ++ [[t0.nextEdgeId], [t0.nextEdgeId + 1]]).flatten := by simp
  have hbid1 : t0.nextEdgeId + 1 ∈
      (t0.treaps ++ [[t0.nextEdgeId], [t0.nextEdgeId + 1]]).flatten := by simp
  have hab : t0.nextEdgeId + 1 ∉
      tSeqOf (t0.treaps ++ [[t0.nextEdgeId], [t0.nextEdgeId + 1]]) t0.nextEdgeId := by
    rw [hsfid]
    intro hmem
    exact Nat.succ_ne_self _ (List.mem_singleton.mp hmem)
  have hfl : (t0.treaps ++ [[t0.nextEdgeId], [t0.nextEdgeId + 1]]).flatten
      = t0.treaps.flatten ++ [t0.nextEdgeId, t0.nextEdgeId + 1] := by simp
  refine ⟨[], [],
    tConcat (t0.treaps ++ [[t0.nextEdgeId], [t0.nextEdgeId + 1]])
      t0.nextEdgeId (t0.nextEdgeId + 1),
    ?_, ?_, ?_, ?_, ?_, ?_, ?_, ?_, ?_, ?_, ?_, ?_, ?_⟩
  · simp [hulo]
  · simp [hvlo]
  · intro lo h; rw [hulo] at h; cases h
  · intro lo h; rw [hvlo] at h; cases h
  · intro hd h; simp at h
  · intro l h; simp at h
  · intro hd h; simp at h
  · intro l h; simp at h
  · exact tConcat_part hp1 hfid1 hbid1 hab
  · have hcp := tConcat_perm hp1.2 hfid1 hbid1 hab
    rw [hfl] at hcp
    exact hcp.trans List.perm_append_comm
  · intro x hx
    simp only [List.nil_append] at hx ⊢
    have hx' : x ∈ tSeqOf (t0.treaps ++ [[t0.nextEdgeId], [t0.nextEdgeId + 1]])
        t0.nextEdgeId ++
        tSeqOf (t0.treaps ++ [[t0.nextEdgeId], [t0.nextEdgeId + 1]])
          (t0.nextEdgeId + 1) := by
      rw [hsfid, hsbid]; exact hx
    have hres := tSeqOf_tConcat_new hp1.2 hfid1 hbid1 hab hx'
    rw [hsfid, hsbid] at hres
    exact hres
  · intro x hxU hxV hxf hxb
    have hxa : x ∉ tSeqOf (t0.treaps ++ [[t0.nextEdgeId], [t0.nextEdgeId + 1]])
        t0.nextEdgeId := by
      rw [hsfid]
      intro hmem
      exact hxf (List.mem_singleton.mp hmem)
    have hxb' : x ∉ tSeqOf (t0.treaps ++ [[t0.nextEdgeId], [t0.nextEdgeId + 1]])
        (t0.nextEdgeId + 1) := by
      rw [hsbid]
      intro hmem
      exact hxb (List.mem_singleton.mp hmem)
    have hres := tSeqOf_tConcat_old hp1.2 hfid1 hbid1 hab hxa hxb'
    by_cases hmem : x ∈ t0.treaps.flatten
    · rw [hres, hseq1 x hmem]
    · rw [hres, tSeqOf_eq_nil (by
        rw [hfl]
        intro hcon
        rcases List.mem_append.mp hcon with h | h
        · exact hmem h
        · rcases List.mem_cons.mp h with h' | h'
          · exact hxf h'
          · exact hxb (List.mem_singleton.mp h')),
        tSeqOf_eq_nil hmem]
  · -- the record equality
    obtain ⟨t1x, ht1x⟩ : ∃ x : stEulerTour,
        x = { t0 with nComponents := t0.nComponents - 1,
                      halfEdges := (t0.nextEdgeId,
                          ⟨true, u, v, t0.nextEdgeId + 1⟩) ::
                        (t0.nextEdgeId + 1, ⟨false, v, u, t0.nextEdgeId⟩) ::
                        t0.halfEdges,
                      treaps := t0.treaps ++ [[t0.nextEdgeId], [t0.nextEdgeId + 1]],
                      forwardEdges := ((u, v), t0.nextEdgeId) :: t0.forwardEdges,
                      backwardEdges := ((v, u), t0.nextEdgeId + 1) :: t0.backwardEdges,
                      nextEdgeId := t0.nextEdgeId + 2 } := ⟨_, rfl⟩
    have hg1u : getVertex t1x u = some ru := by rw [ht1x]; exact hru
    have hg1v : getVertex t1x v = some rv := by rw [ht1x]; exact hrv
    have ht1tr : t1x.treaps
        = t0.treaps ++ [[t0.nextEdgeId], [t0.nextEdgeId + 1]] := by rw [ht1x]
    have hlink : stEulerTour_link t0 u v
        = linkTail t1x u v t0.nextEdgeId (t0.nextEdgeId + 1) := by
      rw [link_unfold hru hrv, ← ht1x, makeRoot_singleton hg1u hulo,
        makeRoot_singleton hg1v hvlo]
    have h4u : getVertex (setVertex t1x u ⟨some t0.nextEdgeId, none⟩) u
        = some ⟨some t0.nextEdgeId, none⟩ := getVertex_setVertex_self hg1u
    have h4v : getVertex (setVertex t1x u ⟨some t0.nextEdgeId, none⟩) v
        = some rv := (getVertex_setVertex_ne (Ne.symm huv)).trans hg1v
    have h5v : getVertex (setVertex (setVertex t1x u ⟨some t0.nextEdgeId, none⟩) v
        ⟨some t0.nextEdgeId, none⟩) v
        = some ⟨some t0.nextEdgeId, none⟩ := getVertex_setVertex_self h4v
    have h5u : getVertex (setVertex (setVertex t1x u ⟨some t0.nextEdgeId, none⟩) v
        ⟨some t0.nextEdgeId, none⟩) u
        = some ⟨some t0.nextEdgeId, none⟩ := (getVertex_setVertex_ne huv).trans h4u
    have h5av : getVertex (setVertex (setVertex (setVertex t1x u
        ⟨some t0.nextEdgeId, none⟩) v ⟨some t0.nextEdgeId, none⟩) v
        ⟨some t0.nextEdgeId, some (t0.nextEdgeId + 1)⟩) v
        = some ⟨some t0.nextEdgeId, some (t0.nextEdgeId + 1)⟩ :=
      getVertex_setVertex_self h5v
    have h5au : getVertex (setVertex (setVertex (setVertex t1x u
        ⟨some t0.nextEdgeId, none⟩) v ⟨some t0.nextEdgeId, none⟩) v
        ⟨some t0.nextEdgeId, some (t0.nextEdgeId + 1)⟩) u
        = some ⟨some t0.nextEdgeId, none⟩ := (getVertex_setVertex_ne huv).trans h5u
    rw [hlink]
    simp only [linkTail, hg1u, hg1v, hulo, huri, hvlo, hvri, Option.bind,
      h4u, h4v, h5v, h5u, h5av, h5au, getVertex_set_treaps, setVertex_treaps,
      ht1tr]
    rw [ht1x]
    simp only [setVertex, List.map_map, stEulerTour.mk.injEq, hulo, hvlo, hvri,
      Option.getD_none, and_true, true_and]
    refine congrArg (fun g => List.map g t0.vertices) ?_
    funext p
    simp only [Function.comp_apply]
    by_cases hpu : p.1 = u
    · simp [hpu, huv]
    · by_cases hpv : p.1 = v
      · simp [hpu, hpv, huv, Ne.symm huv]
      · simp [hpu, hpv]

theorem assocFind_of_mem {α β : Type} [DecidableEq α] {l : List (α × β)}
    (hn : (l.map Prod.fst).Nodup) {a : α} {b : β} (hp : (a, b) ∈ l) :
    assocFind l a = some b := by
  induction l with
  | nil => cases hp
  | cons q rest ih =>
    obtain ⟨a', b'⟩ := q
    rw [List.map_cons, List.nodup_cons] at hn
    rcases List.mem_cons.mp hp with heq | h
    · injection heq with h1 h2
      subst h1
      subst h2
      rw [assocFind, if_pos rfl]
    · have hne : a' ≠ a := by
        intro hc
        subst hc
        exact hn.1 (List.mem_map.mpr ⟨(a', b), h, rfl⟩)
      rw [assocFind, if_neg hne]
      exact ih hn.2 h

theorem link_shape_NS {t0 : stEulerTour} (hwf : wfTour t0 = true) {u v : VId}
    {ru rv : stEulerVertex}
    (hru : getVertex t0 u = some ru) (hrv : getVertex t0 v = some rv)
    (huv : u ≠ v) {lu : EId}
    (hulo : ru.leftOut = some lu) (hvlo : rv.leftOut = none) :
    ∃ U V ts', LinkShapeConcl t0 u v ru rv U V ts' := by
  obtain ⟨hf, hvt, ha, hpr, hep, ho⟩ := wfTour_parts hwf
  have hp0 : PartForest t0.treaps := wfForest_parts hf
  obtain ⟨riu, huri⟩ : ∃ riu, ru.rightIn = some riu := by
    rcases wfAnchors_iff ha hru with ⟨h, _⟩ | ⟨lo, ri, h1, h2⟩
    · rw [hulo] at h; cases h
    · exact ⟨ri, h2⟩
  have hvri : rv.rightIn = none := by
    rcases wfAnchors_iff ha hrv with ⟨_, h⟩ | ⟨lo, ri, h, _⟩
    · exact h
    · rw [hvlo] at h; cases h
  have hluS : lu ∈ tSeqOf t0.treaps lu := (wfAnchors_spec ha hru hulo huri).2.1
  obtain ⟨hp1, hsfid, hsbid, hseq1⟩ := t1_treaps_facts hf
  have hfid0 := fid_not_mem_flatten hf
  have hbid0 := bid_not_mem_flatten hf
  have hfl : (t0.treaps ++ [[t0.nextEdgeId], [t0.nextEdgeId + 1]]).flatten
      = t0.treaps.flatten ++ [t0.nextEdgeId, t0.nextEdgeId + 1] := by simp
  obtain ⟨t1x, ht1x⟩ : ∃ x : stEulerTour,
      x = { t0 with nComponents := t0.nComponents - 1,
                    halfEdges := (t0.nextEdgeId,
                        ⟨true, u, v, t0.nextEdgeId + 1⟩) ::
                      (t0.nextEdgeId + 1, ⟨false, v, u, t0.nextEdgeId⟩) ::
                      t0.halfEdges,
                    treaps := t0.treaps ++ [[t0.nextEdgeId], [t0.nextEdgeId + 1]],
                    forwardEdges := ((u, v), t0.nextEdgeId) :: t0.forwardEdges,
                    backwardEdges := ((v, u), t0.nextEdgeId + 1) :: t0.backwardEdges,
                    nextEdgeId := t0.nextEdgeId + 2 } := ⟨_, rfl⟩
  have hg1u : getVertex t1x u = some ru := by rw [ht1x]; exact hru
  have hg1v : getVertex t1x v = some rv := by rw [ht1x]; exact hrv
  have ht1tr : t1x.treaps
      = t0.treaps ++ [[t0.nextEdgeId], [t0.nextEdgeId + 1]] := by rw [ht1x]
  have ht1he : t1x.halfEdges = (t0.nextEdgeId,
        ⟨true, u, v, t0.nextEdgeId + 1⟩) ::
      (t0.nextEdgeId + 1, ⟨false, v, u, t0.nextEdgeId⟩) ::
      t0.halfEdges := by rw [ht1x]
  have hclass_sub : ∀ x ∈ tSeqOf t0.treaps lu, x ∈ t0.treaps.flatten :=
    fun x hx => mem_flatten_of_mem_tSeqOf hx
  have hged1 : ∀ e ∈ tSeqOf t0.treaps lu, getEdge t1x e = getEdge t0 e := by
    intro e he
    have hlt : e < t0.nextEdgeId := wfForest_fresh hf (hclass_sub e he)
    show assocFind t1x.halfEdges e = assocFind t0.halfEdges e
    rw [ht1he, assocFind_cons_ne (Ne.symm (Nat.ne_of_lt hlt)),
      assocFind_cons_ne (Ne.symm (Nat.ne_of_lt (Nat.lt_succ_of_lt hlt)))]
  have hseqt1 : ∀ x ∈ tSeqOf t0.treaps lu,
      tSeqOf t1x.treaps x = tSeqOf t0.treaps x := by
    intro x hx
    rw [ht1tr]
    exact hseq1 x (hclass_sub x hx)
  have hpart1x : PartForest t1x.treaps := by rw [ht1tr]; exact hp1
  have MRu : MakeRootConcl t1x u lu :=
    makeRoot_transfer hwf hru hulo huri hg1u hpart1x hseqt1 hged1
  obtain ⟨⟨ts2, hshape⟩, hpart2, hflat2, hunch2, hsame2, hperm2,
    ⟨hd, hhd, hhdc⟩, ⟨lst, hlst, hlstc⟩⟩ := MRu
  simp only [hshape] at hpart2 hflat2 hunch2 hsame2 hperm2 hhd hlst
  have hclass1 : tSeqOf t1x.treaps lu = tSeqOf t0.treaps lu := hseqt1 lu hluS
  rw [hclass1] at hunch2 hsame2 hperm2
  rw [ht1tr] at hunch2 hflat2
  -- the rotated u-class
  have hluU : lu ∈ tSeqOf ts2 lu := hperm2.mem_iff.mpr hluS
  have hdU : hd ∈ tSeqOf ts2 lu := head?_mem_list hhd
  have hlstU : lst ∈ tSeqOf ts2 lu := getLast?_mem_list hlst
  have hfid2 : tSeqOf ts2 t0.nextEdgeId = [t0.nextEdgeId] :=
    (hunch2 _ (fun h => hfid0 (hclass_sub _ h))).trans hsfid
  have hbid2 : tSeqOf ts2 (t0.nextEdgeId + 1) = [t0.nextEdgeId + 1] :=
    (hunch2 _ (fun h => hbid0 (hclass_sub _ h))).trans hsbid
  have hflat2' : ts2.flatten.Perm
      (t0.treaps.flatten ++ [t0.nextEdgeId, t0.nextEdgeId + 1]) := by
    rw [← hfl]; exact hflat2
  have hfidM : t0.nextEdgeId ∈ ts2.flatten := by
    rw [hflat2'.mem_iff]
    exact List.mem_append_right _ (by simp)
  have hbidM : t0.nextEdgeId + 1 ∈ ts2.flatten := by
    rw [hflat2'.mem_iff]
    exact List.mem_append_right _ (by simp)
  have hdM : hd ∈ ts2.flatten := mem_flatten_of_mem_tSeqOf hdU
  have hluM : lu ∈ ts2.flatten := mem_flatten_of_mem_tSeqOf hluU
  have hfidU : t0.nextEdgeId ∉ tSeqOf ts2 lu :=
    fun h => hfid0 (hclass_sub _ (hperm2.mem_iff.mp h))
  have hbidU : t0.nextEdgeId + 1 ∉ tSeqOf ts2 lu :=
    fun h => hbid0 (hclass_sub _ (hperm2.mem_iff.mp h))
  have hclasshd : tSeqOf ts2 hd = tSeqOf ts2 lu := hsame2 hd (hperm2.mem_iff.mp hdU)
  -- step A: concat the u-class with [fid]
  have hfidhd : t0.nextEdgeId ∉ tSeqOf ts2 hd := by rw [hclasshd]; exact hfidU
  have hApart : PartForest (tConcat ts2 hd t0.nextEdgeId) :=
    tConcat_part hpart2 hdM hfidM hfidhd
  have hAperm := tConcat_perm hpart2.2 hdM hfidM hfidhd
  have hAlu : tSeqOf (tConcat ts2 hd t0.nextEdgeId) lu
      = tSeqOf ts2 lu ++ [t0.nextEdgeId] := by
    have h1 := tSeqOf_tConcat_new hpart2.2 hdM hfidM hfidhd
      (List.mem_append_left _ (by rw [hclasshd]; exact hluU))
    rw [hclasshd, hfid2] at h1
    exact h1
  have hAbid : tSeqOf (tConcat ts2 hd t0.nextEdgeId) (t0.nextEdgeId + 1)
      = [t0.nextEdgeId + 1] := by
    have h1 := tSeqOf_tConcat_old hpart2.2 hdM hfidM hfidhd
      (by rw [hclasshd]; exact hbidU)
      (by rw [hfid2]
          intro hmem
          exact Nat.succ_ne_self _ (List.mem_singleton.mp hmem))
    rw [h1, hbid2]
  have hAold : ∀ x, x ∉ tSeqOf ts2 lu → x ≠ t0.nextEdgeId →
      tSeqOf (tConcat ts2 hd t0.nextEdgeId) x = tSeqOf ts2 x := by
    intro x hx1 hx2
    exact tSeqOf_tConcat_old hpart2.2 hdM hfidM hfidhd
      (by rw [hclasshd]; exact hx1)
      (by rw [hfid2]
          intro hmem
          exact hx2 (List.mem_singleton.mp hmem))
  -- step B: concat with [bid]
  have hluA : lu ∈ (tConcat ts2 hd t0.nextEdgeId).flatten := hAperm.mem_iff.mpr hluM
  have hbidA : t0.nextEdgeId + 1 ∈ (tConcat ts2 hd t0.nextEdgeId).flatten :=
    hAperm.mem_iff.mpr hbidM
  have hbidlu : t0.nextEdgeId + 1 ∉ tSeqOf (tConcat ts2 hd t0.nextEdgeId) lu := by
    rw [hAlu]
    intro hmem
    rcases List.mem_append.mp hmem with h | h
    · exact hbidU h
    · exact Nat.succ_ne_self _ (List.mem_singleton.mp h)
  have hBpart : PartForest
      (tConcat (tConcat ts2 hd t0.nextEdgeId) lu (t0.nextEdgeId + 1)) :=
    tConcat_part hApart hluA hbidA hbidlu
  have hBperm := tConcat_perm hApart.2 hluA hbidA hbidlu
  have hassoc : (tSeqOf ts2 lu ++ [t0.nextEdgeId]) ++ [t0.nextEdgeId + 1]
      = tSeqOf ts2 lu ++ t0.nextEdgeId :: [t0.nextEdgeId + 1] :=
    List.append_assoc _ _ _
  have hBnew : ∀ x ∈ tSeqOf ts2 lu ++ t0.nextEdgeId :: [t0.nextEdgeId + 1],
      tSeqOf (tConcat (tConcat ts2 hd t0.nextEdgeId) lu (t0.nextEdgeId + 1)) x
        = tSeqOf ts2 lu ++ t0.nextEdgeId :: [t0.nextEdgeId + 1] := by
    intro x hx
    have h1 := tSeqOf_tConcat_new hApart.2 hluA hbidA hbidlu
      (by rw [hAlu, hAbid, hassoc]; exact hx)
    rw [hAlu, hAbid, hassoc] at h1
    exact h1
  have hBold : ∀ x, x ∉ tSeqOf ts2 lu → x ≠ t0.nextEdgeId →
      x ≠ t0.nextEdgeId + 1 →
      tSeqOf (tConcat (tConcat ts2 hd t0.nextEdgeId) lu (t0.nextEdgeId + 1)) x
        = tSeqOf ts2 x := by
    intro x hx1 hx2 hx3
    have h1 := tSeqOf_tConcat_old hApart.2 hluA hbidA hbidlu
      (by rw [hAlu]
          intro hmem
          rcases List.mem_append.mp hmem with h | h
          · exact hx1 h
          · exact hx2 (List.mem_singleton.mp h))
      (by rw [hAbid]
          intro hmem
          exact hx3 (List.mem_singleton.mp hmem))
    rw [h1, hAold x hx1 hx2]
  refine ⟨tSeqOf ts2 lu, [],
    tConcat (tConcat ts2 hd t0.nextEdgeId) lu (t0.nextEdgeId + 1),
    ?_, ?_, ?_, ?_, ?_, ?_, ?_, ?_, ?_, ?_, ?_, ?_, ?_⟩
  · constructor
    · intro h
      rw [h] at hluU
      cases hluU
    · intro h
      rw [hulo] at h
      cases h
  · simp [hvlo]
  · intro lo h
    rw [hulo] at h
    injection h with h'
    subst h'
    exact hperm2
  · intro lo h
    rw [hvlo] at h
    cases h
  · intro hd' h
    rw [hhd] at h
    injection h with h'
    subst h'
    have heq : contE t1x u hd = contE t0 u hd :=
      contE_congr (hged1 hd (hperm2.mem_iff.mp hdU))
    rw [← heq]
    exact hhdc
  · intro l h
    rw [hlst] at h
    injection h with h'
    subst h'
    have heq : contE t1x u lst = contE t0 u lst :=
      contE_congr (hged1 lst (hperm2.mem_iff.mp hlstU))
    rw [← heq]
    exact hlstc
  · intro hd' h
    simp at h
  · intro l h
    simp at h
  · exact hBpart
  · refine (hBperm.trans (hAperm.trans hflat2')).trans ?_
    exact List.perm_append_comm
  · intro x hx
    simp only [List.nil_append] at hx ⊢
    exact hBnew x hx
  · intro x hxU hxV hxf hxb
    rw [hBold x hxU hxf hxb]
    have hxc : x ∉ tSeqOf t0.treaps lu := fun h => hxU (hperm2.mem_iff.mpr h)
    rw [hunch2 x hxc]
    by_cases hmem : x ∈ t0.treaps.flatten
    · exact hseq1 x hmem
    · rw [tSeqOf_eq_nil (by
        rw [hfl]
        intro hcon
        rcases List.mem_append.mp hcon with h | h
        · exact hmem h
        · rcases List.mem_cons.mp h with h' | h'
          · exact hxf h'
          · exact hxb (List.mem_singleton.mp h')),
        tSeqOf_eq_nil hmem]
  · -- the record equality
    have hg2v : getVertex { t1x with treaps := ts2 } v = some rv := hg1v
    have hlink : stEulerTour_link t0 u v
        = linkTail { t1x with treaps := ts2 } u v t0.nextEdgeId
            (t0.nextEdgeId + 1) := by
      rw [link_unfold hru hrv, ← ht1x, hshape, makeRoot_singleton hg2v hvlo]
    have hmin : tMinOf ts2 lu = some hd := hhd
    have hg4v : getVertex { t1x with
        treaps := tConcat ts2 hd t0.nextEdgeId } v = some rv := hg1v
    have hg4u : getVertex { t1x with
        treaps := tConcat ts2 hd t0.nextEdgeId } u = some ru := hg1u
    have h5v : getVertex (setVertex { t1x with
        treaps := tConcat ts2 hd t0.nextEdgeId } v
        ⟨some t0.nextEdgeId, none⟩) v
        = some ⟨some t0.nextEdgeId, none⟩ := getVertex_setVertex_self hg4v
    have h5u : getVertex (setVertex { t1x with
        treaps := tConcat ts2 hd t0.nextEdgeId } v
        ⟨some t0.nextEdgeId, none⟩) u
        = some ru := (getVertex_setVertex_ne huv).trans hg4u
    have h5av : getVertex (setVertex (setVertex { t1x with
        treaps := tConcat ts2 hd t0.nextEdgeId } v
        ⟨some t0.nextEdgeId, none⟩) v
        ⟨some t0.nextEdgeId, some (t0.nextEdgeId + 1)⟩) v
        = some ⟨some t0.nextEdgeId, some (t0.nextEdgeId + 1)⟩ :=
      getVertex_setVertex_self h5v
    have h5au : getVertex (setVertex (setVertex { t1x with
        treaps := tConcat ts2 hd t0.nextEdgeId } v
        ⟨some t0.nextEdgeId, none⟩) v
        ⟨some t0.nextEdgeId, some (t0.nextEdgeId + 1)⟩) u
        = some ru := (getVertex_setVertex_ne huv).trans h5u
    rw [hlink]
    simp only [linkTail, getVertex_set_treaps, hg1u, hg1v, hulo, huri, hvlo,
      hvri, Option.bind, hmin, h5v, h5u, h5av, h5au, setVertex_treaps]
    rw [ht1x]
    simp only [setVertex, List.map_map, stEulerTour.mk.injEq, hulo, hvlo, hvri,
      Option.getD_none, Option.getD_some, and_true, true_and]
    refine congrArg (fun g => List.map g t0.vertices) ?_
    funext p
    simp only [Function.comp_apply]
    by_cases hpu : p.1 = u
    · simp [hpu, huv]
    · by_cases hpv : p.1 = v
      · simp [hpu, hpv, huv, Ne.symm huv]
      · simp [hpu, hpv]

theorem link_shape_SN {t0 : stEulerTour} (hwf : wfTour t0 = true) {u v : VId}
    {ru rv : stEulerVertex}
    (hru : getVertex t0 u = some ru) (hrv : getVertex t0 v = some rv)
    (huv : u ≠ v) {lv : EId}
    (hulo : ru.leftOut = none) (hvlo : rv.leftOut = some lv) :
    ∃ U V ts', LinkShapeConcl t0 u v ru rv U V ts' := by
  obtain ⟨hf, hvt, ha, hpr, hep, ho⟩ := wfTour_parts hwf
  have hp0 : PartForest t0.treaps := wfForest_parts hf
  have huri : ru.rightIn = none := by
    rcases wfAnchors_iff ha hru with ⟨_, h⟩ | ⟨lo, ri, h, _⟩
    · exact h
    · rw [hulo] at h; cases h
  obtain ⟨riv, hvri⟩ : ∃ riv, rv.rightIn = some riv := by
    rcases wfAnchors_iff ha hrv with ⟨h, _⟩ | ⟨lo, ri, h1, h2⟩
    · rw [hvlo] at h; cases h
    · exact ⟨ri, h2⟩
  obtain ⟨hlvne, hlvS, hrivS, _, _⟩ := wfAnchors_spec ha hrv hvlo hvri
  obtain ⟨hp1, hsfid, hsbid, hseq1⟩ := t1_treaps_facts hf
  have hfid0 := fid_not_mem_flatten hf
  have hbid0 := bid_not_mem_flatten hf
  have hfl : (t0.treaps ++ [[t0.nextEdgeId], [t0.nextEdgeId + 1]]).flatten
      = t0.treaps.flatten ++ [t0.nextEdgeId, t0.nextEdgeId + 1] := by simp
  obtain ⟨t1x, ht1x⟩ : ∃ x : stEulerTour,
      x = { t0 with nComponents := t0.nComponents - 1,
                    halfEdges := (t0.nextEdgeId,
                        ⟨true, u, v, t0.nextEdgeId + 1⟩) ::
                      (t0.nextEdgeId + 1, ⟨false, v, u, t0.nextEdgeId⟩) ::
                      t0.halfEdges,
                    treaps := t0.treaps ++ [[t0.nextEdgeId], [t0.nextEdgeId + 1]],
                    forwardEdges := ((u, v), t0.nextEdgeId) :: t0.forwardEdges,
                    backwardEdges := ((v, u), t0.nextEdgeId + 1) :: t0.backwardEdges,
                    nextEdgeId := t0.nextEdgeId + 2 } := ⟨_, rfl⟩
  have hg1u : getVertex t1x u = some ru := by rw [ht1x]; exact hru
  have hg1v : getVertex t1x v = some rv := by rw [ht1x]; exact hrv
  have ht1tr : t1x.treaps
      = t0.treaps ++ [[t0.nextEdgeId], [t0.nextEdgeId + 1]] := by rw [ht1x]
  have ht1he : t1x.halfEdges = (t0.nextEdgeId,
        ⟨true, u, v, t0.nextEdgeId + 1⟩) ::
      (t0.nextEdgeId + 1, ⟨false, v, u, t0.nextEdgeId⟩) ::
      t0.halfEdges := by rw [ht1x]
  have hclass_sub : ∀ x ∈ tSeqOf t0.treaps lv, x ∈ t0.treaps.flatten :=
    fun x hx => mem_flatten_of_mem_tSeqOf hx
  have hged1 : ∀ e ∈ tSeqOf t0.treaps lv, getEdge t1x e = getEdge t0 e := by
    intro e he
    have hlt : e < t0.nextEdgeId := wfForest_fresh hf (hclass_sub e he)
    show assocFind t1x.halfEdges e = assocFind t0.halfEdges e
    rw [ht1he, assocFind_cons_ne (Ne.symm (Nat.ne_of_lt hlt)),
      assocFind_cons_ne (Ne.symm (Nat.ne_of_lt (Nat.lt_succ_of_lt hlt)))]
  have hseqt1 : ∀ x ∈ tSeqOf t0.treaps lv,
      tSeqOf t1x.treaps x = tSeqOf t0.treaps x := by
    intro x hx
    rw [ht1tr]
    exact hseq1 x (hclass_sub x hx)
  have hpart1x : PartForest t1x.treaps := by rw [ht1tr]; exact hp1
  have MRv : MakeRootConcl t1x v lv :=
    makeRoot_transfer hwf hrv hvlo hvri hg1v hpart1x hseqt1 hged1
  obtain ⟨⟨ts3, hshape⟩, hpart2, hflat2, hunch2, hsame2, hperm2,
    ⟨hd, hhd, hhdc⟩, ⟨lst, hlst, hlstc⟩⟩ := MRv
  simp only [hshape] at hpart2 hflat2 hunch2 hsame2 hperm2 hhd hlst
  have hclass1 : tSeqOf t1x.treaps lv = tSeqOf t0.treaps lv := hseqt1 lv hlvS
  rw [hclass1] at hunch2 hsame2 hperm2
  rw [ht1tr] at hunch2 hflat2
  have hlvV : lv ∈ tSeqOf ts3 lv := hperm2.mem_iff.mpr hlvS
  have hrivV : riv ∈ tSeqOf ts3 lv := hperm2.mem_iff.mpr hrivS
  have hdV : hd ∈ tSeqOf ts3 lv := head?_mem_list hhd
  have hlstV : lst ∈ tSeqOf ts3 lv := getLast?_mem_list hlst
  have hfid3 : tSeqOf ts3 t0.nextEdgeId = [t0.nextEdgeId] :=
    (hunch2 _ (fun h => hfid0 (hclass_sub _ h))).trans hsfid
  have hbid3 : tSeqOf ts3 (t0.nextEdgeId + 1) = [t0.nextEdgeId + 1] :=
    (hunch2 _ (fun h => hbid0 (hclass_sub _ h))).trans hsbid
  have hflat2' : ts3.flatten.Perm
      (t0.treaps.flatten ++ [t0.nextEdgeId, t0.nextEdgeId + 1]) := by
    rw [← hfl]; exact hflat2
  have hfidM : t0.nextEdgeId ∈ ts3.flatten := by
    rw [hflat2'.mem_iff]
    exact List.mem_append_right _ (by simp)
  have hbidM : t0.nextEdgeId + 1 ∈ ts3.flatten := by
    rw [hflat2'.mem_iff]
    exact List.mem_append_right _ (by simp)
  have hlvM : lv ∈ ts3.flatten := mem_flatten_of_mem_tSeqOf hlvV
  have hrivM : riv ∈ ts3.flatten := mem_flatten_of_mem_tSeqOf hrivV
  have hfidV : t0.nextEdgeId ∉ tSeqOf ts3 lv :=
    fun h => hfid0 (hclass_sub _ (hperm2.mem_iff.mp h))
  have hbidV : t0.nextEdgeId + 1 ∉ tSeqOf ts3 lv :=
    fun h => hbid0 (hclass_sub _ (hperm2.mem_iff.mp h))
  -- step A: concat [fid] in front of the v-class
  have hlvfid : lv ∉ tSeqOf ts3 t0.nextEdgeId := by
    rw [hfid3]
    intro hmem
    exact hfid0 (List.mem_singleton.mp hmem ▸ mem_flatten_of_mem_tSeqOf hlvS)
  have hApart : PartForest (tConcat ts3 t0.nextEdgeId lv) :=
    tConcat_part hpart2 hfidM hlvM hlvfid
  have hAperm := tConcat_perm hpart2.2 hfidM hlvM hlvfid
  have hAnew : ∀ x ∈ [t0.nextEdgeId] ++ tSeqOf ts3 lv,
      tSeqOf (tConcat ts3 t0.nextEdgeId lv) x
        = [t0.nextEdgeId] ++ tSeqOf ts3 lv := by
    intro x hx
    have h1 := tSeqOf_tConcat_new hpart2.2 hfidM hlvM hlvfid
      (by rw [hfid3]; exact hx)
    rw [hfid3] at h1
    exact h1
  have hAold : ∀ x, x ≠ t0.nextEdgeId → x ∉ tSeqOf ts3 lv →
      tSeqOf (tConcat ts3 t0.nextEdgeId lv) x = tSeqOf ts3 x := by
    intro x hx1 hx2
    exact tSeqOf_tConcat_old hpart2.2 hfidM hlvM hlvfid
      (by rw [hfid3]
          intro hmem
          exact hx1 (List.mem_singleton.mp hmem))
      hx2
  have hAbid : tSeqOf (tConcat ts3 t0.nextEdgeId lv) (t0.nextEdgeId + 1)
      = [t0.nextEdgeId + 1] := by
    rw [hAold _ (Nat.succ_ne_self _) hbidV, hbid3]
  have hAriv : tSeqOf (tConcat ts3 t0.nextEdgeId lv) riv
      = [t0.nextEdgeId] ++ tSeqOf ts3 lv :=
    hAnew riv (List.mem_append_right _ hrivV)
  -- step B: concat [bid] at the end
  have hrivA : riv ∈ (tConcat ts3 t0.nextEdgeId lv).flatten :=
    hAperm.mem_iff.mpr hrivM
  have hbidA : t0.nextEdgeId + 1 ∈ (tConcat ts3 t0.nextEdgeId lv).flatten :=
    hAperm.mem_iff.mpr hbidM
  have hbidriv : t0.nextEdgeId + 1 ∉ tSeqOf (tConcat ts3 t0.nextEdgeId lv) riv := by
    rw [hAriv]
    intro hmem
    rcases List.mem_append.mp hmem with h | h
    · exact Nat.succ_ne_self _ (List.mem_singleton.mp h)
    · exact hbidV h
  have hBpart : PartForest
      (tConcat (tConcat ts3 t0.nextEdgeId lv) riv (t0.nextEdgeId + 1)) :=
    tConcat_part hApart hrivA hbidA hbidriv
  have hBperm := tConcat_perm hApart.2 hrivA hbidA hbidriv
  have hassoc : ([t0.nextEdgeId] ++ tSeqOf ts3 lv) ++ [t0.nextEdgeId + 1]
      = t0.nextEdgeId :: (tSeqOf ts3 lv ++ [t0.nextEdgeId + 1]) :=
    List.append_assoc _ _ _
  have hBnew : ∀ x ∈ t0.nextEdgeId :: (tSeqOf ts3 lv ++ [t0.nextEdgeId + 1]),
      tSeqOf (tConcat (tConcat ts3 t0.nextEdgeId lv) riv (t0.nextEdgeId + 1)) x
        = t0.nextEdgeId :: (tSeqOf ts3 lv ++ [t0.nextEdgeId + 1]) := by
    intro x hx
    have h1 := tSeqOf_tConcat_new hApart.2 hrivA hbidA hbidriv
      (by rw [hAriv, hAbid, hassoc]; exact hx)
    rw [hAriv, hAbid, hassoc] at h1
    exact h1
  have hBold : ∀ x, x ∉ tSeqOf ts3 lv → x ≠ t0.nextEdgeId →
      x ≠ t0.nextEdgeId + 1 →
      tSeqOf (tConcat (tConcat ts3 t0.nextEdgeId lv) riv (t0.nextEdgeId + 1)) x
        = tSeqOf ts3 x := by
    intro x hx1 hx2 hx3
    have h1 := tSeqOf_tConcat_old hApart.2 hrivA hbidA hbidriv
      (by rw [hAriv]
          intro hmem
          rcases List.mem_append.mp hmem with h | h
          · exact hx2 (List.mem_singleton.mp h)
          · exact hx1 h)
      (by rw [hAbid]
          intro hmem
          exact hx3 (List.mem_singleton.mp hmem))
    rw [h1, hAold x hx2 hx1]
  refine ⟨[], tSeqOf ts3 lv,
    tConcat (tConcat ts3 t0.nextEdgeId lv) riv (t0.nextEdgeId + 1),
    ?_, ?_, ?_, ?_, ?_, ?_, ?_, ?_, ?_, ?_, ?_, ?_, ?_⟩
  · simp [hulo]
  · constructor
    · intro h
      rw [h] at hlvV
      cases hlvV
    · intro h
      rw [hvlo] at h
      cases h
  · intro lo h
    rw [hulo] at h
    cases h
  · intro lo h
    rw [hvlo] at h
    injection h with h'
    subst h'
    exact hperm2
  · intro hd' h
    simp at h
  · intro l h
    simp at h
  · intro hd' h
    rw [hhd] at h
    injection h with h'
    subst h'
    have heq : contE t1x v hd = contE t0 v hd :=
      contE_congr (hged1 hd (hperm2.mem_iff.mp hdV))
    rw [← heq]
    exact hhdc
  · intro l h
    rw [hlst] at h
    injection h with h'
    subst h'
    have heq : contE t1x v lst = contE t0 v lst :=
      contE_congr (hged1 lst (hperm2.mem_iff.mp hlstV))
    rw [← heq]
    exact hlstc
  · exact hBpart
  · refine (hBperm.trans (hAperm.trans hflat2')).trans ?_
    exact List.perm_append_comm
  · intro x hx
    simp only [List.nil_append] at hx ⊢
    exact hBnew x hx
  · intro x hxU hxV hxf hxb
    rw [hBold x hxV hxf hxb]
    have hxc : x ∉ tSeqOf t0.treaps lv := fun h => hxV (hperm2.mem_iff.mpr h)
    rw [hunch2 x hxc]
    by_cases hmem : x ∈ t0.treaps.flatten
    · exact hseq1 x hmem
    · rw [tSeqOf_eq_nil (by
        rw [hfl]
        intro hcon
        rcases List.mem_append.mp hcon with h | h
        · exact hmem h
        · rcases List.mem_cons.mp h with h' | h'
          · exact hxf h'
          · exact hxb (List.mem_singleton.mp h')),
        tSeqOf_eq_nil hmem]
  · -- the record equality
    have hg3u : getVertex { t1x with treaps := ts3 } u = some ru := hg1u
    have hg3v : getVertex { t1x with treaps := ts3 } v = some rv := hg1v
    have hlink : stEulerTour_link t0 u v
        = linkTail { t1x with treaps := ts3 } u v t0.nextEdgeId
            (t0.nextEdgeId + 1) := by
      rw [link_unfold hru hrv, ← ht1x, makeRoot_singleton hg1u hulo, hshape]
    have h4u : getVertex (setVertex { t1x with treaps := ts3 } u
        ⟨some t0.nextEdgeId, none⟩) u
        = some ⟨some t0.nextEdgeId, none⟩ := getVertex_setVertex_self hg3u
    have h4v : getVertex (setVertex { t1x with treaps := ts3 } u
        ⟨some t0.nextEdgeId, none⟩) v
        = some rv := (getVertex_setVertex_ne (Ne.symm huv)).trans hg3v
    rw [hlink]
    simp only [linkTail, getVertex_set_treaps, hg1u, hg1v, hulo, huri, hvlo,
      hvri, Option.bind, h4u, h4v, setVertex_treaps]
    rw [ht1x]
    simp only [setVertex, List.map_map, stEulerTour.mk.injEq, hulo, hvlo, hvri,
      Option.getD_none, Option.getD_some, and_true, true_and]
    have hnodup : (t0.vertices.map Prod.fst).Nodup := wfVertices_nodup hvt
    refine List.map_congr_left ?_
    intro p hp
    simp only [Function.comp_apply]
    by_cases hpu : p.1 = u
    · simp [hpu, huv]
    · by_cases hpv : p.1 = v
      · have h1 : assocFind t0.vertices p.1 = some p.2 :=
          assocFind_of_mem hnodup (by rw [Prod.mk.eta]; exact hp)
        rw [hpv] at h1
        have hp2 : p.2 = rv := by
          have h2 : some p.2 = some rv := h1.symm.trans hrv
          injection h2
        have hpeq : p = (v, rv) := by
          rw [← hp2, ← hpv]
        rw [hpeq]
        have heta : rv = ⟨rv.leftOut, rv.rightIn⟩ := rfl
        rw [hvlo, hvri] at heta
        simp [huv, Ne.symm huv, hvlo, hvri, ← heta]
      · simp [hpu, hpv]

theorem link_shape_NN {t0 : stEulerTour} (hwf : wfTour t0 = true) {u v : VId}
    {ru rv : stEulerVertex}
    (hru : getVertex t0 u = some ru) (hrv : getVertex t0 v = some rv)
    (huv : u ≠ v) {lu lv : EId}
    (hulo : ru.leftOut = some lu) (hvlo : rv.leftOut = some lv)
    (hconn : stEulerTour_connected t0 u v = some false) :
    ∃ U V ts', LinkShapeConcl t0 u v ru rv U V ts' := by
  obtain ⟨hf, hvt, ha, hpr, hep, ho⟩ := wfTour_parts hwf
  have hp0 : PartForest t0.treaps := wfForest_parts hf
  obtain ⟨riu, huri⟩ : ∃ riu, ru.rightIn = some riu := by
    rcases wfAnchors_iff ha hru with ⟨h, _⟩ | ⟨lo, ri, h1, h2⟩
    · rw [hulo] at h; cases h
    · exact ⟨ri, h2⟩
  obtain ⟨riv, hvri⟩ : ∃ riv, rv.rightIn = some riv := by
    rcases wfAnchors_iff ha hrv with ⟨h, _⟩ | ⟨lo, ri, h1, h2⟩
    · rw [hvlo] at h; cases h
    · exact ⟨ri, h2⟩
  have hluS : lu ∈ tSeqOf t0.treaps lu := (wfAnchors_spec ha hru hulo huri).2.1
  obtain ⟨hlvne, hlvS, hrivS, _, _⟩ := wfAnchors_spec ha hrv hvlo hvri
  -- the two tours are distinct treaps
  have hdiff : tSeqOf t0.treaps lu ≠ tSeqOf t0.treaps lv := by
    intro heq
    have hc : stEulerTour_connected t0 u v = some true := by
      unfold stEulerTour_connected presentId stEulerVertex_connected
      simp [hru, hrv, hulo, hvlo, huv, heq]
    have h2 := hc.symm.trans hconn
    injection h2 with h3
    exact Bool.noConfusion h3
  have hdisj : ∀ x, x ∈ tSeqOf t0.treaps lu → x ∈ tSeqOf t0.treaps lv → False := by
    intro x h1 h2
    exact hdiff ((tSeqOf_same hp0.2 h1).symm.trans (tSeqOf_same hp0.2 h2))
  obtain ⟨hp1, hsfid, hsbid, hseq1⟩ := t1_treaps_facts hf
  have hfid0 := fid_not_mem_flatten hf
  have hbid0 := bid_not_mem_flatten hf
  have hfl : (t0.treaps ++ [[t0.nextEdgeId], [t0.nextEdgeId + 1]]).flatten
      = t0.treaps.flatten ++ [t0.nextEdgeId, t0.nextEdgeId + 1] := by simp
  obtain ⟨t1x, ht1x⟩ : ∃ x : stEulerTour,
      x = { t0 with nComponents := t0.nComponents - 1,
                    halfEdges := (t0.nextEdgeId,
                        ⟨true, u, v, t0.nextEdgeId + 1⟩) ::
                      (t0.nextEdgeId + 1, ⟨false, v, u, t0.nextEdgeId⟩) ::
                      t0.halfEdges,
                    treaps := t0.treaps ++ [[t0.nextEdgeId], [t0.nextEdgeId + 1]],
                    forwardEdges := ((u, v), t0.nextEdgeId) :: t0.forwardEdges,
                    backwardEdges := ((v, u), t0.nextEdgeId + 1) :: t0.backwardEdges,
                    nextEdgeId := t0.nextEdgeId + 2 } := ⟨_, rfl⟩
  have hg1u : getVertex t1x u = some ru := by rw [ht1x]; exact hru
  have hg1v : getVertex t1x v = some rv := by rw [ht1x]; exact hrv
  have ht1tr : t1x.treaps
      = t0.treaps ++ [[t0.nextEdgeId], [t0.nextEdgeId + 1]] := by rw [ht1x]
  have ht1he : t1x.halfEdges = (t0.nextEdgeId,
        ⟨true, u, v, t0.nextEdgeId + 1⟩) ::
      (t0.nextEdgeId + 1, ⟨false, v, u, t0.nextEdgeId⟩) ::
      t0.halfEdges := by rw [ht1x]
  have hged1 : ∀ e, e ∈ t0.treaps.flatten → getEdge t1x e = getEdge t0 e := by
    intro e he
    have hlt : e < t0.nextEdgeId := wfForest_fresh hf he
    show assocFind t1x.halfEdges e = assocFind t0.halfEdges e
    rw [ht1he, assocFind_cons_ne (Ne.symm (Nat.ne_of_lt hlt)),
      assocFind_cons_ne (Ne.symm (Nat.ne_of_lt (Nat.lt_succ_of_lt hlt)))]
  have hpart1x : PartForest t1x.treaps := by rw [ht1tr]; exact hp1
  -- first makeRoot, at u
  have MRu : MakeRootConcl t1x u lu := by
    apply makeRoot_transfer hwf hru hulo huri hg1u hpart1x
    · intro x hx
      rw [ht1tr]
      exact hseq1 x (mem_flatten_of_mem_tSeqOf hx)
    · intro e he
      exact hged1 e (mem_flatten_of_mem_tSeqOf he)
  obtain ⟨⟨ts2, hshape⟩, hpart2, hflat2, hunch2, hsame2, hperm2,
    ⟨hdu, hhdu, hhduc⟩, ⟨lstu, hlstu, hlstuc⟩⟩ := MRu
  simp only [hshape] at hpart2 hflat2 hunch2 hsame2 hperm2 hhdu hlstu
  have hclass1u : tSeqOf t1x.treaps lu = tSeqOf t0.treaps lu :=
    (by rw [ht1tr]; exact hseq1 lu (mem_flatten_of_mem_tSeqOf hluS))
  rw [hclass1u] at hunch2 hsame2 hperm2
  rw [ht1tr] at hunch2 hflat2
  have hlvnotu : lv ∉ tSeqOf t0.treaps lu := fun h => hdisj lv h hlvS
  have hlunotv : lu ∉ tSeqOf t0.treaps lv := fun h => hdisj lu hluS h
  have hts2lv : tSeqOf ts2 lv = tSeqOf t0.treaps lv := by
    rw [hunch2 lv hlvnotu]
    exact hseq1 lv (mem_flatten_of_mem_tSeqOf hlvS)
  -- second makeRoot, at v
  have hg2v : getVertex ({ t1x with treaps := ts2 } : stEulerTour) v = some rv := hg1v
  have hpart2' : PartForest ({ t1x with treaps := ts2 } : stEulerTour).treaps := hpart2
  have MRv : MakeRootConcl { t1x with treaps := ts2 } v lv := by
    apply makeRoot_transfer hwf hrv hvlo hvri hg2v hpart2'
    · intro x hx
      show tSeqOf ts2 x = tSeqOf t0.treaps x
      rw [hunch2 x (fun hc => hdisj x hc hx)]
      exact hseq1 x (mem_flatten_of_mem_tSeqOf hx)
    · intro e he
      show getEdge t1x e = getEdge t0 e
      exact hged1 e (mem_flatten_of_mem_tSeqOf he)
  obtain ⟨⟨ts3, hshape2⟩, hpart3, hflat3, hunch3, hsame3, hperm3,
    ⟨hdv, hhdv, hhdvc⟩, ⟨lstv, hlstv, hlstvc⟩⟩ := MRv
  simp only [hshape2] at hpart3 hflat3 hunch3 hsame3 hperm3 hhdv hlstv
  rw [hts2lv] at hunch3 hsame3 hperm3
  have hhdvc' : contE t1x v hdv = true := hhdvc
  have hlstvc' : contE t1x v lstv = true := hlstvc
  -- classes inside ts3
  have hlu3 : tSeqOf ts3 lu = tSeqOf ts2 lu := hunch3 lu hlunotv
  have hUnot : ∀ x ∈ tSeqOf ts2 lu, x ∉ tSeqOf t0.treaps lv :=
    fun x hx hc => hdisj x (hperm2.mem_iff.mp hx) hc
  have hVnot : ∀ x ∈ tSeqOf ts3 lv, x ∉ tSeqOf ts2 lu :=
    fun x hx hc => hdisj x (hperm2.mem_iff.mp hc) (hperm3.mem_iff.mp hx)
  have hsame3' : ∀ x ∈ tSeqOf ts2 lu, tSeqOf ts3 x = tSeqOf ts2 lu := by
    intro x hx
    rw [hunch3 x (hUnot x hx)]
    exact hsame2 x (hperm2.mem_iff.mp hx)
  have hfid3 : tSeqOf ts3 t0.nextEdgeId = [t0.nextEdgeId] := by
    rw [hunch3 _ (fun h => hfid0 (mem_flatten_of_mem_tSeqOf h))]
    exact (hunch2 _ (fun h => hfid0 (mem_flatten_of_mem_tSeqOf h))).trans hsfid
  have hbid3 : tSeqOf ts3 (t0.nextEdgeId + 1) = [t0.nextEdgeId + 1] := by
    rw [hunch3 _ (fun h => hbid0 (mem_flatten_of_mem_tSeqOf h))]
    exact (hunch2 _ (fun h => hbid0 (mem_flatten_of_mem_tSeqOf h))).trans hsbid
  have hflat2' : ts2.flatten.Perm
      (t0.treaps.flatten ++ [t0.nextEdgeId, t0.nextEdgeId + 1]) := by
    rw [← hfl]; exact hflat2
  have hflat3' : ts3.flatten.Perm
      (t0.treaps.flatten ++ [t0.nextEdgeId, t0.nextEdgeId + 1]) :=
    hflat3.trans hflat2'
  have hfidM : t0.nextEdgeId ∈ ts3.flatten := by
    rw [hflat3'.mem_iff]
    exact List.mem_append_right _ (by simp)
  have hbidM : t0.nextEdgeId + 1 ∈ ts3.flatten := by
    rw [hflat3'.mem_iff]
    exact List.mem_append_right _ (by simp)
  have hluU : lu ∈ tSeqOf ts2 lu := hperm2.mem_iff.mpr hluS
  have hhduU : hdu ∈ tSeqOf ts2 lu := head?_mem_list hhdu
  have hlstuU : lstu ∈ tSeqOf ts2 lu := getLast?_mem_list hlstu
  have hlvV : lv ∈ tSeqOf ts3 lv := hperm3.mem_iff.mpr hlvS
  have hrivV : riv ∈ tSeqOf ts3 lv := hperm3.mem_iff.mpr hrivS
  have hhdvV : hdv ∈ tSeqOf ts3 lv := head?_mem_list hhdv
  have hlstvV : lstv ∈ tSeqOf ts3 lv := getLast?_mem_list hlstv
  have hhduM : hdu ∈ ts3.flatten :=
    mem_flatten_of_mem_tSeqOf
      (show hdu ∈ tSeqOf ts3 lu by rw [hlu3]; exact hhduU)
  have hlvM : lv ∈ ts3.flatten := mem_flatten_of_mem_tSeqOf hlvV
  have hrivM : riv ∈ ts3.flatten := mem_flatten_of_mem_tSeqOf hrivV
  have hfidU : t0.nextEdgeId ∉ tSeqOf ts2 lu :=
    fun h => hfid0 (mem_flatten_of_mem_tSeqOf (hperm2.mem_iff.mp h))
  have hbidU : t0.nextEdgeId + 1 ∉ tSeqOf ts2 lu :=
    fun h => hbid0 (mem_flatten_of_mem_tSeqOf (hperm2.mem_iff.mp h))
  have hfidV : t0.nextEdgeId ∉ tSeqOf ts3 lv :=
    fun h => hfid0 (mem_flatten_of_mem_tSeqOf (hperm3.mem_iff.mp h))
  have hbidV : t0.nextEdgeId + 1 ∉ tSeqOf ts3 lv :=
    fun h => hbid0 (mem_flatten_of_mem_tSeqOf (hperm3.mem_iff.mp h))
  -- step A: concat the u-class with [fid]
  have hclasshdu : tSeqOf ts3 hdu = tSeqOf ts2 lu := hsame3' hdu hhduU
  have hfidhdu : t0.nextEdgeId ∉ tSeqOf ts3 hdu := by
    rw [hclasshdu]; exact hfidU
  have hApart : PartForest (tConcat ts3 hdu t0.nextEdgeId) :=
    tConcat_part hpart3 hhduM hfidM hfidhdu
  have hAperm := tConcat_perm hpart3.2 hhduM hfidM hfidhdu
  have hAnew : ∀ x ∈ tSeqOf ts2 lu ++ [t0.nextEdgeId],
      tSeqOf (tConcat ts3 hdu t0.nextEdgeId) x
        = tSeqOf ts2 lu ++ [t0.nextEdgeId] := by
    intro x hx
    have h1 := tSeqOf_tConcat_new hpart3.2 hhduM hfidM hfidhdu
      (by rw [hclasshdu, hfid3]; exact hx)
    rw [hclasshdu, hfid3] at h1
    exact h1
  have hAold : ∀ x, x ∉ tSeqOf ts2 lu → x ≠ t0.nextEdgeId →
      tSeqOf (tConcat ts3 hdu t0.nextEdgeId) x = tSeqOf ts3 x := by
    intro x hx1 hx2
    exact tSeqOf_tConcat_old hpart3.2 hhduM hfidM hfidhdu
      (by rw [hclasshdu]; exact hx1)
      (by rw [hfid3]
          intro hmem
          exact hx2 (List.mem_singleton.mp hmem))
  -- step B: concat the v-class behind
  have hAfid : tSeqOf (tConcat ts3 hdu t0.nextEdgeId) t0.nextEdgeId
      = tSeqOf ts2 lu ++ [t0.nextEdgeId] :=
    hAnew _ (List.mem_append_right _ (by simp))
  have hAlv : tSeqOf (tConcat ts3 hdu t0.nextEdgeId) lv = tSeqOf ts3 lv :=
    hAold lv (fun h => hdisj lv (hperm2.mem_iff.mp h) hlvS)
      (fun h => hfid0 (h ▸ mem_flatten_of_mem_tSeqOf hlvS))
  have hfidA : t0.nextEdgeId ∈ (tConcat ts3 hdu t0.nextEdgeId).flatten :=
    hAperm.mem_iff.mpr hfidM
  have hlvA : lv ∈ (tConcat ts3 hdu t0.nextEdgeId).flatten :=
    hAperm.mem_iff.mpr hlvM
  have hlvnotA : lv ∉ tSeqOf (tConcat ts3 hdu t0.nextEdgeId) t0.nextEdgeId := by
    rw [hAfid]
    intro hmem
    rcases List.mem_append.mp hmem with h | h
    · exact hVnot lv hlvV h
    · exact hfid0 ((List.mem_singleton.mp h) ▸ mem_flatten_of_mem_tSeqOf hlvS)
  have hBpart : PartForest
      (tConcat (tConcat ts3 hdu t0.nextEdgeId) t0.nextEdgeId lv) :=
    tConcat_part hApart hfidA hlvA hlvnotA
  have hBperm := tConcat_perm hApart.2 hfidA hlvA hlvnotA
  have hBnew : ∀ x ∈ (tSeqOf ts2 lu ++ [t0.nextEdgeId]) ++ tSeqOf ts3 lv,
      tSeqOf (tConcat (tConcat ts3 hdu t0.nextEdgeId) t0.nextEdgeId lv) x
        = (tSeqOf ts2 lu ++ [t0.nextEdgeId]) ++ tSeqOf ts3 lv := by
    intro x hx
    have h1 := tSeqOf_tConcat_new hApart.2 hfidA hlvA hlvnotA
      (by rw [hAfid, hAlv]; exact hx)
    rw [hAfid, hAlv] at h1
    exact h1
  have hBold : ∀ x, x ∉ tSeqOf ts2 lu → x ∉ tSeqOf ts3 lv →
      x ≠ t0.nextEdgeId →
      tSeqOf (tConcat (tConcat ts3 hdu t0.nextEdgeId) t0.nextEdgeId lv) x
        = tSeqOf ts3 x := by
    intro x hx1 hx2 hx3
    have h1 := tSeqOf_tConcat_old hApart.2 hfidA hlvA hlvnotA
      (by rw [hAfid]
          intro hmem
          rcases List.mem_append.mp hmem with h | h
          · exact hx1 h
          · exact hx3 (List.mem_singleton.mp h))
      (by rw [hAlv]; exact hx2)
    rw [h1, hAold x hx1 hx3]
  -- step C: concat [bid] at the end
  have hBriv : tSeqOf (tConcat (tConcat ts3 hdu t0.nextEdgeId) t0.nextEdgeId lv) riv
      = (tSeqOf ts2 lu ++ [t0.nextEdgeId]) ++ tSeqOf ts3 lv :=
    hBnew riv (List.mem_append_right _ hrivV)
  have hBbid : tSeqOf (tConcat (tConcat ts3 hdu t0.nextEdgeId) t0.nextEdgeId lv)
      (t0.nextEdgeId + 1) = [t0.nextEdgeId + 1] := by
    rw [hBold _ hbidU hbidV (Nat.succ_ne_self _), hbid3]
  have hrivB : riv ∈
      (tConcat (tConcat ts3 hdu t0.nextEdgeId) t0.nextEdgeId lv).flatten :=
    hBperm.mem_iff.mpr (hAperm.mem_iff.mpr hrivM)
  have hbidB : t0.nextEdgeId + 1 ∈
      (tConcat (tConcat ts3 hdu t0.nextEdgeId) t0.nextEdgeId lv).flatten :=
    hBperm.mem_iff.mpr (hAperm.mem_iff.mpr hbidM)
  have hbidnotB : t0.nextEdgeId + 1 ∉
      tSeqOf (tConcat (tConcat ts3 hdu t0.nextEdgeId) t0.nextEdgeId lv) riv := by
    rw [hBriv]
    intro hmem
    rcases List.mem_append.mp hmem with h | h
    · rcases List.mem_append.mp h with h' | h'
      · exact hbidU h'
      · exact Nat.succ_ne_self _ (List.mem_singleton.mp h')
    · exact hbidV h
  have hCpart : PartForest (tConcat
      (tConcat (tConcat ts3 hdu t0.nextEdgeId) t0.nextEdgeId lv) riv
      (t0.nextEdgeId + 1)) :=
    tConcat_part hBpart hrivB hbidB hbidnotB
  have hCperm := tConcat_perm hBpart.2 hrivB hbidB hbidnotB
  have hassoc : ((tSeqOf ts2 lu ++ [t0.nextEdgeId]) ++ tSeqOf ts3 lv)
        ++ [t0.nextEdgeId + 1]
      = tSeqOf ts2 lu ++ t0.nextEdgeId ::
          (tSeqOf ts3 lv ++ [t0.nextEdgeId + 1]) := by
    simp [List.append_assoc]
  have hCnew : ∀ x ∈ tSeqOf ts2 lu ++ t0.nextEdgeId ::
      (tSeqOf ts3 lv ++ [t0.nextEdgeId + 1]),
      tSeqOf (tConcat (tConcat (tConcat ts3 hdu t0.nextEdgeId) t0.nextEdgeId lv)
        riv (t0.nextEdgeId + 1)) x
        = tSeqOf ts2 lu ++ t0.nextEdgeId ::
            (tSeqOf ts3 lv ++ [t0.nextEdgeId + 1]) := by
    intro x hx
    have h1 := tSeqOf_tConcat_new hBpart.2 hrivB hbidB hbidnotB
      (by rw [hBriv, hBbid, hassoc]; exact hx)
    rw [hBriv, hBbid, hassoc] at h1
    exact h1
  have hCold : ∀ x, x ∉ tSeqOf ts2 lu → x ∉ tSeqOf ts3 lv →
      x ≠ t0.nextEdgeId → x ≠ t0.nextEdgeId + 1 →
      tSeqOf (tConcat (tConcat (tConcat ts3 hdu t0.nextEdgeId) t0.nextEdgeId lv)
        riv (t0.nextEdgeId + 1)) x = tSeqOf ts3 x := by
    intro x hx1 hx2 hx3 hx4
    have h1 := tSeqOf_tConcat_old hBpart.2 hrivB hbidB hbidnotB
      (by rw [hBriv]
          intro hmem
          rcases List.mem_append.mp hmem with h | h
          · rcases List.mem_append.mp h with h' | h'
            · exact hx1 h'
            · exact hx3 (List.mem_singleton.mp h')
          · exact hx2 h)
      (by rw [hBbid]
          intro hmem
          exact hx4 (List.mem_singleton.mp hmem))
    rw [h1, hBold x hx1 hx2 hx3]
  refine ⟨tSeqOf ts2 lu, tSeqOf ts3 lv,
    tConcat (tConcat (tConcat ts3 hdu t0.nextEdgeId) t0.nextEdgeId lv) riv
      (t0.nextEdgeId + 1),
    ?_, ?_, ?_, ?_, ?_, ?_, ?_, ?_, ?_, ?_, ?_, ?_, ?_⟩
  · constructor
    · intro h
      rw [h] at hluU
      cases hluU
    · intro h
      rw [hulo] at h
      cases h
  · constructor
    · intro h
      rw [h] at hlvV
      cases hlvV
    · intro h
      rw [hvlo] at h
      cases h
  · intro lo h
    rw [hulo] at h
    injection h with h'
    subst h'
    exact hperm2
  · intro lo h
    rw [hvlo] at h
    injection h with h'
    subst h'
    exact hperm3
  · intro hd' h
    rw [hhdu] at h
    injection h with h'
    subst h'
    have heq : contE t1x u hdu = contE t0 u hdu :=
      contE_congr (hged1 hdu (mem_flatten_of_mem_tSeqOf (hperm2.mem_iff.mp hhduU)))
    rw [← heq]
    exact hhduc
  · intro l h
    rw [hlstu] at h
    injection h with h'
    subst h'
    have heq : contE t1x u lstu = contE t0 u lstu :=
      contE_congr (hged1 lstu (mem_flatten_of_mem_tSeqOf (hperm2.mem_iff.mp hlstuU)))
    rw [← heq]
    exact hlstuc
  · intro hd' h
    rw [hhdv] at h
    injection h with h'
    subst h'
    have heq : contE t1x v hdv = contE t0 v hdv :=
      contE_congr (hged1 hdv (mem_flatten_of_mem_tSeqOf (hperm3.mem_iff.mp hhdvV)))
    rw [← heq]
    exact hhdvc'
  · intro l h
    rw [hlstv] at h
    injection h with h'
    subst h'
    have heq : contE t1x v lstv = contE t0 v lstv :=
      contE_congr (hged1 lstv (mem_flatten_of_mem_tSeqOf (hperm3.mem_iff.mp hlstvV)))
    rw [← heq]
    exact hlstvc'
  · exact hCpart
  · refine (hCperm.trans (hBperm.trans (hAperm.trans hflat3'))).trans ?_
    exact List.perm_append_comm
  · intro x hx
    exact hCnew x hx
  · intro x hxU hxV hxf hxb
    rw [hCold x hxU hxV hxf hxb]
    rw [hunch3 x (fun h => hxV (hperm3.mem_iff.mpr h))]
    rw [hunch2 x (fun h => hxU (hperm2.mem_iff.mpr h))]
    by_cases hmem : x ∈ t0.treaps.flatten
    · exact hseq1 x hmem
    · rw [tSeqOf_eq_nil (by
        rw [hfl]
        intro hcon
        rcases List.mem_append.mp hcon with h | h
        · exact hmem h
        · rcases List.mem_cons.mp h with h' | h'
          · exact hxf h'
          · exact hxb (List.mem_singleton.mp h')),
        tSeqOf_eq_nil hmem]
  · -- the record equality
    have hlink : stEulerTour_link t0 u v
        = linkTail { { t1x with treaps := ts2 } with treaps := ts3 } u v
            t0.nextEdgeId (t0.nextEdgeId + 1) := by
      rw [link_unfold hru hrv, ← ht1x, hshape, hshape2]
    have hmin : tMinOf ts3 lu = some hdu := by
      show (tSeqOf ts3 lu).head? = some hdu
      rw [hlu3]
      exact hhdu
    rw [hlink]
    simp only [linkTail, getVertex_set_treaps, hg1u, hg1v, hulo, hvlo, hvri,
      Option.bind, hmin, setVertex_treaps]
    rw [ht1x]
    simp only [setVertex, List.map_map, stEulerTour.mk.injEq, hulo, hvlo, hvri,
      Option.getD_some, and_true, true_and]
    have hnodup : (t0.vertices.map Prod.fst).Nodup := wfVertices_nodup hvt
    refine List.map_congr_left ?_
    intro p hp
    by_cases hpu : p.1 = u
    · simp [hpu, huv, hulo]
    · by_cases hpv : p.1 = v
      · have h1 : assocFind t0.vertices p.1 = some p.2 :=
          assocFind_of_mem hnodup (by rw [Prod.mk.eta]; exact hp)
        rw [hpv] at h1
        have hp2 : p.2 = rv := by
          have h2 : some p.2 = some rv := h1.symm.trans hrv
          injection h2
        have hpeq : p = (v, rv) := by
          rw [← hp2, ← hpv]
        rw [hpeq]
        have heta : rv = ⟨rv.leftOut, rv.rightIn⟩ := rfl
        rw [hvlo, hvri] at heta
        simp [huv, Ne.symm huv, hvlo, hvri, ← heta]
      · simp [hpu, hpv]

theorem link_shape {t0 : stEulerTour} (hwf : wfTour t0 = true) {u v : VId}
    {ru rv : stEulerVertex}
    (hru : getVertex t0 u = some ru) (hrv : getVertex t0 v = some rv)
    (huv : u ≠ v)
    (hconn : stEulerTour_connected t0 u v = some false) :
    ∃ U V ts', LinkShapeConcl t0 u v ru rv U V ts' := by
  cases hulo : ru.leftOut with
  | none =>
    cases hvlo : rv.leftOut with
    | none => exact link_shape_SS hwf hru hrv huv hulo hvlo
    | some lv => exact link_shape_SN hwf hru hrv huv hulo hvlo
  | some lu =>
    cases hvlo : rv.leftOut with
    | none => exact link_shape_NS hwf hru hrv huv hulo hvlo
    | some lv => exact link_shape_NN hwf hru hrv huv hulo hvlo hconn

theorem assocFind_map_double_fst {l : List (VId × stEulerVertex)} {u v : VId}
    (huv : u ≠ v) (RU RV : stEulerVertex) {r0 : stEulerVertex}
    (h : assocFind l u = some r0) :
    assocFind (l.map (fun p => if p.1 = u then (u, RU)
      else if p.1 = v then (v, RV) else p)) u = some RU := by
  induction l with
  | nil => simp [assocFind] at h
  | cons q rest ih =>
    obtain ⟨k, r⟩ := q
    by_cases hk : k = u
    · subst hk
      have hstep : (if ((k, r) : VId × stEulerVertex).1 = k then (k, RU)
          else if ((k, r) : VId × stEulerVertex).1 = v then (v, RV)
          else (k, r)) = (k, RU) := by
        rw [if_pos rfl]
      rw [List.map_cons, hstep, assocFind_cons_self]
    · rw [assocFind_cons_ne hk] at h
      have hstep : (if ((k, r) : VId × stEulerVertex).1 = u then (u, RU)
          else if ((k, r) : VId × stEulerVertex).1 = v then (v, RV)
          else (k, r)) = (if k = v then (v, RV) else (k, r)) := by
        rw [if_neg hk]
      rw [List.map_cons, hstep]
      by_cases hkv : k = v
      · rw [if_pos hkv, assocFind_cons_ne (fun hc => huv hc.symm)]
        exact ih h
      · rw [if_neg hkv, assocFind_cons_ne hk]
        exact ih h

theorem assocFind_map_double_snd {l : List (VId × stEulerVertex)} {u v : VId}
    (huv : u ≠ v) (RU RV : stEulerVertex) {r0 : stEulerVertex}
    (h : assocFind l v = some r0) :
    assocFind (l.map (fun p => if p.1 = u then (u, RU)
      else if p.1 = v then (v, RV) else p)) v = some RV := by
  induction l with
  | nil => simp [assocFind] at h
  | cons q rest ih =>
    obtain ⟨k, r⟩ := q
    by_cases hk : k = v
    · subst hk
      have hstep : (if ((k, r) : VId × stEulerVertex).1 = u then (u, RU)
          else if ((k, r) : VId × stEulerVertex).1 = k then (k, RV)
          else (k, r)) = (k, RV) := by
        rw [if_neg (fun hc => huv hc.symm), if_pos rfl]
      rw [List.map_cons, hstep, assocFind_cons_self]
    · rw [assocFind_cons_ne hk] at h
      rw [List.map_cons]
      by_cases hku : k = u
      · have hstep : (if ((k, r) : VId × stEulerVertex).1 = u then (u, RU)
            else if ((k, r) : VId × stEulerVertex).1 = v then (v, RV)
            else (k, r)) = (u, RU) := by
          rw [if_pos hku]
        rw [hstep, assocFind_cons_ne huv]
        exact ih h
      · have hstep : (if ((k, r) : VId × stEulerVertex).1 = u then (u, RU)
            else if ((k, r) : VId × stEulerVertex).1 = v then (v, RV)
            else (k, r)) = (k, r) := by
          rw [if_neg hku, if_neg hk]
        rw [hstep, assocFind_cons_ne hk]
        exact ih h

/-- C2: for every pair of distinct vertices `u`, `v` present in the tour and
not connected, after `link(u,v)` the forward half-edge and the backward
half-edge of `{u,v}` lie in the same treap (they are indexed under the new
ids `nextEdgeId` and `nextEdgeId + 1`, the latter is a member of the
former's treap sequence, and the two sequences coincide), and
`connected(u,v)` on the result returns true. -/
theorem C2_link_same_treap_and_connected {t0 : stEulerTour} {u v : VId}
    {ru rv : stEulerVertex}
    (hwf : wfTour t0 = true)
    (hru : getVertex t0 u = some ru) (hrv : getVertex t0 v = some rv)
    (huv : u ≠ v) (hconn : stEulerTour_connected t0 u v = some false) :
    edgeIndexFind (stEulerTour_link t0 u v).forwardEdges u v
      = some t0.nextEdgeId ∧
    edgeIndexFind (stEulerTour_link t0 u v).backwardEdges v u
      = some (t0.nextEdgeId + 1) ∧
    t0.nextEdgeId + 1 ∈ tSeqOf (stEulerTour_link t0 u v).treaps t0.nextEdgeId ∧
    tSeqOf (stEulerTour_link t0 u v).treaps t0.nextEdgeId
      = tSeqOf (stEulerTour_link t0 u v).treaps (t0.nextEdgeId + 1) ∧
    stEulerTour_connected (stEulerTour_link t0 u v) u v = some true := by
  obtain ⟨hf, hvt, ha, hpr, hep, ho⟩ := wfTour_parts hwf
  obtain ⟨U, V, ts', h1, h2, h3, h4, h5, h6, h7, h8, h9, h10, h11, h12, h13⟩ :=
    link_shape hwf hru hrv huv hconn
  have hfidM : t0.nextEdgeId
      ∈ U ++ t0.nextEdgeId :: (V ++ [t0.nextEdgeId + 1]) :=
    List.mem_append_right _ (List.mem_cons_self _ _)
  have hbidM : t0.nextEdgeId + 1
      ∈ U ++ t0.nextEdgeId :: (V ++ [t0.nextEdgeId + 1]) :=
    List.mem_append_right _
      (List.mem_cons_of_mem _ (List.mem_append_right _ (by simp)))
  have heaM : ru.leftOut.getD t0.nextEdgeId
      ∈ U ++ t0.nextEdgeId :: (V ++ [t0.nextEdgeId + 1]) := by
    cases hlo : ru.leftOut with
    | none => exact hfidM
    | some lu =>
      simp only [Option.getD_some]
      obtain ⟨riu, huri⟩ : ∃ riu, ru.rightIn = some riu := by
        rcases wfAnchors_iff ha hru with ⟨h, _⟩ | ⟨lo, ri, hx1, hx2⟩
        · rw [hlo] at h; cases h
        · exact ⟨ri, hx2⟩
      exact List.mem_append_left _
        ((h3 lu hlo).mem_iff.mpr (wfAnchors_spec ha hru hlo huri).2.1)
  have hebM : rv.leftOut.getD t0.nextEdgeId
      ∈ U ++ t0.nextEdgeId :: (V ++ [t0.nextEdgeId + 1]) := by
    cases hlo : rv.leftOut with
    | none => exact hfidM
    | some lv =>
      simp only [Option.getD_some]
      obtain ⟨riv, hvri⟩ : ∃ riv, rv.rightIn = some riv := by
        rcases wfAnchors_iff ha hrv with ⟨h, _⟩ | ⟨lo, ri, hx1, hx2⟩
        · rw [hlo] at h; cases h
        · exact ⟨ri, hx2⟩
      refine List.mem_append_right _ (List.mem_cons_of_mem _ ?_)
      exact List.mem_append_left _
        ((h4 lv hlo).mem_iff.mpr (wfAnchors_spec ha hrv hlo hvri).2.1)
  refine ⟨?_, ?_, ?_, ?_, ?_⟩
  · rw [h13]
    exact assocFind_cons_self
  · rw [h13]
    exact assocFind_cons_self
  · rw [h13, h11 _ hfidM]
    exact hbidM
  · rw [h13, h11 _ hfidM, h11 _ hbidM]
  · have hgu : getVertex (stEulerTour_link t0 u v) u
        = some ⟨some (ru.leftOut.getD t0.nextEdgeId), some (t0.nextEdgeId + 1)⟩ := by
      rw [h13]
      exact assocFind_map_double_fst huv _ _ hru
    have hgv : getVertex (stEulerTour_link t0 u v) v
        = some ⟨some (rv.leftOut.getD t0.nextEdgeId),
            some (rv.rightIn.getD (t0.nextEdgeId + 1))⟩ := by
      rw [h13]
      exact assocFind_map_double_snd huv _ _ hrv
    have htr : (stEulerTour_link t0 u v).treaps = ts' := by rw [h13]
    unfold stEulerTour_connected presentId stEulerVertex_connected
    simp only [hgu, hgv, htr, Option.some.injEq]
    rw [if_neg huv, h11 _ heaM, h11 _ hebM]
    simp

theorem C2_link_same_treap_and_connected_witness :
    wfTour (stEulerTour_createVertex (stEulerTour_createVertex
      stEulerTour_construct 1) 2) = true ∧
    getVertex (stEulerTour_createVertex (stEulerTour_createVertex
      stEulerTour_construct 1) 2) 1 = some ⟨none, none⟩ ∧
    getVertex (stEulerTour_createVertex (stEulerTour_createVertex
      stEulerTour_construct 1) 2) 2 = some ⟨none, none⟩ ∧
    (1 : VId) ≠ 2 ∧
    stEulerTour_connected (stEulerTour_createVertex (stEulerTour_createVertex
      stEulerTour_construct 1) 2) 1 2 = some false ∧
    (edgeIndexFind (stEulerTour_link (stEulerTour_createVertex
        (stEulerTour_createVertex stEulerTour_construct 1) 2) 1 2).forwardEdges
        1 2 = some (stEulerTour_createVertex (stEulerTour_createVertex
        stEulerTour_construct 1) 2).nextEdgeId ∧
     edgeIndexFind (stEulerTour_link (stEulerTour_createVertex
        (stEulerTour_createVertex stEulerTour_construct 1) 2) 1 2).backwardEdges
        2 1 = some ((stEulerTour_createVertex (stEulerTour_createVertex
        stEulerTour_construct 1) 2).nextEdgeId + 1) ∧
     (stEulerTour_createVertex (stEulerTour_createVertex
        stEulerTour_construct 1) 2).nextEdgeId + 1 ∈
       tSeqOf (stEulerTour_link (stEulerTour_createVertex
        (stEulerTour_createVertex stEulerTour_construct 1) 2) 1 2).treaps
        (stEulerTour_createVertex (stEulerTour_createVertex
        stEulerTour_construct 1) 2).nextEdgeId ∧
     tSeqOf (stEulerTour_link (stEulerTour_createVertex
        (stEulerTour_createVertex stEulerTour_construct 1) 2) 1 2).treaps
        (stEulerTour_createVertex (stEulerTour_createVertex
        stEulerTour_construct 1) 2).nextEdgeId
       = tSeqOf (stEulerTour_link (stEulerTour_createVertex
        (stEulerTour_createVertex stEulerTour_construct 1) 2) 1 2).treaps
        ((stEulerTour_createVertex (stEulerTour_createVertex
        stEulerTour_construct 1) 2).nextEdgeId + 1) ∧
     stEulerTour_connected (stEulerTour_link (stEulerTour_createVertex
        (stEulerTour_createVertex stEulerTour_construct 1) 2) 1 2) 1 2
       = some true) := by
  refine ⟨by decide, by decide, by decide, by decide, by decide, ?_⟩
  exact C2_link_same_treap_and_connected (by decide)
    (show getVertex (stEulerTour_createVertex (stEulerTour_createVertex
      stEulerTour_construct 1) 2) 1 = some ⟨none, none⟩ by decide)
    (show getVertex (stEulerTour_createVertex (stEulerTour_createVertex
      stEulerTour_construct 1) 2) 2 = some ⟨none, none⟩ by decide)
    (by decide) (by decide)

/-- C8: in every execution of `link(u,v)` under the precondition (distinct,
present, unconnected endpoints), the local `tleft` is still the null pointer
when it is consulted — in the embedding it is the literal `none` in
`stEulerTour_link` — so the branch that would copy `tleft`'s payload into
`u.rightIn` is dead, and `u.rightIn` ends up as the new backward half-edge
`B` (id `nextEdgeId + 1`) in every case. -/
theorem C8_link_tleft_dead_u_rightIn_is_B {t0 : stEulerTour} {u v : VId}
    {ru rv : stEulerVertex}
    (hwf : wfTour t0 = true)
    (hru : getVertex t0 u = some ru) (hrv : getVertex t0 v = some rv)
    (huv : u ≠ v) (hconn : stEulerTour_connected t0 u v = some false) :
    getVertex (stEulerTour_link t0 u v) u
      = some ⟨some (ru.leftOut.getD t0.nextEdgeId), some (t0.nextEdgeId + 1)⟩ := by
  obtain ⟨U, V, ts', h1, h2, h3, h4, h5, h6, h7, h8, h9, h10, h11, h12, h13⟩ :=
    link_shape hwf hru hrv huv hconn
  rw [h13]
  exact assocFind_map_double_fst huv _ _ hru

theorem C8_link_tleft_dead_u_rightIn_is_B_witness :
    wfTour (stEulerTour_createVertex (stEulerTour_createVertex
      stEulerTour_construct 1) 2) = true ∧
    getVertex (stEulerTour_createVertex (stEulerTour_createVertex
      stEulerTour_construct 1) 2) 1 = some ⟨none, none⟩ ∧
    getVertex (stEulerTour_createVertex (stEulerTour_createVertex
      stEulerTour_construct 1) 2) 2 = some ⟨none, none⟩ ∧
    (1 : VId) ≠ 2 ∧
    stEulerTour_connected (stEulerTour_createVertex (stEulerTour_createVertex
      stEulerTour_construct 1) 2) 1 2 = some false ∧
    getVertex (stEulerTour_link (stEulerTour_createVertex
        (stEulerTour_createVertex stEulerTour_construct 1) 2) 1 2) 1
      = some ⟨some ((⟨none, none⟩ : stEulerVertex).leftOut.getD
          (stEulerTour_createVertex (stEulerTour_createVertex
            stEulerTour_construct 1) 2).nextEdgeId),
          some ((stEulerTour_createVertex (stEulerTour_createVertex
            stEulerTour_construct 1) 2).nextEdgeId + 1)⟩ := by
  refine ⟨by decide, by decide, by decide, by decide, by decide, ?_⟩
  exact C8_link_tleft_dead_u_rightIn_is_B (by decide)
    (show getVertex (stEulerTour_createVertex (stEulerTour_createVertex
      stEulerTour_construct 1) 2) 1 = some ⟨none, none⟩ by decide)
    (show getVertex (stEulerTour_createVertex (stEulerTour_createVertex
      stEulerTour_construct 1) 2) 2 = some ⟨none, none⟩ by decide)
    (by decide) (by decide)

/-- C1: a two-vertex tour falsifies the makeRoot postcondition.  After
`link(1,2)` the tour of either vertex is the sequence `[F, B]` with
`F.from = 1`; `makeRoot(2)` hits the `size == 2` early return and leaves the
tour unchanged, so `findRoot(2)` still answers vertex `1`, not `2`. -/
theorem C1_makeRoot_findRoot_two_vertex_eval :
    stEulerTour_makeRoot
        (stEulerTour_link (stEulerTour_createVertex (stEulerTour_createVertex
          stEulerTour_construct 1) 2) 1 2) 2
      = stEulerTour_link (stEulerTour_createVertex (stEulerTour_createVertex
          stEulerTour_construct 1) 2) 1 2 ∧
    stEulerTour_findRootNode
      (stEulerTour_makeRoot
        (stEulerTour_link (stEulerTour_createVertex (stEulerTour_createVertex
          stEulerTour_construct 1) 2) 1 2) 2) 2 = some 1 ∧
    stEulerVertex_isSingleton ⟨some 1, some 2⟩ = false ∧
    getVertex (stEulerTour_link (stEulerTour_createVertex
      (stEulerTour_createVertex stEulerTour_construct 1) 2) 1 2) 2
      = some ⟨some 1, some 2⟩ := by decide

/-- C5 counterexample: on the empty tour both ids `5` and `7` are absent, so
the C code compares two null record pointers, which are equal, and answers
true — not false as the claim states for absent ids. -/
theorem C5_both_absent_connected_true :
    stEulerTour_connected stEulerTour_construct 5 7 = some true := by decide

/-- C5 (amended): `connected` answers false only as described by the code:
with both ids absent the two null pointers compare equal and it answers
true; with exactly one id absent it dereferences a null record (undefined
behavior, `none` in the embedding); with both present it answers true iff
the ids are equal, or both vertices are non-singleton and their `leftOut`
nodes lie in the same treap.  Distinct singletons are not connected. -/
theorem C5_connected_characterization (t : stEulerTour) (u v : VId) :
    stEulerTour_connected t u v =
      match getVertex t u, getVertex t v with
      | none, none => some true
      | some _, none => none
      | none, some _ => none
      | some ru, some rv =>
        if u = v then some true
        else
          match ru.leftOut, rv.leftOut with
          | some ea, some eb =>
            some (decide (tSeqOf t.treaps ea = tSeqOf t.treaps eb))
          | _, _ => some false := by
  unfold stEulerTour_connected presentId stEulerVertex_connected
  cases hgu : getVertex t u with
  | none =>
    cases hgv : getVertex t v with
    | none => simp
    | some rv => simp
  | some ru =>
    cases hgv : getVertex t v with
    | none => simp
    | some rv =>
      by_cases huv : u = v
      · subst huv
        simp
      · simp [huv, hgu, hgv]

/-- C6: for a vertex present in the tour, `findRoot` answers the absent
sentinel (`none`) when the vertex is a singleton; otherwise the treap of the
vertex's tour has a minimum node `m`, `m` holds an allocated half-edge `e`,
and the query answers `e.from`. -/
theorem C6_findRoot_characterization {t : stEulerTour}
    (hwf : wfTour t = true) {v : VId} {r : stEulerVertex}
    (hr : getVertex t v = some r) :
    (r.leftOut = none → stEulerTour_findRootNode t v = none) ∧
    (∀ lo, r.leftOut = some lo → ∃ m e, tMinOf t.treaps lo = some m ∧
      getEdge t m = some e ∧ stEulerTour_findRootNode t v = some e.fr) := by
  obtain ⟨hf, hvt, ha, hpr, hep, ho⟩ := wfTour_parts hwf
  constructor
  · intro hlo
    unfold stEulerTour_findRootNode stEulerTour_findRoot
    simp [hr, hlo]
  · intro lo hlo
    obtain ⟨ri, hri⟩ : ∃ ri, r.rightIn = some ri := by
      rcases wfAnchors_iff ha hr with ⟨h, _⟩ | ⟨lo', ri, hx1, hx2⟩
      · rw [hlo] at h; cases h
      · exact ⟨ri, hx2⟩
    have hloS : lo ∈ tSeqOf t.treaps lo := (wfAnchors_spec ha hr hlo hri).2.1
    cases hh : (tSeqOf t.treaps lo).head? with
    | none =>
      rw [List.head?_eq_none_iff] at hh
      rw [hh] at hloS
      cases hloS
    | some m =>
      have hmS : m ∈ tSeqOf t.treaps lo := head?_mem_list hh
      obtain ⟨e, he⟩ := wfForest_getEdge hf (mem_flatten_of_mem_tSeqOf hmS)
      refine ⟨m, e, hh, he, ?_⟩
      unfold stEulerTour_findRootNode stEulerTour_findRoot
      have hmin : tMinOf t.treaps lo = some m := hh
      simp [hr, hlo, hmin, he]

theorem C6_findRoot_characterization_witness :
    wfTour (stEulerTour_link (stEulerTour_createVertex (stEulerTour_createVertex
      stEulerTour_construct 1) 2) 1 2) = true ∧
    getVertex (stEulerTour_link (stEulerTour_createVertex
      (stEulerTour_createVertex stEulerTour_construct 1) 2) 1 2) 2
      = some ⟨some 1, some 2⟩ ∧
    ((((⟨some 1, some 2⟩ : stEulerVertex).leftOut = none →
      stEulerTour_findRootNode (stEulerTour_link (stEulerTour_createVertex
        (stEulerTour_createVertex stEulerTour_construct 1) 2) 1 2) 2 = none) ∧
     (∀ lo, (⟨some 1, some 2⟩ : stEulerVertex).leftOut = some lo →
      ∃ m e, tMinOf (stEulerTour_link (stEulerTour_createVertex
        (stEulerTour_createVertex stEulerTour_construct 1) 2) 1 2).treaps lo
          = some m ∧
        getEdge (stEulerTour_link (stEulerTour_createVertex
          (stEulerTour_createVertex stEulerTour_construct 1) 2) 1 2) m
          = some e ∧
        stEulerTour_findRootNode (stEulerTour_link (stEulerTour_createVertex
          (stEulerTour_createVertex stEulerTour_construct 1) 2) 1 2) 2
          = some e.fr))) := by
  refine ⟨by decide, by decide, ?_⟩
  exact C6_findRoot_characterization (by decide)
    (show getVertex (stEulerTour_link (stEulerTour_createVertex
      (stEulerTour_createVertex stEulerTour_construct 1) 2) 1 2) 2
      = some ⟨some 1, some 2⟩ by decide)

/-- C7: for a vertex present in the tour, `size` answers 1 when the vertex
is a singleton, and otherwise `treap size / 2 + 1`; whenever the treap size
is `2*(k-1)` with `k ≥ 1` — the tour of a k-vertex tree stores `2(k-1)`
half-edge traversals — that value is exactly `k`. -/
theorem C7_size_characterization {t : stEulerTour} {v : VId}
    {r : stEulerVertex} (hr : getVertex t v = some r) :
    (r.leftOut = none → stEulerTour_size t v = some 1) ∧
    (∀ lo, r.leftOut = some lo →
      stEulerTour_size t v = some (tSize t.treaps lo / 2 + 1) ∧
      ∀ k, tSize t.treaps lo = 2 * (k - 1) → 1 ≤ k →
        stEulerTour_size t v = some k) := by
  constructor
  · intro hlo
    unfold stEulerTour_size
    simp [hr, hlo]
  · intro lo hlo
    have h1 : stEulerTour_size t v = some (tSize t.treaps lo / 2 + 1) := by
      unfold stEulerTour_size
      simp [hr, hlo]
    refine ⟨h1, ?_⟩
    intro k hk h1k
    rw [h1, hk]
    have harith : 2 * (k - 1) / 2 + 1 = k := by omega
    rw [harith]

theorem C7_size_characterization_witness :
    getVertex (stEulerTour_link (stEulerTour_createVertex
      (stEulerTour_createVertex stEulerTour_construct 1) 2) 1 2) 2
      = some ⟨some 1, some 2⟩ ∧
    ((((⟨some 1, some 2⟩ : stEulerVertex).leftOut = none →
      stEulerTour_size (stEulerTour_link (stEulerTour_createVertex
        (stEulerTour_createVertex stEulerTour_construct 1) 2) 1 2) 2
        = some 1) ∧
     (∀ lo, (⟨some 1, some 2⟩ : stEulerVertex).leftOut = some lo →
      stEulerTour_size (stEulerTour_link (stEulerTour_createVertex
        (stEulerTour_createVertex stEulerTour_construct 1) 2) 1 2) 2
        = some (tSize (stEulerTour_link (stEulerTour_createVertex
          (stEulerTour_createVertex stEulerTour_construct 1) 2) 1 2).treaps
            lo / 2 + 1) ∧
      ∀ k, tSize (stEulerTour_link (stEulerTour_createVertex
          (stEulerTour_createVertex stEulerTour_construct 1) 2) 1 2).treaps lo
          = 2 * (k - 1) → 1 ≤ k →
        stEulerTour_size (stEulerTour_link (stEulerTour_createVertex
          (stEulerTour_createVertex stEulerTour_construct 1) 2) 1 2) 2
          = some k))) := by
  refine ⟨by decide, ?_⟩
  exact C7_size_characterization
    (show getVertex (stEulerTour_link (stEulerTour_createVertex
      (stEulerTour_createVertex stEulerTour_construct 1) 2) 1 2) 2
      = some ⟨some 1, some 2⟩ by decide)

theorem assocFind_eq_none {α β : Type} [DecidableEq α] {l : List (α × β)}
    {k : α} (h : assocFind l k = none) : ∀ p ∈ l, p.1 ≠ k := by
  induction l with
  | nil =>
    intro p hp
    cases hp
  | cons q rest ih =>
    intro p hp
    obtain ⟨a, b⟩ := q
    rw [assocFind] at h
    by_cases hk : a = k
    · rw [if_pos hk] at h
      cases h
    · rw [if_neg hk] at h
      rcases List.mem_cons.mp hp with rfl | hmem
      · exact hk
      · exact ih h p hmem

/-- C9: `removeVertex` on an id absent from the vertex table leaves the
table unchanged but still decrements `nComponents` — the decrement is
unconditional in the code, so the component count no longer matches the
number of components. -/
theorem C9_removeVertex_absent_decrements {t : stEulerTour} {v : VId}
    (h : getVertex t v = none) :
    (stEulerTour_removeVertex t v).vertices = t.vertices ∧
    (stEulerTour_removeVertex t v).nComponents = t.nComponents - 1 := by
  constructor
  · show assocRemove t.vertices v = t.vertices
    unfold getVertex at h
    unfold assocRemove
    apply List.filter_eq_self.mpr
    intro p hp
    exact decide_eq_true (assocFind_eq_none h p hp)
  · rfl

theorem C9_removeVertex_absent_decrements_witness :
    getVertex (stEulerTour_createVertex stEulerTour_construct 1) 3 = none ∧
    ((stEulerTour_removeVertex (stEulerTour_createVertex
        stEulerTour_construct 1) 3).vertices
      = (stEulerTour_createVertex stEulerTour_construct 1).vertices ∧
     (stEulerTour_removeVertex (stEulerTour_createVertex
        stEulerTour_construct 1) 3).nComponents
      = (stEulerTour_createVertex stEulerTour_construct 1).nComponents - 1) := by
  refine ⟨by decide, ?_⟩
  exact C9_removeVertex_absent_decrements
    (show getVertex (stEulerTour_createVertex stEulerTour_construct 1) 3 = none
      by decide)

/-- C10: the iterator uses the null id `0` both as the end sentinel and as a
value: an iterator state whose pending vertex is `0` with no pending edge
yields nothing more, and for a tour in which vertex `0` is a singleton
(`findRoot` absent) `getNodesInComponent(0)` comes back empty — the null
vertex itself is never yielded. -/
theorem C10_null_id_omitted (t : stEulerTour)
    (h : stEulerTour_findRoot t 0 = none) :
    (∀ fuel, tourYieldsAux t ⟨0, none⟩ fuel = []) ∧
    stEulerTour_getNodesInComponent t 0 = [] := by
  have hy : ∀ fuel, tourYieldsAux t ⟨0, none⟩ fuel = [] := by
    intro fuel
    cases fuel with
    | zero => rfl
    | succ n => rfl
  refine ⟨hy, ?_⟩
  unfold stEulerTour_getNodesInComponent stEulerTour_yields
              stEulerTour_getIterator
  rw [h, hy]
  rfl

theorem C10_null_id_omitted_witness :
    stEulerTour_findRoot (stEulerTour_createVertex stEulerTour_construct 0) 0
      = none ∧
    ((∀ fuel, tourYieldsAux (stEulerTour_createVertex stEulerTour_construct 0)
        ⟨0, none⟩ fuel = []) ∧
     stEulerTour_getNodesInComponent (stEulerTour_createVertex
        stEulerTour_construct 0) 0 = []) := by
  refine ⟨by decide, ?_⟩
  exact C10_null_id_omitted (stEulerTour_createVertex stEulerTour_construct 0)
    (show stEulerTour_findRoot (stEulerTour_createVertex
      stEulerTour_construct 0) 0 = none by decide)

theorem getEdge_set_nComponents (t : stEulerTour) (n : Int) (e : EId) :
    getEdge { t with nComponents := n } e = getEdge t e := rfl

theorem getEdge_set_treaps (t : stEulerTour) (ts : TreapForest) (e : EId) :
    getEdge { t with treaps := ts } e = getEdge t e := rfl

theorem getEdge_setVertex (t : stEulerTour) (w : VId) (r : stEulerVertex)
    (e : EId) : getEdge (setVertex t w r) e = getEdge t e := rfl

theorem getVertex_set_nComponents (t : stEulerTour) (n : Int) (w : VId) :
    getVertex { t with nComponents := n } w = getVertex t w := rfl

theorem tRemoveTreeOf_append (A B : TreapForest) (x : EId) :
    tRemoveTreeOf (A ++ B) x = tRemoveTreeOf A x ++ tRemoveTreeOf B x := by
  unfold tRemoveTreeOf
  rw [List.filter_append]

theorem tRemoveTreeOf_eq_self {ts : TreapForest} {x : EId}
    (h : ∀ s ∈ ts, x ∉ s) : tRemoveTreeOf ts x = ts := by
  apply List.filter_eq_self.mpr
  intro s hs
  simp only [Bool.not_eq_true']
  exact contains_false_iff.mpr (h s hs)

theorem tSeqOf_single {s : List EId} {x : EId} (hx : x ∈ s) :
    tSeqOf [s] x = s := by
  unfold tSeqOf
  simp [List.find?, hx]

theorem tSeqOf_pair_fst {s1 s2 : List EId} {x : EId} (hx : x ∈ s1) :
    tSeqOf [s1, s2] x = s1 := by
  unfold tSeqOf
  simp [List.find?, hx]

theorem tSeqOf_pair_snd {s1 s2 : List EId} {x : EId} (hx1 : x ∉ s1)
    (hx2 : x ∈ s2) : tSeqOf [s1, s2] x = s2 := by
  unfold tSeqOf
  simp [List.find?, hx1, hx2]

theorem tree_nodup {ts : TreapForest} (hn : ts.flatten.Nodup) (x : EId) :
    (tSeqOf ts x).Nodup := by
  rcases tSeqOf_spec ts x with h | h
  · rw [h]; exact List.nodup_nil
  · exact (List.nodup_flatten.mp hn).1 _ h.1

theorem assocFind_eq_none_of {α β : Type} [DecidableEq α] {l : List (α × β)}
    {k : α} (h : ∀ p ∈ l, p.1 ≠ k) : assocFind l k = none := by
  induction l with
  | nil => rfl
  | cons q rest ih =>
    obtain ⟨a, b⟩ := q
    rw [assocFind, if_neg (h (a, b) (List.mem_cons_self _ _))]
    exact ih (fun p hp => h p (List.mem_cons_of_mem _ hp))

theorem assocRemove_eq_self {α β : Type} [DecidableEq α] {l : List (α × β)}
    {k : α} (h : assocFind l k = none) : assocRemove l k = l := by
  apply List.filter_eq_self.mpr
  intro p hp
  exact decide_eq_true (assocFind_eq_none h p hp)

theorem assocRemove_cons_self {α β : Type} [DecidableEq α] {l : List (α × β)}
    {k : α} {b : β} (h : assocFind l k = none) :
    assocRemove ((k, b) :: l) k = l := by
  unfold assocRemove
  rw [List.filter_cons_of_neg (by simp)]
  exact assocRemove_eq_self h

theorem contE_elim {t : stEulerTour} {w : VId} {e : EId}
    (h : contE t w e = true) :
    ∃ ed, getEdge t e = some ed ∧ stEulerHalfEdge_contains ed w = true := by
  unfold contE at h
  cases hge : getEdge t e with
  | none => rw [hge] at h; cases h
  | some ed =>
    rw [hge] at h
    exact ⟨ed, rfl, h⟩

theorem removeTree_flatten_avoid {ts : TreapForest} (hn : ts.flatten.Nodup)
    {g d : EId} (hd : d ∈ tSeqOf ts g) :
    d ∉ (tRemoveTreeOf ts g).flatten := by
  intro hmem
  obtain ⟨s, hs, hds⟩ := List.mem_flatten.mp hmem
  exact removeTree_avoid hn hs hd hds

theorem mem_flatten_of_tree {ts : TreapForest} {s : List EId} (hs : s ∈ ts)
    {x : EId} (hx : x ∈ s) : x ∈ ts.flatten :=
  List.mem_flatten.mpr ⟨s, hs, hx⟩

theorem setAnchors_treaps (t : stEulerTour) (w : VId) (lo ri : Option EId) :
    (setAnchors t w lo ri).treaps = t.treaps := by
  unfold setAnchors
  cases getVertex t w <;> rfl

theorem setAnchors_halfEdges (t : stEulerTour) (w : VId) (lo ri : Option EId) :
    (setAnchors t w lo ri).halfEdges = t.halfEdges := by
  unfold setAnchors
  cases getVertex t w <;> rfl

theorem setAnchors_forwardEdges (t : stEulerTour) (w : VId) (lo ri : Option EId) :
    (setAnchors t w lo ri).forwardEdges = t.forwardEdges := by
  unfold setAnchors
  cases getVertex t w <;> rfl

theorem setAnchors_backwardEdges (t : stEulerTour) (w : VId) (lo ri : Option EId) :
    (setAnchors t w lo ri).backwardEdges = t.backwardEdges := by
  unfold setAnchors
  cases getVertex t w <;> rfl

theorem getEdge_setAnchors (t : stEulerTour) (w : VId) (lo ri : Option EId)
    (e : EId) : getEdge (setAnchors t w lo ri) e = getEdge t e := by
  unfold setAnchors
  cases getVertex t w <;> rfl

theorem getEdge_mk (a : List (VId × stEulerVertex))
    (h : List (EId × stEulerHalfEdge)) (f b : List ((VId × VId) × EId))
    (ts : TreapForest) (n : Int) (x : EId) (e : EId) :
    getEdge ⟨a, h, f, b, ts, n, x⟩ e = assocFind h e := rfl

theorem getVertex_mk (a : List (VId × stEulerVertex))
    (h : List (EId × stEulerHalfEdge)) (f b : List ((VId × VId) × EId))
    (ts : TreapForest) (n : Int) (x : EId) (w : VId) :
    getVertex ⟨a, h, f, b, ts, n, x⟩ w = assocFind a w := rfl

set_option maxHeartbeats 1000000

theorem cut_link_shape {t0 : stEulerTour} {u v : VId} {ru rv : stEulerVertex}
    {U V : List EId} {ts' : TreapForest}
    (hru : getVertex t0 u = some ru) (hrv : getVertex t0 v = some rv)
    (huv : u ≠ v)
    (hC : LinkShapeConcl t0 u v ru rv U V ts')
    (hfresh : ∀ x ∈ t0.treaps.flatten, x < t0.nextEdgeId)
    (hhk : ∀ p ∈ t0.halfEdges, p.1 < t0.nextEdgeId)
    (hUsub : ∀ x ∈ U, x ∈ t0.treaps.flatten)
    (hVsub : ∀ x ∈ V, x ∈ t0.treaps.flatten)
    (hU2 : U = [] ∨ 2 ≤ U.length)
    (hV2 : V = [] ∨ 2 ≤ V.length)
    (hUed : ∀ e ∈ U, ∃ ed, getEdge t0 e = some ed)
    (hVed : ∀ e ∈ V, ∃ ed, getEdge t0 e = some ed)
    (hVnotu : ∀ e ∈ V, ∀ ed, getEdge t0 e = some ed →
      stEulerHalfEdge_contains ed u = false)
    (hfuv : edgeIndexFind t0.forwardEdges u v = none)
    (hfvu : edgeIndexFind t0.forwardEdges v u = none)
    (hbuv : edgeIndexFind t0.backwardEdges u v = none)
    (hbvu : edgeIndexFind t0.backwardEdges v u = none) :
    ∃ tsf,
      stEulerTour_cut (stEulerTour_link t0 u v) u v =
        { vertices := t0.vertices.map (fun p =>
            if p.1 = u then (u, ⟨U.head?, U.getLast?⟩)
            else if p.1 = v then (v, ⟨V.head?, V.getLast?⟩)
            else p),
          halfEdges := t0.halfEdges,
          forwardEdges := t0.forwardEdges,
          backwardEdges := t0.backwardEdges,
          treaps := tsf,
          nComponents := t0.nComponents - 1 + 1,
          nextEdgeId := t0.nextEdgeId + 2 } ∧
      PartForest tsf ∧
      (∀ x ∈ U, tSeqOf tsf x = U) ∧
      (∀ x ∈ V, tSeqOf tsf x = V) ∧
      (∀ x, x ∉ U → x ∉ V → x ≠ t0.nextEdgeId → x ≠ t0.nextEdgeId + 1 →
        tSeqOf tsf x = tSeqOf t0.treaps x) := by
  obtain ⟨h1, h2, h3, h4, h5, h6, h7, h8, h9, h10, h11, h12, h13⟩ := hC
  rw [h13]
  obtain ⟨t1x, ht1x⟩ : ∃ x : stEulerTour,
      x = { vertices := t0.vertices.map (fun p =>
              if p.1 = u then
                (u, ⟨some (ru.leftOut.getD t0.nextEdgeId),
                    some (t0.nextEdgeId + 1)⟩)
              else if p.1 = v then
                (v, ⟨some (rv.leftOut.getD t0.nextEdgeId),
                    some (rv.rightIn.getD (t0.nextEdgeId + 1))⟩)
              else p),
            halfEdges := (t0.nextEdgeId, ⟨true, u, v, t0.nextEdgeId + 1⟩) ::
                         (t0.nextEdgeId + 1, ⟨false, v, u, t0.nextEdgeId⟩) ::
                         t0.halfEdges,
            forwardEdges := ((u, v), t0.nextEdgeId) :: t0.forwardEdges,
            backwardEdges := ((v, u), t0.nextEdgeId + 1) :: t0.backwardEdges,
            treaps := ts',
            nComponents := t0.nComponents - 1,
            nextEdgeId := t0.nextEdgeId + 2 } := ⟨_, rfl⟩
  rw [← ht1x]
  have ht1v : t1x.vertices = t0.vertices.map (fun p =>
      if p.1 = u then
        (u, ⟨some (ru.leftOut.getD t0.nextEdgeId), some (t0.nextEdgeId + 1)⟩)
      else if p.1 = v then
        (v, ⟨some (rv.leftOut.getD t0.nextEdgeId),
            some (rv.rightIn.getD (t0.nextEdgeId + 1))⟩)
      else p) := by rw [ht1x]
  have ht1he : t1x.halfEdges
      = (t0.nextEdgeId, ⟨true, u, v, t0.nextEdgeId + 1⟩) ::
        (t0.nextEdgeId + 1, ⟨false, v, u, t0.nextEdgeId⟩) :: t0.halfEdges := by
    rw [ht1x]
  have ht1fw : t1x.forwardEdges = ((u, v), t0.nextEdgeId) :: t0.forwardEdges := by
    rw [ht1x]
  have ht1bw : t1x.backwardEdges
      = ((v, u), t0.nextEdgeId + 1) :: t0.backwardEdges := by rw [ht1x]
  have ht1tr : t1x.treaps = ts' := by rw [ht1x]
  have ht1nc : t1x.nComponents = t0.nComponents - 1 := by rw [ht1x]
  have ht1ne : t1x.nextEdgeId = t0.nextEdgeId + 2 := by rw [ht1x]
  -- freshness of fid and bid
  have hfbne : (t0.nextEdgeId : EId) ≠ t0.nextEdgeId + 1 :=
    Nat.ne_of_lt (Nat.lt_succ_self _)
  have hfidU : t0.nextEdgeId ∉ U :=
    fun h => absurd (hfresh _ (hUsub _ h)) (Nat.lt_irrefl _)
  have hbidU : t0.nextEdgeId + 1 ∉ U :=
    fun h => absurd (Nat.lt_of_succ_lt (hfresh _ (hUsub _ h))) (Nat.lt_irrefl _)
  have hfidV : t0.nextEdgeId ∉ V :=
    fun h => absurd (hfresh _ (hVsub _ h)) (Nat.lt_irrefl _)
  have hbidV : t0.nextEdgeId + 1 ∉ V :=
    fun h => absurd (Nat.lt_of_succ_lt (hfresh _ (hVsub _ h))) (Nat.lt_irrefl _)
  have hfidM : t0.nextEdgeId
      ∈ U ++ t0.nextEdgeId :: (V ++ [t0.nextEdgeId + 1]) :=
    List.mem_append_right _ (List.mem_cons_self _ _)
  have hbidM : t0.nextEdgeId + 1
      ∈ U ++ t0.nextEdgeId :: (V ++ [t0.nextEdgeId + 1]) :=
    List.mem_append_right _
      (List.mem_cons_of_mem _ (List.mem_append_right _ (by simp)))
  have hseqfid : tSeqOf ts' t0.nextEdgeId
      = U ++ t0.nextEdgeId :: (V ++ [t0.nextEdgeId + 1]) := h11 _ hfidM
  have hseqbid : tSeqOf ts' (t0.nextEdgeId + 1)
      = U ++ t0.nextEdgeId :: (V ++ [t0.nextEdgeId + 1]) := h11 _ hbidM
  have hdec2 : tSeqOf ts' (t0.nextEdgeId + 1)
      = (U ++ t0.nextEdgeId :: V) ++ (t0.nextEdgeId + 1) :: [] := by
    rw [hseqbid]
    simp
  have hbidT : t0.nextEdgeId + 1 ∉ U ++ t0.nextEdgeId :: V := by
    intro h
    rcases List.mem_append.mp h with h | h
    · exact hbidU h
    · rcases List.mem_cons.mp h with h | h
      · exact Nat.succ_ne_self _ h
      · exact hbidV h
  -- the four navigation scrutinees
  have hidxf : tIdx ts' t0.nextEdgeId = U.length := tIdx_eq hseqfid hfidU
  have hidxb : tIdx ts' (t0.nextEdgeId + 1)
      = (U ++ t0.nextEdgeId :: V).length := tIdx_eq hdec2 hbidT
  have hlenUV : U.length < (U ++ t0.nextEdgeId :: V).length := by
    rw [List.length_append, List.length_cons]
    omega
  have hcmp : tCompare ts' t0.nextEdgeId (t0.nextEdgeId + 1) = -1 := by
    unfold tCompare
    rw [hidxf, hidxb, if_pos hlenUV]
  have hgt : ¬(tCompare ts' t0.nextEdgeId (t0.nextEdgeId + 1) > 0) := by
    rw [hcmp]
    decide
  have hprevf : tPrev ts' t0.nextEdgeId = U.getLast? := tPrev_eq hseqfid hfidU
  have hnextb : tNext ts' (t0.nextEdgeId + 1) = none := by
    rw [tNext_eq hdec2 hbidT]
    rfl
  have hnextf : tNext ts' t0.nextEdgeId = (V ++ [t0.nextEdgeId + 1]).head? :=
    tNext_eq hseqfid hfidU
  have hprevb : tPrev ts' (t0.nextEdgeId + 1)
      = (U ++ t0.nextEdgeId :: V).getLast? := tPrev_eq hdec2 hbidT
  have hsb1 : tSplitBefore ts' t0.nextEdgeId
      = (U.head?, tRemoveTreeOf ts' t0.nextEdgeId ++
          if U.isEmpty then [t0.nextEdgeId :: (V ++ [t0.nextEdgeId + 1])]
          else [U, t0.nextEdgeId :: (V ++ [t0.nextEdgeId + 1])]) :=
    tSplitBefore_eq hseqfid hfidU
  -- what the removed-tree remainder avoids
  have hOTHf : ∀ x ∈ U ++ t0.nextEdgeId :: (V ++ [t0.nextEdgeId + 1]),
      x ∉ (tRemoveTreeOf ts' t0.nextEdgeId).flatten := by
    intro x hx
    exact removeTree_flatten_avoid h9.2 (by rw [hseqfid]; exact hx)
  have hOTHtree : ∀ s ∈ tRemoveTreeOf ts' t0.nextEdgeId,
      ∀ x ∈ U ++ t0.nextEdgeId :: (V ++ [t0.nextEdgeId + 1]), x ∉ s :=
    fun s hs x hx hxs => hOTHf x hx (mem_flatten_of_tree hs hxs)
  -- getVertex at the linked state
  have hg1u : getVertex t1x u
      = some ⟨some (ru.leftOut.getD t0.nextEdgeId), some (t0.nextEdgeId + 1)⟩ := by
    rw [ht1x]
    exact assocFind_map_double_fst huv _ _ hru
  have hg1v : getVertex t1x v
      = some ⟨some (rv.leftOut.getD t0.nextEdgeId),
          some (rv.rightIn.getD (t0.nextEdgeId + 1))⟩ := by
    rw [ht1x]
    exact assocFind_map_double_snd huv _ _ hrv
  -- index lookups
  have heidx1 : edgeIndexFind (((u, v), t0.nextEdgeId) :: t0.forwardEdges) u v
      = some t0.nextEdgeId := assocFind_cons_self
  have hpairne : ((v, u) : VId × VId) ≠ (u, v) := by
    intro hcon
    injection hcon with hcon1 hcon2
    exact huv hcon1.symm
  have heidx2 : edgeIndexFind (((v, u), t0.nextEdgeId + 1) :: t0.backwardEdges)
      u v = none := by
    show assocFind _ (u, v) = none
    rw [assocFind_cons_ne hpairne]
    exact hbuv
  have heidx3 : edgeIndexFind (((v, u), t0.nextEdgeId + 1) :: t0.backwardEdges)
      v u = some (t0.nextEdgeId + 1) := assocFind_cons_self
  have hgeF : getEdge t1x t0.nextEdgeId
      = some ⟨true, u, v, t0.nextEdgeId + 1⟩ := by
    rw [ht1x]
    exact assocFind_cons_self
  have hgeB : getEdge t1x (t0.nextEdgeId + 1)
      = some ⟨false, v, u, t0.nextEdgeId⟩ := by
    rw [ht1x]
    show assocFind _ _ = _
    rw [assocFind_cons_ne hfbne]
    exact assocFind_cons_self
  have hgeOld : ∀ e, e < t0.nextEdgeId → getEdge t1x e = getEdge t0 e := by
    intro e he
    show assocFind t1x.halfEdges e = assocFind t0.halfEdges e
    rw [ht1he, assocFind_cons_ne (Ne.symm (Nat.ne_of_lt he)),
      assocFind_cons_ne (Ne.symm (Nat.ne_of_lt (Nat.lt_succ_of_lt he)))]
  have hheF : assocFind t0.halfEdges t0.nextEdgeId = none :=
    assocFind_eq_none_of (fun p hp =>
      Nat.ne_of_lt (hhk p hp))
  have hheB : assocFind t0.halfEdges (t0.nextEdgeId + 1) = none :=
    assocFind_eq_none_of (fun p hp =>
      Nat.ne_of_lt (Nat.lt_succ_of_lt (hhk p hp)))
  by_cases hU : U = []
  · by_cases hV : V = []
    · -- SS
      subst hU
      subst hV
      simp only [List.nil_append] at hseqfid hseqbid hsb1 hnextf hprevb h11 h12
      simp only [List.nil_append] at hOTHf hOTHtree
      simp only [List.head?_nil, List.getLast?_nil] at hprevf hsb1
      simp only [List.head?_cons] at hnextf
      simp only [List.getLast?_singleton] at hprevb
      simp only [List.isEmpty_nil, if_true] at hsb1
      have hbidnfid : (t0.nextEdgeId + 1 : EId) ∉ [t0.nextEdgeId] := by
        intro hmem
        exact Nat.succ_ne_self _ (List.mem_singleton.mp hmem)
      have hbidOTH : (t0.nextEdgeId + 1 : EId)
          ∉ (tRemoveTreeOf ts' t0.nextEdgeId).flatten := hOTHf _ (by simp)
      have hfidOTH : (t0.nextEdgeId : EId)
          ∉ (tRemoveTreeOf ts' t0.nextEdgeId).flatten := hOTHf _ (by simp)
      have hOTHnofid : ∀ s ∈ tRemoveTreeOf ts' t0.nextEdgeId,
          t0.nextEdgeId ∉ s := fun s hs => hOTHtree s hs _ (by simp)
      have hOTHnobid : ∀ s ∈ tRemoveTreeOf ts' t0.nextEdgeId,
          t0.nextEdgeId + 1 ∉ s := fun s hs => hOTHtree s hs _ (by simp)
      have hcontBu : stEulerHalfEdge_contains ⟨false, v, u, t0.nextEdgeId⟩ u
          = true := by simp [stEulerHalfEdge_contains]
      have hcontBv : stEulerHalfEdge_contains ⟨false, v, u, t0.nextEdgeId⟩ v
          = true := by simp [stEulerHalfEdge_contains]
      -- scrutinee equations stated against the opaque linked state
      have heidx1x : edgeIndexFind t1x.forwardEdges u v = some t0.nextEdgeId := by
        rw [ht1fw]; exact heidx1
      have heidx2x : edgeIndexFind t1x.backwardEdges u v = none := by
        rw [ht1bw]; exact heidx2
      have heidx3x : edgeIndexFind t1x.backwardEdges v u
          = some (t0.nextEdgeId + 1) := by
        rw [ht1bw]; exact heidx3
      have hitex : (if tCompare t1x.treaps t0.nextEdgeId (t0.nextEdgeId + 1) > 0
          then ((t0.nextEdgeId + 1 : EId), (t0.nextEdgeId : EId))
          else ((t0.nextEdgeId : EId), (t0.nextEdgeId + 1 : EId)))
          = (t0.nextEdgeId, t0.nextEdgeId + 1) := by
        rw [ht1tr, hcmp]
        rw [if_neg (by decide)]
      have hprevfx : tPrev t1x.treaps t0.nextEdgeId = none := by
        rw [ht1tr]; exact hprevf
      have hnextbx : tNext t1x.treaps (t0.nextEdgeId + 1) = none := by
        rw [ht1tr]; exact hnextb
      have hnextfx : tNext t1x.treaps t0.nextEdgeId = some (t0.nextEdgeId + 1) := by
        rw [ht1tr]; exact hnextf
      have hprevbx : tPrev t1x.treaps (t0.nextEdgeId + 1) = some t0.nextEdgeId := by
        rw [ht1tr]; exact hprevb
      have hsb1x : tSplitBefore t1x.treaps t0.nextEdgeId
          = (none, tRemoveTreeOf ts' t0.nextEdgeId
              ++ [[t0.nextEdgeId, t0.nextEdgeId + 1]]) := by
        rw [ht1tr]; exact hsb1
      have hsa2 : tSplitAfter (tRemoveTreeOf ts' t0.nextEdgeId
          ++ [[t0.nextEdgeId, t0.nextEdgeId + 1]]) (t0.nextEdgeId + 1)
          = (none, tRemoveTreeOf ts' t0.nextEdgeId
              ++ [[t0.nextEdgeId, t0.nextEdgeId + 1]]) := by
        have hseqX : tSeqOf (tRemoveTreeOf ts' t0.nextEdgeId
            ++ [[t0.nextEdgeId, t0.nextEdgeId + 1]]) (t0.nextEdgeId + 1)
            = [t0.nextEdgeId] ++ (t0.nextEdgeId + 1) :: [] := by
          rw [tSeqOf_append_new _ hbidOTH]
          exact tSeqOf_single (by simp)
        rw [tSplitAfter_eq hseqX hbidnfid, tRemoveTreeOf_append,
          tRemoveTreeOf_eq_self hOTHnobid]
        simp [tRemoveTreeOf]
      have hsa3 : tSplitAfter (tRemoveTreeOf ts' t0.nextEdgeId
          ++ [[t0.nextEdgeId, t0.nextEdgeId + 1]]) t0.nextEdgeId
          = (some (t0.nextEdgeId + 1), tRemoveTreeOf ts' t0.nextEdgeId
              ++ [[t0.nextEdgeId], [t0.nextEdgeId + 1]]) := by
        have hseqX : tSeqOf (tRemoveTreeOf ts' t0.nextEdgeId
            ++ [[t0.nextEdgeId, t0.nextEdgeId + 1]]) t0.nextEdgeId
            = [] ++ t0.nextEdgeId :: [t0.nextEdgeId + 1] := by
          rw [tSeqOf_append_new _ hfidOTH]
          exact tSeqOf_single (by simp)
        rw [tSplitAfter_eq hseqX (List.not_mem_nil _), tRemoveTreeOf_append,
          tRemoveTreeOf_eq_self hOTHnofid]
        simp [tRemoveTreeOf]
      have hsb4 : tSplitBefore (tRemoveTreeOf ts' t0.nextEdgeId
          ++ [[t0.nextEdgeId], [t0.nextEdgeId + 1]]) (t0.nextEdgeId + 1)
          = (none, (tRemoveTreeOf ts' t0.nextEdgeId ++ [[t0.nextEdgeId]])
              ++ [[t0.nextEdgeId + 1]]) := by
        have hseqX : tSeqOf (tRemoveTreeOf ts' t0.nextEdgeId
            ++ [[t0.nextEdgeId], [t0.nextEdgeId + 1]]) (t0.nextEdgeId + 1)
            = [] ++ (t0.nextEdgeId + 1) :: [] := by
          rw [tSeqOf_append_new _ hbidOTH]
          exact tSeqOf_pair_snd hbidnfid (by simp)
        rw [tSplitBefore_eq hseqX (List.not_mem_nil _), tRemoveTreeOf_append,
          tRemoveTreeOf_eq_self hOTHnobid]
        simp [tRemoveTreeOf, Nat.succ_ne_self]
      have hrmt1 : tRemoveTreeOf ((tRemoveTreeOf ts' t0.nextEdgeId
          ++ [[t0.nextEdgeId]]) ++ [[t0.nextEdgeId + 1]]) t0.nextEdgeId
          = tRemoveTreeOf ts' t0.nextEdgeId ++ [[t0.nextEdgeId + 1]] := by
        rw [tRemoveTreeOf_append, tRemoveTreeOf_append,
          tRemoveTreeOf_eq_self hOTHnofid]
        simp [tRemoveTreeOf, Ne.symm hfbne]
      have hrmt2 : tRemoveTreeOf (tRemoveTreeOf ts' t0.nextEdgeId
          ++ [[t0.nextEdgeId + 1]]) (t0.nextEdgeId + 1)
          = tRemoveTreeOf ts' t0.nextEdgeId := by
        rw [tRemoveTreeOf_append, tRemoveTreeOf_eq_self hOTHnobid]
        simp [tRemoveTreeOf]
      have hrmfw : assocRemove t1x.forwardEdges (u, v) = t0.forwardEdges := by
        rw [ht1fw]; exact assocRemove_cons_self hfuv
      have hrmbw : assocRemove t1x.backwardEdges (v, u) = t0.backwardEdges := by
        rw [ht1bw]; exact assocRemove_cons_self hbvu
      have hrmhe1 : assocRemove t1x.halfEdges t0.nextEdgeId
          = (t0.nextEdgeId + 1, ⟨false, v, u, t0.nextEdgeId⟩) :: t0.halfEdges := by
        rw [ht1he]
        exact assocRemove_cons_self (by
          rw [assocFind_cons_ne (Ne.symm hfbne)]
          exact hheF)
      have hrmhe2 : assocRemove
          ((t0.nextEdgeId + 1, (⟨false, v, u, t0.nextEdgeId⟩ : stEulerHalfEdge))
            :: t0.halfEdges) (t0.nextEdgeId + 1) = t0.halfEdges :=
        assocRemove_cons_self hheB
      have hfvux : edgeIndexFind t0.forwardEdges v u = none := hfvu
      have hsvne1 : ∀ (T : stEulerTour) (r : stEulerVertex),
          getVertex (setVertex T u r) v = getVertex T v :=
        fun T r => getVertex_setVertex_ne (Ne.symm huv)
      have hsvne2 : ∀ (T : stEulerTour) (r : stEulerVertex),
          getVertex (setVertex T v r) u = getVertex T u :=
        fun T r => getVertex_setVertex_ne huv
      have hafu : assocFind (List.map
            (fun p => if p.1 = v then (v, (⟨none, none⟩ : stEulerVertex)) else p)
            (List.map
              (fun p => if p.1 = u then (u, (⟨none, none⟩ : stEulerVertex)) else p)
              t1x.vertices)) u = some ⟨none, none⟩ := by
        rw [assocFind_map_update_ne huv]
        exact assocFind_map_update hg1u
      have hafv : assocFind (List.map
            (fun p => if p.1 = v then (v, (⟨none, none⟩ : stEulerVertex)) else p)
            (List.map
              (fun p => if p.1 = u then (u, (⟨none, none⟩ : stEulerVertex)) else p)
              t1x.vertices)) v = some ⟨none, none⟩ := by
        apply assocFind_map_update
        rw [assocFind_map_update_ne (Ne.symm huv)]
        exact hg1v
      have hgeFa : assocFind t1x.halfEdges t0.nextEdgeId
          = some ⟨true, u, v, t0.nextEdgeId + 1⟩ := hgeF
      have hgeBa : assocFind t1x.halfEdges (t0.nextEdgeId + 1)
          = some ⟨false, v, u, t0.nextEdgeId⟩ := hgeB
      have hg1ua : assocFind t1x.vertices u
          = some ⟨some (ru.leftOut.getD t0.nextEdgeId),
              some (t0.nextEdgeId + 1)⟩ := hg1u
      have hg1va : assocFind t1x.vertices v
          = some ⟨some (rv.leftOut.getD t0.nextEdgeId),
              some (rv.rightIn.getD (t0.nextEdgeId + 1))⟩ := hg1v
      refine ⟨tRemoveTreeOf ts' t0.nextEdgeId, ?_, ?_, ?_, ?_, ?_⟩
      · -- the record evaluation
        simp only [stEulerTour_cut, heidx1x, heidx2x, heidx3x, hitex,
          getEdge_set_nComponents, getEdge_set_treaps, getEdge_setVertex,
          getVertex_set_nComponents, getVertex_set_treaps,
          getEdge_mk, getVertex_mk, hgeFa, hgeBa, hg1ua, hg1va, hsvne1, hsvne2, hafu, hafv,
          hgeF, hgeB, hprevfx, hnextbx, hnextfx, hprevbx, hsb1x, hsa2, hsa3,
          hsb4, hrmt1, hrmt2, hrmfw, hrmbw, hrmhe1, hrmhe2, hfvux,
          hcontBu, hcontBv, hg1u, hg1v, huv, Ne.symm huv,
          getVertex_setVertex_self, getVertex_setVertex_ne,
          setVertex_treaps, setVertex_halfEdges, setVertex_forwardEdges,
          setVertex_backwardEdges, setVertex_nComponents, setVertex_nextEdgeId,
          setVertex_vertices,
          deleteEdgeF, deleteEdgeB, setAnchors, Option.bind, Option.isSome,
          Bool.or_self, Bool.false_and, Bool.and_true, Bool.true_and,
          Bool.and_self, Bool.false_eq_true, eq_self_iff_true,
          if_false, if_true, stEulerTour.mk.injEq]
        constructor
        · rw [ht1v, List.map_map, List.map_map]
          simp only [List.head?_nil, List.getLast?_nil]
          refine List.map_congr_left ?_
          intro p hp
          simp only [Function.comp_apply]
          by_cases hpu : p.1 = u
          · simp [hpu, huv]
          · by_cases hpv : p.1 = v
            · simp [hpu, hpv, huv, Ne.symm huv]
            · simp [hpu, hpv]
        · exact ⟨trivial, trivial, trivial, trivial, by rw [ht1nc], ht1ne⟩
      · exact ⟨fun s hs => h9.1 s (mem_of_mem_removeTree hs),
          removeTree_flatten_nodup h9.2 _⟩
      · intro x hx
        cases hx
      · intro x hx
        cases hx
      · intro x hxU hxV hxf hxb
        by_cases hmem : x ∈ ts'.flatten
        · have hxnot : x ∉ tSeqOf ts' t0.nextEdgeId := by
            rw [hseqfid]
            intro hc
            rcases List.mem_cons.mp hc with hc | hc
            · exact hxf hc
            · exact hxb (List.mem_singleton.mp hc)
          rw [tSeqOf_removeTree h9.2 hmem hxnot]
          exact h12 x hxU hxV hxf hxb
        · have hx1 : x ∉ (tRemoveTreeOf ts' t0.nextEdgeId).flatten :=
            fun hc => hmem ((flatten_filter_sublist _ _).subset hc)
          have hx2 : x ∉ t0.treaps.flatten := fun hc => hmem
            (h10.mem_iff.mpr (List.mem_cons_of_mem _ (List.mem_cons_of_mem _ hc)))
          rw [tSeqOf_eq_nil hx1, tSeqOf_eq_nil hx2]
    · -- SN: u singleton, v non-singleton
      subst hU
      obtain ⟨hV0, V', rfl⟩ := List.exists_cons_of_ne_nil hV
      obtain ⟨pV, hpV⟩ : ∃ y, (hV0 :: V').getLast? = some y :=
        ⟨_, List.getLast?_eq_getLast _ (by simp)⟩
      simp only [List.nil_append] at hseqfid hseqbid hsb1 hnextf hprevb h11 h12
      simp only [List.nil_append] at hOTHf hOTHtree
      simp only [List.head?_nil, List.getLast?_nil] at hprevf hsb1
      simp only [List.isEmpty_nil, if_true] at hsb1
      have hV0M : hV0 ∈ t0.nextEdgeId :: ((hV0 :: V') ++ [t0.nextEdgeId + 1]) := by
        simp
      have hpVV : pV ∈ hV0 :: V' := List.mem_of_mem_getLast?
        (show pV ∈ (hV0 :: V').getLast? by rw [hpV]; rfl)
      have hpVM : pV ∈ t0.nextEdgeId :: ((hV0 :: V') ++ [t0.nextEdgeId + 1]) :=
        List.mem_cons_of_mem _ (List.mem_append_left _ hpVV)
      have hV0lt : hV0 < t0.nextEdgeId := hfresh _ (hVsub _ (by simp))
      have hpVlt : pV < t0.nextEdgeId := hfresh _ (hVsub _ hpVV)
      obtain ⟨edV0, hedV0⟩ := hVed hV0 (by simp)
      obtain ⟨edpV, hedpV⟩ := hVed pV hpVV
      have hcontV0u : stEulerHalfEdge_contains edV0 u = false :=
        hVnotu hV0 (by simp) edV0 hedV0
      have hcontV0v : stEulerHalfEdge_contains edV0 v = true := by
        obtain ⟨ed, hed, hc⟩ := contE_elim (h7 hV0 rfl)
        rw [hedV0] at hed
        injection hed with hed
        rw [hed]
        exact hc
      have hgeV0 : getEdge t1x hV0 = some edV0 := by
        rw [hgeOld hV0 hV0lt]
        exact hedV0
      have hgepV : getEdge t1x pV = some edpV := by
        rw [hgeOld pV hpVlt]
        exact hedpV
      have hgeV0a : assocFind t1x.halfEdges hV0 = some edV0 := hgeV0
      have hgepVa : assocFind t1x.halfEdges pV = some edpV := hgepV
      have hbidnV : (t0.nextEdgeId + 1 : EId) ∉ hV0 :: V' := hbidV
      have hbidOTH : (t0.nextEdgeId + 1 : EId)
          ∉ (tRemoveTreeOf ts' t0.nextEdgeId).flatten := hOTHf _ (by simp)
      have hfidOTH : (t0.nextEdgeId : EId)
          ∉ (tRemoveTreeOf ts' t0.nextEdgeId).flatten := hOTHf _ (by simp)
      have hV0OTH : hV0 ∉ (tRemoveTreeOf ts' t0.nextEdgeId).flatten :=
        hOTHf _ hV0M
      have hOTHnofid : ∀ s ∈ tRemoveTreeOf ts' t0.nextEdgeId,
          t0.nextEdgeId ∉ s := fun s hs => hOTHtree s hs _ (by simp)
      have hOTHnobid : ∀ s ∈ tRemoveTreeOf ts' t0.nextEdgeId,
          t0.nextEdgeId + 1 ∉ s := fun s hs => hOTHtree s hs _ (by simp)
      -- scrutinee equations
      have hsvne1 : ∀ (T : stEulerTour) (r : stEulerVertex),
          getVertex (setVertex T u r) v = getVertex T v :=
        fun T r => getVertex_setVertex_ne (Ne.symm huv)
      have hsvne2 : ∀ (T : stEulerTour) (r : stEulerVertex),
          getVertex (setVertex T v r) u = getVertex T u :=
        fun T r => getVertex_setVertex_ne huv
      have heidx1x : edgeIndexFind t1x.forwardEdges u v = some t0.nextEdgeId := by
        rw [ht1fw]; exact heidx1
      have heidx2x : edgeIndexFind t1x.backwardEdges u v = none := by
        rw [ht1bw]; exact heidx2
      have heidx3x : edgeIndexFind t1x.backwardEdges v u
          = some (t0.nextEdgeId + 1) := by
        rw [ht1bw]; exact heidx3
      have hitex : (if tCompare t1x.treaps t0.nextEdgeId (t0.nextEdgeId + 1) > 0
          then ((t0.nextEdgeId + 1 : EId), (t0.nextEdgeId : EId))
          else ((t0.nextEdgeId : EId), (t0.nextEdgeId + 1 : EId)))
          = (t0.nextEdgeId, t0.nextEdgeId + 1) := by
        rw [ht1tr, hcmp]
        rw [if_neg (by decide)]
      have hprevfx : tPrev t1x.treaps t0.nextEdgeId = none := by
        rw [ht1tr]; exact hprevf
      have hnextbx : tNext t1x.treaps (t0.nextEdgeId + 1) = none := by
        rw [ht1tr]; exact hnextb
      have hnextfx : tNext t1x.treaps t0.nextEdgeId = some hV0 := by
        rw [ht1tr, hnextf]
        simp
      have hprevbx : tPrev t1x.treaps (t0.nextEdgeId + 1) = some pV := by
        rw [ht1tr, hprevb, List.getLast?_cons_cons]
        exact hpV
      have hsb1x : tSplitBefore t1x.treaps t0.nextEdgeId
          = (none, tRemoveTreeOf ts' t0.nextEdgeId
              ++ [t0.nextEdgeId :: ((hV0 :: V') ++ [t0.nextEdgeId + 1])]) := by
        rw [ht1tr]; exact hsb1
      have hbidT2 : (t0.nextEdgeId + 1 : EId) ∉ t0.nextEdgeId :: hV0 :: V' := by
        intro hc
        rcases List.mem_cons.mp hc with hc | hc
        · exact Nat.succ_ne_self _ hc
        · exact hbidnV hc
      have hseqX : tSeqOf (tRemoveTreeOf ts' t0.nextEdgeId ++
          [t0.nextEdgeId :: ((hV0 :: V') ++ [t0.nextEdgeId + 1])])
          (t0.nextEdgeId + 1)
          = (t0.nextEdgeId :: hV0 :: V') ++ (t0.nextEdgeId + 1) :: [] := by
        rw [tSeqOf_append_new _ hbidOTH]
        exact tSeqOf_single (by simp)
      have hsa2 : tSplitAfter (tRemoveTreeOf ts' t0.nextEdgeId ++
          [t0.nextEdgeId :: ((hV0 :: V') ++ [t0.nextEdgeId + 1])])
          (t0.nextEdgeId + 1)
          = (none, tRemoveTreeOf ts' t0.nextEdgeId ++
              [t0.nextEdgeId :: ((hV0 :: V') ++ [t0.nextEdgeId + 1])]) := by
        rw [tSplitAfter_eq hseqX hbidT2, tRemoveTreeOf_append,
          tRemoveTreeOf_eq_self hOTHnobid]
        simp [tRemoveTreeOf]
      have hseqY : tSeqOf (tRemoveTreeOf ts' t0.nextEdgeId ++
          [t0.nextEdgeId :: ((hV0 :: V') ++ [t0.nextEdgeId + 1])]) t0.nextEdgeId
          = [] ++ t0.nextEdgeId :: ((hV0 :: V') ++ [t0.nextEdgeId + 1]) := by
        rw [tSeqOf_append_new _ hfidOTH]
        exact tSeqOf_single (by simp)
      have hsa3 : tSplitAfter (tRemoveTreeOf ts' t0.nextEdgeId ++
          [t0.nextEdgeId :: ((hV0 :: V') ++ [t0.nextEdgeId + 1])]) t0.nextEdgeId
          = (some hV0, tRemoveTreeOf ts' t0.nextEdgeId ++
              [[t0.nextEdgeId], (hV0 :: V') ++ [t0.nextEdgeId + 1]]) := by
        rw [tSplitAfter_eq hseqY (List.not_mem_nil _), tRemoveTreeOf_append,
          tRemoveTreeOf_eq_self hOTHnofid]
        simp [tRemoveTreeOf]
      have hseqZ : tSeqOf (tRemoveTreeOf ts' t0.nextEdgeId ++
          [[t0.nextEdgeId], (hV0 :: V') ++ [t0.nextEdgeId + 1]]) (t0.nextEdgeId + 1)
          = (hV0 :: V') ++ (t0.nextEdgeId + 1) :: [] := by
        rw [tSeqOf_append_new _ hbidOTH]
        exact tSeqOf_pair_snd (by
          intro hc
          exact Nat.succ_ne_self _ (List.mem_singleton.mp hc)) (by simp)
      have hsb4 : tSplitBefore (tRemoveTreeOf ts' t0.nextEdgeId ++
          [[t0.nextEdgeId], (hV0 :: V') ++ [t0.nextEdgeId + 1]]) (t0.nextEdgeId + 1)
          = (some hV0, (tRemoveTreeOf ts' t0.nextEdgeId ++ [[t0.nextEdgeId]])
              ++ [hV0 :: V', [t0.nextEdgeId + 1]]) := by
        rw [tSplitBefore_eq hseqZ hbidnV, tRemoveTreeOf_append,
          tRemoveTreeOf_eq_self hOTHnobid]
        simp [tRemoveTreeOf, Nat.succ_ne_self]
      have hfidOF : (hV0 : EId) ∉
          (tRemoveTreeOf ts' t0.nextEdgeId ++ [[t0.nextEdgeId]]).flatten := by
        rw [List.flatten_append]
        intro hc
        rcases List.mem_append.mp hc with hc | hc
        · exact hV0OTH hc
        · simp only [List.flatten_cons, List.flatten_nil, List.append_nil] at hc
          exact absurd (List.mem_singleton.mp hc)
            (Nat.ne_of_lt hV0lt)
      have hszv : (tSize ((tRemoveTreeOf ts' t0.nextEdgeId ++ [[t0.nextEdgeId]])
          ++ [hV0 :: V', [t0.nextEdgeId + 1]]) hV0 = 1) = False := by
        apply eq_false
        intro hc
        unfold tSize at hc
        rw [tSeqOf_append_new _ hfidOF, tSeqOf_pair_fst (by simp)] at hc
        have h2l := hV2.resolve_left (by simp)
        rw [List.length_cons] at hc h2l
        omega
      have hrmt1 : tRemoveTreeOf ((tRemoveTreeOf ts' t0.nextEdgeId
          ++ [[t0.nextEdgeId]]) ++ [hV0 :: V', [t0.nextEdgeId + 1]]) t0.nextEdgeId
          = tRemoveTreeOf ts' t0.nextEdgeId ++ [hV0 :: V', [t0.nextEdgeId + 1]] := by
        rw [tRemoveTreeOf_append, tRemoveTreeOf_append,
          tRemoveTreeOf_eq_self hOTHnofid]
        have e2 : tRemoveTreeOf [hV0 :: V', [t0.nextEdgeId + 1]] t0.nextEdgeId
            = [hV0 :: V', [t0.nextEdgeId + 1]] := tRemoveTreeOf_eq_self (by
          intro s hs
          rcases List.mem_cons.mp hs with rfl | hs2
          · exact hfidV
          · rcases List.mem_singleton.mp hs2 with rfl
            intro hc
            exact hfbne (List.mem_singleton.mp hc))
        rw [e2]
        simp [tRemoveTreeOf]
      have hrmt2 : tRemoveTreeOf (tRemoveTreeOf ts' t0.nextEdgeId
          ++ [hV0 :: V', [t0.nextEdgeId + 1]]) (t0.nextEdgeId + 1)
          = tRemoveTreeOf ts' t0.nextEdgeId ++ [hV0 :: V'] := by
        rw [tRemoveTreeOf_append, tRemoveTreeOf_eq_self hOTHnobid]
        simp [tRemoveTreeOf, hbidnV]
      have hrmfw : assocRemove t1x.forwardEdges (u, v) = t0.forwardEdges := by
        rw [ht1fw]; exact assocRemove_cons_self hfuv
      have hrmbw : assocRemove t1x.backwardEdges (v, u) = t0.backwardEdges := by
        rw [ht1bw]; exact assocRemove_cons_self hbvu
      have hrmhe1 : assocRemove t1x.halfEdges t0.nextEdgeId
          = (t0.nextEdgeId + 1, ⟨false, v, u, t0.nextEdgeId⟩) :: t0.halfEdges := by
        rw [ht1he]
        exact assocRemove_cons_self (by
          rw [assocFind_cons_ne (Ne.symm hfbne)]
          exact hheF)
      have hrmhe2 : assocRemove
          ((t0.nextEdgeId + 1, (⟨false, v, u, t0.nextEdgeId⟩ : stEulerHalfEdge))
            :: t0.halfEdges) (t0.nextEdgeId + 1) = t0.halfEdges :=
        assocRemove_cons_self hheB
      have hfvux : edgeIndexFind t0.forwardEdges v u = none := hfvu
      have hafu : assocFind (List.map
            (fun p => if p.1 = u then (u, (⟨none, none⟩ : stEulerVertex)) else p)
            (List.map
              (fun p => if p.1 = v then
                (v, (⟨some hV0, some pV⟩ : stEulerVertex)) else p)
              t1x.vertices)) u = some ⟨none, none⟩ := by
        apply assocFind_map_update
        rw [assocFind_map_update_ne huv]
        exact hg1u
      have hafv : assocFind (List.map
            (fun p => if p.1 = u then (u, (⟨none, none⟩ : stEulerVertex)) else p)
            (List.map
              (fun p => if p.1 = v then
                (v, (⟨some hV0, some pV⟩ : stEulerVertex)) else p)
              t1x.vertices)) v = some ⟨some hV0, some pV⟩ := by
        rw [assocFind_map_update_ne (Ne.symm huv)]
        exact assocFind_map_update hg1v
      have hgeFa : assocFind t1x.halfEdges t0.nextEdgeId
          = some ⟨true, u, v, t0.nextEdgeId + 1⟩ := hgeF
      have hgeBa : assocFind t1x.halfEdges (t0.nextEdgeId + 1)
          = some ⟨false, v, u, t0.nextEdgeId⟩ := hgeB
      have hg1ua : assocFind t1x.vertices u
          = some ⟨some (ru.leftOut.getD t0.nextEdgeId),
              some (t0.nextEdgeId + 1)⟩ := hg1u
      have hg1va : assocFind t1x.vertices v
          = some ⟨some (rv.leftOut.getD t0.nextEdgeId),
              some (rv.rightIn.getD (t0.nextEdgeId + 1))⟩ := hg1v
      refine ⟨tRemoveTreeOf ts' t0.nextEdgeId ++ [hV0 :: V'], ?_, ?_, ?_, ?_, ?_⟩
      · simp only [stEulerTour_cut, heidx1x, heidx2x, heidx3x, hitex,
          getEdge_set_nComponents, getEdge_set_treaps, getEdge_setVertex,
          getVertex_set_nComponents, getVertex_set_treaps,
          getEdge_mk, getVertex_mk, hgeFa, hgeBa, hg1ua, hg1va, hsvne1, hsvne2,
          hafu, hafv, hgeV0a, hgepVa, hcontV0u, hcontV0v, hszv,
          hgeF, hgeB, hprevfx, hnextbx, hnextfx, hprevbx, hsb1x, hsa2, hsa3,
          hsb4, hrmt1, hrmt2, hrmfw, hrmbw, hrmhe1, hrmhe2, hfvux,
          hg1u, hg1v, huv, Ne.symm huv,
          getVertex_setVertex_self, getVertex_setVertex_ne,
          setVertex_treaps, setVertex_halfEdges, setVertex_forwardEdges,
          setVertex_backwardEdges, setVertex_nComponents, setVertex_nextEdgeId,
          setVertex_vertices,
          deleteEdgeF, deleteEdgeB, setAnchors, Option.bind, Option.isSome,
          Bool.or_self, Bool.false_and, Bool.and_true, Bool.true_and,
          Bool.and_self, Bool.false_eq_true, eq_self_iff_true,
          if_false, if_true, stEulerTour.mk.injEq]
        constructor
        · rw [ht1v, List.map_map, List.map_map]
          simp only [List.head?_nil, List.getLast?_nil, List.head?_cons, hpV]
          refine List.map_congr_left ?_
          intro p hp
          simp only [Function.comp_apply]
          by_cases hpu : p.1 = u
          · simp [hpu, huv]
          · by_cases hpv : p.1 = v
            · simp [hpu, hpv, huv, Ne.symm huv]
            · simp [hpu, hpv]
        · exact ⟨trivial, trivial, trivial, trivial, by rw [ht1nc], ht1ne⟩
      · constructor
        · intro s hs
          rcases List.mem_append.mp hs with hs | hs
          · exact h9.1 s (mem_of_mem_removeTree hs)
          · rcases List.mem_singleton.mp hs with rfl
            simp
        · rw [List.flatten_append]
          simp only [List.flatten_cons, List.flatten_nil, List.append_nil]
          rw [List.nodup_append]
          refine ⟨removeTree_flatten_nodup h9.2 _, ?_, ?_⟩
          · have hmn := tree_nodup h9.2 t0.nextEdgeId
            rw [hseqfid] at hmn
            rcases List.nodup_cons.mp hmn with ⟨_, hmn2⟩
            exact (List.Nodup.of_append_left hmn2)
          · intro a ha hb
            exact hOTHf a (List.mem_cons_of_mem _
              (List.mem_append_left _ hb)) ha
      · intro x hx
        cases hx
      · intro x hx
        rw [tSeqOf_append_new _ (fun hc => hOTHf x
          (List.mem_cons_of_mem _ (List.mem_append_left _ hx)) hc)]
        exact tSeqOf_single hx
      · intro x hxU hxV hxf hxb
        have hxM : x ∉ tSeqOf ts' t0.nextEdgeId := by
          rw [hseqfid]
          intro hc
          rcases List.mem_cons.mp hc with hc | hc
          · exact hxf hc
          · rcases List.mem_append.mp hc with hc | hc
            · exact hxV hc
            · exact hxb (List.mem_singleton.mp hc)
        by_cases hmem : x ∈ ts'.flatten
        · have hxO : x ∈ (tRemoveTreeOf ts' t0.nextEdgeId).flatten := by
            have hperm := flatten_removeTree_perm h9.2
              (mem_flatten_of_mem_tSeqOf (by
                rw [hseqfid]; exact List.mem_cons_self _ _))
            rcases List.mem_append.mp (hperm.mem_iff.mp hmem) with hc | hc
            · exact hc
            · exact absurd hc hxM
          rw [tSeqOf_append_left _ hxO, tSeqOf_removeTree h9.2 hmem hxM]
          exact h12 x hxU hxV hxf hxb
        · have hx1 : x ∉ (tRemoveTreeOf ts' t0.nextEdgeId
              ++ [hV0 :: V']).flatten := by
            rw [List.flatten_append]
            intro hc
            rcases List.mem_append.mp hc with hc | hc
            · exact hmem ((flatten_filter_sublist _ _).subset hc)
            · simp only [List.flatten_cons, List.flatten_nil,
                List.append_nil] at hc
              exact hxV hc
          have hx2 : x ∉ t0.treaps.flatten := fun hc => hmem
            (h10.mem_iff.mpr (List.mem_cons_of_mem _ (List.mem_cons_of_mem _ hc)))
          rw [tSeqOf_eq_nil hx1, tSeqOf_eq_nil hx2]
  · by_cases hV : V = []
    · -- NS: u non-singleton, v singleton
      subst hV
      obtain ⟨hU0, U', rfl⟩ := List.exists_cons_of_ne_nil hU
      obtain ⟨pU, hpU⟩ : ∃ y, (hU0 :: U').getLast? = some y :=
        ⟨_, List.getLast?_eq_getLast _ (by simp)⟩
      simp only [List.nil_append] at hseqfid hseqbid hsb1 hnextf hprevb h11 h12
      simp only [List.nil_append] at hOTHf hOTHtree
      simp only [List.head?_cons] at hnextf hsb1
      simp only [List.isEmpty_cons, Bool.false_eq_true, if_false] at hsb1
      have hpUU : pU ∈ hU0 :: U' := List.mem_of_mem_getLast?
        (show pU ∈ (hU0 :: U').getLast? by rw [hpU]; rfl)
      have hU0M : hU0 ∈ (hU0 :: U') ++ t0.nextEdgeId :: [t0.nextEdgeId + 1] := by
        simp
      have hpUM : pU ∈ (hU0 :: U') ++ t0.nextEdgeId :: [t0.nextEdgeId + 1] :=
        List.mem_append_left _ hpUU
      have hU0lt : hU0 < t0.nextEdgeId := hfresh _ (hUsub _ (by simp))
      have hpUlt : pU < t0.nextEdgeId := hfresh _ (hUsub _ hpUU)
      obtain ⟨edU0, hedU0⟩ := hUed hU0 (by simp)
      have hcontU0u : stEulerHalfEdge_contains edU0 u = true := by
        obtain ⟨ed, hed, hc⟩ := contE_elim (h5 hU0 rfl)
        rw [hedU0] at hed
        injection hed with hed
        rw [hed]
        exact hc
      have hgeU0 : getEdge t1x hU0 = some edU0 := by
        rw [hgeOld hU0 hU0lt]
        exact hedU0
      have hgeU0a : assocFind t1x.halfEdges hU0 = some edU0 := hgeU0
      have hbidnU : (t0.nextEdgeId + 1 : EId) ∉ hU0 :: U' := hbidU
      have hfidnU : (t0.nextEdgeId : EId) ∉ hU0 :: U' := hfidU
      have hbidOTH : (t0.nextEdgeId + 1 : EId)
          ∉ (tRemoveTreeOf ts' t0.nextEdgeId).flatten :=
        hOTHf _ (List.mem_append_right _ (by simp))
      have hfidOTH : (t0.nextEdgeId : EId)
          ∉ (tRemoveTreeOf ts' t0.nextEdgeId).flatten :=
        hOTHf _ (List.mem_append_right _ (by simp))
      have hU0OTH : hU0 ∉ (tRemoveTreeOf ts' t0.nextEdgeId).flatten :=
        hOTHf _ hU0M
      have hUOTH : ∀ x ∈ hU0 :: U',
          x ∉ (tRemoveTreeOf ts' t0.nextEdgeId).flatten :=
        fun x hx => hOTHf _ (List.mem_append_left _ hx)
      have hOTHnofid : ∀ s ∈ tRemoveTreeOf ts' t0.nextEdgeId,
          t0.nextEdgeId ∉ s :=
        fun s hs => hOTHtree s hs _ (List.mem_append_right _ (by simp))
      have hOTHnobid : ∀ s ∈ tRemoveTreeOf ts' t0.nextEdgeId,
          t0.nextEdgeId + 1 ∉ s :=
        fun s hs => hOTHtree s hs _ (List.mem_append_right _ (by simp))
      -- scrutinee equations
      have hsvne1 : ∀ (T : stEulerTour) (r : stEulerVertex),
          getVertex (setVertex T u r) v = getVertex T v :=
        fun T r => getVertex_setVertex_ne (Ne.symm huv)
      have hsvne2 : ∀ (T : stEulerTour) (r : stEulerVertex),
          getVertex (setVertex T v r) u = getVertex T u :=
        fun T r => getVertex_setVertex_ne huv
      have heidx1x : edgeIndexFind t1x.forwardEdges u v = some t0.nextEdgeId := by
        rw [ht1fw]; exact heidx1
      have heidx2x : edgeIndexFind t1x.backwardEdges u v = none := by
        rw [ht1bw]; exact heidx2
      have heidx3x : edgeIndexFind t1x.backwardEdges v u
          = some (t0.nextEdgeId + 1) := by
        rw [ht1bw]; exact heidx3
      have hitex : (if tCompare t1x.treaps t0.nextEdgeId (t0.nextEdgeId + 1) > 0
          then ((t0.nextEdgeId + 1 : EId), (t0.nextEdgeId : EId))
          else ((t0.nextEdgeId : EId), (t0.nextEdgeId + 1 : EId)))
          = (t0.nextEdgeId, t0.nextEdgeId + 1) := by
        rw [ht1tr, hcmp]
        rw [if_neg (by decide)]
      have hprevfx : tPrev t1x.treaps t0.nextEdgeId = some pU := by
        rw [ht1tr, hprevf]
        exact hpU
      have hnextbx : tNext t1x.treaps (t0.nextEdgeId + 1) = none := by
        rw [ht1tr]; exact hnextb
      have hnextfx : tNext t1x.treaps t0.nextEdgeId = some (t0.nextEdgeId + 1) := by
        rw [ht1tr, hnextf]
      have hprevbx : tPrev t1x.treaps (t0.nextEdgeId + 1) = some t0.nextEdgeId := by
        rw [ht1tr, hprevb]
        exact List.getLast?_concat _
      have hsb1x : tSplitBefore t1x.treaps t0.nextEdgeId
          = (some hU0, tRemoveTreeOf ts' t0.nextEdgeId
              ++ [hU0 :: U', t0.nextEdgeId :: [t0.nextEdgeId + 1]]) := by
        rw [ht1tr, hsb1]
      have hbidT2 : (t0.nextEdgeId + 1 : EId) ∉ [t0.nextEdgeId] := by
        intro hc
        exact Nat.succ_ne_self _ (List.mem_singleton.mp hc)
      have hseqX : tSeqOf (tRemoveTreeOf ts' t0.nextEdgeId ++
          [hU0 :: U', t0.nextEdgeId :: [t0.nextEdgeId + 1]]) (t0.nextEdgeId + 1)
          = [t0.nextEdgeId] ++ (t0.nextEdgeId + 1) :: [] := by
        rw [tSeqOf_append_new _ hbidOTH]
        exact tSeqOf_pair_snd hbidnU (by simp)
      have hsa2 : tSplitAfter (tRemoveTreeOf ts' t0.nextEdgeId ++
          [hU0 :: U', t0.nextEdgeId :: [t0.nextEdgeId + 1]]) (t0.nextEdgeId + 1)
          = (none, (tRemoveTreeOf ts' t0.nextEdgeId ++ [hU0 :: U'])
              ++ [[t0.nextEdgeId, t0.nextEdgeId + 1]]) := by
        rw [tSplitAfter_eq hseqX hbidT2, tRemoveTreeOf_append,
          tRemoveTreeOf_eq_self hOTHnobid]
        simp [tRemoveTreeOf, hbidnU]
      have hUF : ∀ x ∈ hU0 :: U',
          x ∈ (tRemoveTreeOf ts' t0.nextEdgeId ++ [hU0 :: U']).flatten := by
        intro x hx
        rw [List.flatten_append]
        refine List.mem_append_right _ ?_
        simpa using hx
      have hfidUF : (t0.nextEdgeId : EId)
          ∉ (tRemoveTreeOf ts' t0.nextEdgeId ++ [hU0 :: U']).flatten := by
        rw [List.flatten_append]
        intro hc
        rcases List.mem_append.mp hc with hc | hc
        · exact hfidOTH hc
        · simp only [List.flatten_cons, List.flatten_nil, List.append_nil] at hc
          exact hfidnU hc
      have hbidUF : (t0.nextEdgeId + 1 : EId)
          ∉ (tRemoveTreeOf ts' t0.nextEdgeId ++ [hU0 :: U']).flatten := by
        rw [List.flatten_append]
        intro hc
        rcases List.mem_append.mp hc with hc | hc
        · exact hbidOTH hc
        · simp only [List.flatten_cons, List.flatten_nil, List.append_nil] at hc
          exact hbidnU hc
      have hminU : tMinOf ((tRemoveTreeOf ts' t0.nextEdgeId ++ [hU0 :: U'])
          ++ [[t0.nextEdgeId, t0.nextEdgeId + 1]]) pU = some hU0 := by
        show (tSeqOf _ pU).head? = some hU0
        rw [tSeqOf_append_left _ (hUF pU hpUU),
          tSeqOf_append_new _ (fun hc => hUOTH pU hpUU hc),
          tSeqOf_single hpUU]
        rfl
      have hseqY : tSeqOf ((tRemoveTreeOf ts' t0.nextEdgeId ++ [hU0 :: U'])
          ++ [[t0.nextEdgeId, t0.nextEdgeId + 1]]) t0.nextEdgeId
          = [] ++ t0.nextEdgeId :: [t0.nextEdgeId + 1] := by
        rw [tSeqOf_append_new _ hfidUF]
        exact tSeqOf_single (by simp)
      have hsa3 : tSplitAfter ((tRemoveTreeOf ts' t0.nextEdgeId ++ [hU0 :: U'])
          ++ [[t0.nextEdgeId, t0.nextEdgeId + 1]]) t0.nextEdgeId
          = (some (t0.nextEdgeId + 1),
             (tRemoveTreeOf ts' t0.nextEdgeId ++ [hU0 :: U'])
              ++ [[t0.nextEdgeId], [t0.nextEdgeId + 1]]) := by
        rw [tSplitAfter_eq hseqY (List.not_mem_nil _), tRemoveTreeOf_append,
          tRemoveTreeOf_append, tRemoveTreeOf_eq_self hOTHnofid]
        simp [tRemoveTreeOf, hfidnU]
      have hseqZ : tSeqOf ((tRemoveTreeOf ts' t0.nextEdgeId ++ [hU0 :: U'])
          ++ [[t0.nextEdgeId], [t0.nextEdgeId + 1]]) (t0.nextEdgeId + 1)
          = [] ++ (t0.nextEdgeId + 1) :: [] := by
        rw [tSeqOf_append_new _ hbidUF]
        exact tSeqOf_pair_snd hbidT2 (by simp)
      have hsb4 : tSplitBefore ((tRemoveTreeOf ts' t0.nextEdgeId ++ [hU0 :: U'])
          ++ [[t0.nextEdgeId], [t0.nextEdgeId + 1]]) (t0.nextEdgeId + 1)
          = (none, ((tRemoveTreeOf ts' t0.nextEdgeId ++ [hU0 :: U'])
              ++ [[t0.nextEdgeId]]) ++ [[t0.nextEdgeId + 1]]) := by
        rw [tSplitBefore_eq hseqZ (List.not_mem_nil _), tRemoveTreeOf_append,
          tRemoveTreeOf_append, tRemoveTreeOf_eq_self hOTHnobid]
        simp [tRemoveTreeOf, hbidnU, Nat.succ_ne_self]
      have hU0F2 : hU0 ∈ ((tRemoveTreeOf ts' t0.nextEdgeId ++ [hU0 :: U'])
          ++ [[t0.nextEdgeId]]).flatten := by
        rw [List.flatten_append]
        exact List.mem_append_left _ (hUF hU0 (by simp))
      have hszu : (tSize (((tRemoveTreeOf ts' t0.nextEdgeId ++ [hU0 :: U'])
          ++ [[t0.nextEdgeId]]) ++ [[t0.nextEdgeId + 1]]) hU0 = 1) = False := by
        apply eq_false
        intro hc
        unfold tSize at hc
        rw [tSeqOf_append_left _ hU0F2,
          tSeqOf_append_left _ (hUF hU0 (by simp)),
          tSeqOf_append_new _ (fun h2 => hUOTH hU0 (by simp) h2),
          tSeqOf_single (by simp)] at hc
        have h2l := hU2.resolve_left (by simp)
        rw [List.length_cons] at hc h2l
        omega
      have hrmt1 : tRemoveTreeOf (((tRemoveTreeOf ts' t0.nextEdgeId
          ++ [hU0 :: U']) ++ [[t0.nextEdgeId]]) ++ [[t0.nextEdgeId + 1]])
          t0.nextEdgeId
          = (tRemoveTreeOf ts' t0.nextEdgeId ++ [hU0 :: U'])
              ++ [[t0.nextEdgeId + 1]] := by
        rw [tRemoveTreeOf_append, tRemoveTreeOf_append, tRemoveTreeOf_append,
          tRemoveTreeOf_eq_self hOTHnofid]
        simp [tRemoveTreeOf, hfidnU, Ne.symm hfbne]
      have hrmt2 : tRemoveTreeOf ((tRemoveTreeOf ts' t0.nextEdgeId
          ++ [hU0 :: U']) ++ [[t0.nextEdgeId + 1]]) (t0.nextEdgeId + 1)
          = tRemoveTreeOf ts' t0.nextEdgeId ++ [hU0 :: U'] := by
        rw [tRemoveTreeOf_append, tRemoveTreeOf_append,
          tRemoveTreeOf_eq_self hOTHnobid]
        simp [tRemoveTreeOf, hbidnU]
      have hrmfw : assocRemove t1x.forwardEdges (u, v) = t0.forwardEdges := by
        rw [ht1fw]; exact assocRemove_cons_self hfuv
      have hrmbw : assocRemove t1x.backwardEdges (v, u) = t0.backwardEdges := by
        rw [ht1bw]; exact assocRemove_cons_self hbvu
      have hrmhe1 : assocRemove t1x.halfEdges t0.nextEdgeId
          = (t0.nextEdgeId + 1, ⟨false, v, u, t0.nextEdgeId⟩) :: t0.halfEdges := by
        rw [ht1he]
        exact assocRemove_cons_self (by
          rw [assocFind_cons_ne (Ne.symm hfbne)]
          exact hheF)
      have hrmhe2 : assocRemove
          ((t0.nextEdgeId + 1, (⟨false, v, u, t0.nextEdgeId⟩ : stEulerHalfEdge))
            :: t0.halfEdges) (t0.nextEdgeId + 1) = t0.halfEdges :=
        assocRemove_cons_self hheB
      have hfvux : edgeIndexFind t0.forwardEdges v u = none := hfvu
      have hcontBu : stEulerHalfEdge_contains ⟨false, v, u, t0.nextEdgeId⟩ u
          = true := by simp [stEulerHalfEdge_contains]
      have hcontBv : stEulerHalfEdge_contains ⟨false, v, u, t0.nextEdgeId⟩ v
          = true := by simp [stEulerHalfEdge_contains]
      have hafu : assocFind (List.map
            (fun p => if p.1 = v then (v, (⟨none, none⟩ : stEulerVertex)) else p)
            (List.map
              (fun p => if p.1 = u then
                (u, (⟨some hU0, some pU⟩ : stEulerVertex)) else p)
              t1x.vertices)) u = some ⟨some hU0, some pU⟩ := by
        rw [assocFind_map_update_ne huv]
        exact assocFind_map_update hg1u
      have hafv : assocFind (List.map
            (fun p => if p.1 = v then (v, (⟨none, none⟩ : stEulerVertex)) else p)
            (List.map
              (fun p => if p.1 = u then
                (u, (⟨some hU0, some pU⟩ : stEulerVertex)) else p)
              t1x.vertices)) v = some ⟨none, none⟩ := by
        apply assocFind_map_update
        rw [assocFind_map_update_ne (Ne.symm huv)]
        exact hg1v
      have hgeFa : assocFind t1x.halfEdges t0.nextEdgeId
          = some ⟨true, u, v, t0.nextEdgeId + 1⟩ := hgeF
      have hgeBa : assocFind t1x.halfEdges (t0.nextEdgeId + 1)
          = some ⟨false, v, u, t0.nextEdgeId⟩ := hgeB
      have hg1ua : assocFind t1x.vertices u
          = some ⟨some (ru.leftOut.getD t0.nextEdgeId),
              some (t0.nextEdgeId + 1)⟩ := hg1u
      have hg1va : assocFind t1x.vertices v
          = some ⟨some (rv.leftOut.getD t0.nextEdgeId),
              some (rv.rightIn.getD (t0.nextEdgeId + 1))⟩ := hg1v
      refine ⟨tRemoveTreeOf ts' t0.nextEdgeId ++ [hU0 :: U'], ?_, ?_, ?_, ?_, ?_⟩
      · simp only [stEulerTour_cut, heidx1x, heidx2x, heidx3x, hitex,
          getEdge_set_nComponents, getEdge_set_treaps, getEdge_setVertex,
          getVertex_set_nComponents, getVertex_set_treaps,
          getEdge_mk, getVertex_mk, hgeFa, hgeBa, hg1ua, hg1va, hsvne1, hsvne2,
          hafu, hafv, hgeU0a, hcontU0u, hminU, hszu, hcontBu, hcontBv,
          hgeF, hgeB, hprevfx, hnextbx, hnextfx, hprevbx, hsb1x, hsa2, hsa3,
          hsb4, hrmt1, hrmt2, hrmfw, hrmbw, hrmhe1, hrmhe2, hfvux,
          hg1u, hg1v, huv, Ne.symm huv,
          getVertex_setVertex_self, getVertex_setVertex_ne,
          setVertex_treaps, setVertex_halfEdges, setVertex_forwardEdges,
          setVertex_backwardEdges, setVertex_nComponents, setVertex_nextEdgeId,
          setVertex_vertices,
          deleteEdgeF, deleteEdgeB, setAnchors, Option.bind, Option.isSome,
          Bool.or_self, Bool.false_and, Bool.and_true, Bool.true_and,
          Bool.false_or, Bool.or_false, Bool.not_false, Bool.not_true,
          Bool.and_self, Bool.false_eq_true, eq_self_iff_true,
          if_false, if_true, stEulerTour.mk.injEq]
        constructor
        · rw [ht1v, List.map_map, List.map_map]
          simp only [List.head?_nil, List.getLast?_nil, List.head?_cons, hpU]
          refine List.map_congr_left ?_
          intro p hp
          simp only [Function.comp_apply]
          by_cases hpu : p.1 = u
          · simp [hpu, huv]
          · by_cases hpv : p.1 = v
            · simp [hpu, hpv, huv, Ne.symm huv]
            · simp [hpu, hpv]
        · exact ⟨trivial, trivial, trivial, trivial, by rw [ht1nc], ht1ne⟩
      · constructor
        · intro s hs
          rcases List.mem_append.mp hs with hs | hs
          · exact h9.1 s (mem_of_mem_removeTree hs)
          · rcases List.mem_singleton.mp hs with rfl
            simp
        · rw [List.flatten_append]
          simp only [List.flatten_cons, List.flatten_nil, List.append_nil]
          rw [List.nodup_append]
          refine ⟨removeTree_flatten_nodup h9.2 _, ?_, ?_⟩
          · have hmn := tree_nodup h9.2 t0.nextEdgeId
            rw [hseqfid] at hmn
            exact hmn.of_append_left
          · intro a ha hb
            exact hUOTH a hb ha
      · intro x hx
        rw [tSeqOf_append_new _ (fun hc => hUOTH x hx hc)]
        exact tSeqOf_single hx
      · intro x hx
        cases hx
      · intro x hxU hxV hxf hxb
        have hxM : x ∉ tSeqOf ts' t0.nextEdgeId := by
          rw [hseqfid]
          intro hc
          rcases List.mem_append.mp hc with hc | hc
          · exact hxU hc
          · rcases List.mem_cons.mp hc with hc | hc
            · exact hxf hc
            · exact hxb (List.mem_singleton.mp hc)
        by_cases hmem : x ∈ ts'.flatten
        · have hxO : x ∈ (tRemoveTreeOf ts' t0.nextEdgeId).flatten := by
            have hperm := flatten_removeTree_perm h9.2
              (mem_flatten_of_mem_tSeqOf (show t0.nextEdgeId ∈
                tSeqOf ts' t0.nextEdgeId by
                  rw [hseqfid]
                  exact List.mem_append_right _ (List.mem_cons_self _ _)))
            rcases List.mem_append.mp (hperm.mem_iff.mp hmem) with hc | hc
            · exact hc
            · exact absurd hc hxM
          rw [tSeqOf_append_left _ hxO, tSeqOf_removeTree h9.2 hmem hxM]
          exact h12 x hxU hxV hxf hxb
        · have hx1 : x ∉ (tRemoveTreeOf ts' t0.nextEdgeId
              ++ [hU0 :: U']).flatten := by
            rw [List.flatten_append]
            intro hc
            rcases List.mem_append.mp hc with hc | hc
            · exact hmem ((flatten_filter_sublist _ _).subset hc)
            · simp only [List.flatten_cons, List.flatten_nil,
                List.append_nil] at hc
              exact hxU hc
          have hx2 : x ∉ t0.treaps.flatten := fun hc => hmem
            (h10.mem_iff.mpr (List.mem_cons_of_mem _ (List.mem_cons_of_mem _ hc)))
          rw [tSeqOf_eq_nil hx1, tSeqOf_eq_nil hx2]
    · -- NN: both u and v non-singleton after the cut
      obtain ⟨hU0, U', rfl⟩ := List.exists_cons_of_ne_nil hU
      obtain ⟨hV0, V', rfl⟩ := List.exists_cons_of_ne_nil hV
      obtain ⟨pU, hpU⟩ : ∃ y, (hU0 :: U').getLast? = some y :=
        ⟨_, List.getLast?_eq_getLast _ (by simp)⟩
      obtain ⟨pV, hpV⟩ : ∃ y, (hV0 :: V').getLast? = some y :=
        ⟨_, List.getLast?_eq_getLast _ (by simp)⟩
      simp only [List.isEmpty_cons, Bool.false_eq_true, if_false,
        List.head?_cons] at hsb1
      have hpUU : pU ∈ hU0 :: U' := List.mem_of_mem_getLast?
        (show pU ∈ (hU0 :: U').getLast? by rw [hpU]; rfl)
      have hpVV : pV ∈ hV0 :: V' := List.mem_of_mem_getLast?
        (show pV ∈ (hV0 :: V').getLast? by rw [hpV]; rfl)
      have hV0M : hV0 ∈ (hU0 :: U') ++ t0.nextEdgeId ::
          ((hV0 :: V') ++ [t0.nextEdgeId + 1]) := by simp
      have hV0lt : hV0 < t0.nextEdgeId := hfresh _ (hVsub _ (by simp))
      have hpVlt : pV < t0.nextEdgeId := hfresh _ (hVsub _ hpVV)
      obtain ⟨edV0, hedV0⟩ := hVed hV0 (by simp)
      obtain ⟨edpV, hedpV⟩ := hVed pV hpVV
      have hcontV0u : stEulerHalfEdge_contains edV0 u = false :=
        hVnotu hV0 (by simp) edV0 hedV0
      have hcontV0v : stEulerHalfEdge_contains edV0 v = true := by
        obtain ⟨ed, hed, hc⟩ := contE_elim (h7 hV0 rfl)
        rw [hedV0] at hed
        injection hed with hed
        rw [hed]
        exact hc
      have hgeV0 : getEdge t1x hV0 = some edV0 := by
        rw [hgeOld hV0 hV0lt]
        exact hedV0
      have hgepV : getEdge t1x pV = some edpV := by
        rw [hgeOld pV hpVlt]
        exact hedpV
      have hgeV0a : assocFind t1x.halfEdges hV0 = some edV0 := hgeV0
      have hgepVa : assocFind t1x.halfEdges pV = some edpV := hgepV
      have hbidnU : (t0.nextEdgeId + 1 : EId) ∉ hU0 :: U' := hbidU
      have hfidnU : (t0.nextEdgeId : EId) ∉ hU0 :: U' := hfidU
      have hbidnV : (t0.nextEdgeId + 1 : EId) ∉ hV0 :: V' := hbidV
      have hfidnV : (t0.nextEdgeId : EId) ∉ hV0 :: V' := hfidV
      have hbidOTH : (t0.nextEdgeId + 1 : EId)
          ∉ (tRemoveTreeOf ts' t0.nextEdgeId).flatten :=
        hOTHf _ (List.mem_append_right _ (by simp))
      have hfidOTH : (t0.nextEdgeId : EId)
          ∉ (tRemoveTreeOf ts' t0.nextEdgeId).flatten :=
        hOTHf _ (List.mem_append_right _ (by simp))
      have hV0OTH : hV0 ∉ (tRemoveTreeOf ts' t0.nextEdgeId).flatten :=
        hOTHf _ hV0M
      have hUOTH : ∀ x ∈ hU0 :: U',
          x ∉ (tRemoveTreeOf ts' t0.nextEdgeId).flatten :=
        fun x hx => hOTHf _ (List.mem_append_left _ hx)
      have hVOTH : ∀ x ∈ hV0 :: V',
          x ∉ (tRemoveTreeOf ts' t0.nextEdgeId).flatten :=
        fun x hx => hOTHf _ (List.mem_append_right _
          (List.mem_cons_of_mem _ (List.mem_append_left _ hx)))
      have hOTHnofid : ∀ s ∈ tRemoveTreeOf ts' t0.nextEdgeId,
          t0.nextEdgeId ∉ s :=
        fun s hs => hOTHtree s hs _ (List.mem_append_right _ (by simp))
      have hOTHnobid : ∀ s ∈ tRemoveTreeOf ts' t0.nextEdgeId,
          t0.nextEdgeId + 1 ∉ s :=
        fun s hs => hOTHtree s hs _ (List.mem_append_right _ (by simp))
      have hmn := tree_nodup h9.2 t0.nextEdgeId
      rw [hseqfid] at hmn
      have hdisj := (List.nodup_append.mp hmn).2.2
      have hV0nU : hV0 ∉ hU0 :: U' := fun hc => hdisj hc
        (List.mem_cons_of_mem _ (List.mem_append_left _ (by simp)))
      have hVnU : ∀ x ∈ hV0 :: V', x ∉ hU0 :: U' := fun x hx hc => hdisj hc
        (List.mem_cons_of_mem _ (List.mem_append_left _ hx))
      -- scrutinee equations
      have hsvne1 : ∀ (T : stEulerTour) (r : stEulerVertex),
          getVertex (setVertex T u r) v = getVertex T v :=
        fun T r => getVertex_setVertex_ne (Ne.symm huv)
      have hsvne2 : ∀ (T : stEulerTour) (r : stEulerVertex),
          getVertex (setVertex T v r) u = getVertex T u :=
        fun T r => getVertex_setVertex_ne huv
      have heidx1x : edgeIndexFind t1x.forwardEdges u v = some t0.nextEdgeId := by
        rw [ht1fw]; exact heidx1
      have heidx2x : edgeIndexFind t1x.backwardEdges u v = none := by
        rw [ht1bw]; exact heidx2
      have heidx3x : edgeIndexFind t1x.backwardEdges v u
          = some (t0.nextEdgeId + 1) := by
        rw [ht1bw]; exact heidx3
      have hitex : (if tCompare t1x.treaps t0.nextEdgeId (t0.nextEdgeId + 1) > 0
          then ((t0.nextEdgeId + 1 : EId), (t0.nextEdgeId : EId))
          else ((t0.nextEdgeId : EId), (t0.nextEdgeId + 1 : EId)))
          = (t0.nextEdgeId, t0.nextEdgeId + 1) := by
        rw [ht1tr, hcmp]
        rw [if_neg (by decide)]
      have hprevfx : tPrev t1x.treaps t0.nextEdgeId = some pU := by
        rw [ht1tr, hprevf]
        exact hpU
      have hnextbx : tNext t1x.treaps (t0.nextEdgeId + 1) = none := by
        rw [ht1tr]; exact hnextb
      have hnextfx : tNext t1x.treaps t0.nextEdgeId = some hV0 := by
        rw [ht1tr, hnextf]
        simp
      have hprevbx : tPrev t1x.treaps (t0.nextEdgeId + 1) = some pV := by
        rw [ht1tr, hprevb, List.getLast?_append_cons, List.getLast?_cons_cons]
        exact hpV
      have hsb1x : tSplitBefore t1x.treaps t0.nextEdgeId
          = (some hU0, tRemoveTreeOf ts' t0.nextEdgeId
              ++ [hU0 :: U',
                  t0.nextEdgeId :: ((hV0 :: V') ++ [t0.nextEdgeId + 1])]) := by
        rw [ht1tr, hsb1]
      have hbidT2 : (t0.nextEdgeId + 1 : EId) ∉ t0.nextEdgeId :: hV0 :: V' := by
        intro hc
        rcases List.mem_cons.mp hc with hc | hc
        · exact Nat.succ_ne_self _ hc
        · exact hbidnV hc
      have hseqX : tSeqOf (tRemoveTreeOf ts' t0.nextEdgeId ++
          [hU0 :: U', t0.nextEdgeId :: ((hV0 :: V') ++ [t0.nextEdgeId + 1])])
          (t0.nextEdgeId + 1)
          = (t0.nextEdgeId :: hV0 :: V') ++ (t0.nextEdgeId + 1) :: [] := by
        rw [tSeqOf_append_new _ hbidOTH]
        exact tSeqOf_pair_snd hbidnU (by simp)
      have hsa2 : tSplitAfter (tRemoveTreeOf ts' t0.nextEdgeId ++
          [hU0 :: U', t0.nextEdgeId :: ((hV0 :: V') ++ [t0.nextEdgeId + 1])])
          (t0.nextEdgeId + 1)
          = (none, (tRemoveTreeOf ts' t0.nextEdgeId ++ [hU0 :: U'])
              ++ [t0.nextEdgeId :: ((hV0 :: V') ++ [t0.nextEdgeId + 1])]) := by
        rw [tSplitAfter_eq hseqX hbidT2, tRemoveTreeOf_append,
          tRemoveTreeOf_eq_self hOTHnobid]
        simp [tRemoveTreeOf, hbidnU]
      have hUF : ∀ x ∈ hU0 :: U',
          x ∈ (tRemoveTreeOf ts' t0.nextEdgeId ++ [hU0 :: U']).flatten := by
        intro x hx
        rw [List.flatten_append]
        refine List.mem_append_right _ ?_
        simpa using hx
      have hfidUF : (t0.nextEdgeId : EId)
          ∉ (tRemoveTreeOf ts' t0.nextEdgeId ++ [hU0 :: U']).flatten := by
        rw [List.flatten_append]
        intro hc
        rcases List.mem_append.mp hc with hc | hc
        · exact hfidOTH hc
        · simp only [List.flatten_cons, List.flatten_nil, List.append_nil] at hc
          exact hfidnU hc
      have hbidUF : (t0.nextEdgeId + 1 : EId)
          ∉ (tRemoveTreeOf ts' t0.nextEdgeId ++ [hU0 :: U']).flatten := by
        rw [List.flatten_append]
        intro hc
        rcases List.mem_append.mp hc with hc | hc
        · exact hbidOTH hc
        · simp only [List.flatten_cons, List.flatten_nil, List.append_nil] at hc
          exact hbidnU hc
      have hV0UF : hV0
          ∉ (tRemoveTreeOf ts' t0.nextEdgeId ++ [hU0 :: U']).flatten := by
        rw [List.flatten_append]
        intro hc
        rcases List.mem_append.mp hc with hc | hc
        · exact hV0OTH hc
        · simp only [List.flatten_cons, List.flatten_nil, List.append_nil] at hc
          exact hV0nU hc
      have hminU : tMinOf ((tRemoveTreeOf ts' t0.nextEdgeId ++ [hU0 :: U'])
          ++ [t0.nextEdgeId :: ((hV0 :: V') ++ [t0.nextEdgeId + 1])]) pU
          = some hU0 := by
        show (tSeqOf _ pU).head? = some hU0
        rw [tSeqOf_append_left _ (hUF pU hpUU),
          tSeqOf_append_new _ (fun hc => hUOTH pU hpUU hc),
          tSeqOf_single hpUU]
        rfl
      have hseqY : tSeqOf ((tRemoveTreeOf ts' t0.nextEdgeId ++ [hU0 :: U'])
          ++ [t0.nextEdgeId :: ((hV0 :: V') ++ [t0.nextEdgeId + 1])]) t0.nextEdgeId
          = [] ++ t0.nextEdgeId :: ((hV0 :: V') ++ [t0.nextEdgeId + 1]) := by
        rw [tSeqOf_append_new _ hfidUF]
        exact tSeqOf_single (by simp)
      have hsa3 : tSplitAfter ((tRemoveTreeOf ts' t0.nextEdgeId ++ [hU0 :: U'])
          ++ [t0.nextEdgeId :: ((hV0 :: V') ++ [t0.nextEdgeId + 1])]) t0.nextEdgeId
          = (some hV0, (tRemoveTreeOf ts' t0.nextEdgeId ++ [hU0 :: U'])
              ++ [[t0.nextEdgeId], (hV0 :: V') ++ [t0.nextEdgeId + 1]]) := by
        rw [tSplitAfter_eq hseqY (List.not_mem_nil _), tRemoveTreeOf_append,
          tRemoveTreeOf_append, tRemoveTreeOf_eq_self hOTHnofid]
        simp [tRemoveTreeOf, hfidnU]
      have hseqZ : tSeqOf ((tRemoveTreeOf ts' t0.nextEdgeId ++ [hU0 :: U'])
          ++ [[t0.nextEdgeId], (hV0 :: V') ++ [t0.nextEdgeId + 1]])
          (t0.nextEdgeId + 1)
          = (hV0 :: V') ++ (t0.nextEdgeId + 1) :: [] := by
        rw [tSeqOf_append_new _ hbidUF]
        exact tSeqOf_pair_snd (by
          intro hc
          exact Nat.succ_ne_self _ (List.mem_singleton.mp hc)) (by simp)
      have hsb4 : tSplitBefore ((tRemoveTreeOf ts' t0.nextEdgeId ++ [hU0 :: U'])
          ++ [[t0.nextEdgeId], (hV0 :: V') ++ [t0.nextEdgeId + 1]])
          (t0.nextEdgeId + 1)
          = (some hV0, ((tRemoveTreeOf ts' t0.nextEdgeId ++ [hU0 :: U'])
              ++ [[t0.nextEdgeId]]) ++ [hV0 :: V', [t0.nextEdgeId + 1]]) := by
        rw [tSplitBefore_eq hseqZ hbidnV, tRemoveTreeOf_append,
          tRemoveTreeOf_append, tRemoveTreeOf_eq_self hOTHnobid]
        simp [tRemoveTreeOf, hbidnU, Nat.succ_ne_self]
      have hU0F2 : hU0 ∈ ((tRemoveTreeOf ts' t0.nextEdgeId ++ [hU0 :: U'])
          ++ [[t0.nextEdgeId]]).flatten := by
        rw [List.flatten_append]
        exact List.mem_append_left _ (hUF hU0 (by simp))
      have hV0F2 : hV0 ∉ ((tRemoveTreeOf ts' t0.nextEdgeId ++ [hU0 :: U'])
          ++ [[t0.nextEdgeId]]).flatten := by
        rw [List.flatten_append]
        intro hc
        rcases List.mem_append.mp hc with hc | hc
        · exact hV0UF hc
        · simp only [List.flatten_cons, List.flatten_nil, List.append_nil] at hc
          exact absurd (List.mem_singleton.mp hc) (Nat.ne_of_lt hV0lt)
      have hszu : (tSize (((tRemoveTreeOf ts' t0.nextEdgeId ++ [hU0 :: U'])
          ++ [[t0.nextEdgeId]]) ++ [hV0 :: V', [t0.nextEdgeId + 1]]) hU0 = 1)
          = False := by
        apply eq_false
        intro hc
        unfold tSize at hc
        rw [tSeqOf_append_left _ hU0F2,
          tSeqOf_append_left _ (hUF hU0 (by simp)),
          tSeqOf_append_new _ (fun h2 => hUOTH hU0 (by simp) h2),
          tSeqOf_single (by simp)] at hc
        have h2l := hU2.resolve_left (by simp)
        rw [List.length_cons] at hc h2l
        omega
      have hszv : (tSize (((tRemoveTreeOf ts' t0.nextEdgeId ++ [hU0 :: U'])
          ++ [[t0.nextEdgeId]]) ++ [hV0 :: V', [t0.nextEdgeId + 1]]) hV0 = 1)
          = False := by
        apply eq_false
        intro hc
        unfold tSize at hc
        rw [tSeqOf_append_new _ hV0F2, tSeqOf_pair_fst (by simp)] at hc
        have h2l := hV2.resolve_left (by simp)
        rw [List.length_cons] at hc h2l
        omega
      have hrmt1 : tRemoveTreeOf (((tRemoveTreeOf ts' t0.nextEdgeId
          ++ [hU0 :: U']) ++ [[t0.nextEdgeId]])
          ++ [hV0 :: V', [t0.nextEdgeId + 1]]) t0.nextEdgeId
          = (tRemoveTreeOf ts' t0.nextEdgeId ++ [hU0 :: U'])
              ++ [hV0 :: V', [t0.nextEdgeId + 1]] := by
        rw [tRemoveTreeOf_append, tRemoveTreeOf_append, tRemoveTreeOf_append,
          tRemoveTreeOf_eq_self hOTHnofid]
        simp [tRemoveTreeOf, hfidnU, hfidnV, Ne.symm hfbne]
      have hrmt2 : tRemoveTreeOf ((tRemoveTreeOf ts' t0.nextEdgeId
          ++ [hU0 :: U']) ++ [hV0 :: V', [t0.nextEdgeId + 1]]) (t0.nextEdgeId + 1)
          = (tRemoveTreeOf ts' t0.nextEdgeId ++ [hU0 :: U'])
              ++ [hV0 :: V'] := by
        rw [tRemoveTreeOf_append, tRemoveTreeOf_append,
          tRemoveTreeOf_eq_self hOTHnobid]
        simp [tRemoveTreeOf, hbidnU, hbidnV]
      have hrmfw : assocRemove t1x.forwardEdges (u, v) = t0.forwardEdges := by
        rw [ht1fw]; exact assocRemove_cons_self hfuv
      have hrmbw : assocRemove t1x.backwardEdges (v, u) = t0.backwardEdges := by
        rw [ht1bw]; exact assocRemove_cons_self hbvu
      have hrmhe1 : assocRemove t1x.halfEdges t0.nextEdgeId
          = (t0.nextEdgeId + 1, ⟨false, v, u, t0.nextEdgeId⟩) :: t0.halfEdges := by
        rw [ht1he]
        exact assocRemove_cons_self (by
          rw [assocFind_cons_ne (Ne.symm hfbne)]
          exact hheF)
      have hrmhe2 : assocRemove
          ((t0.nextEdgeId + 1, (⟨false, v, u, t0.nextEdgeId⟩ : stEulerHalfEdge))
            :: t0.halfEdges) (t0.nextEdgeId + 1) = t0.halfEdges :=
        assocRemove_cons_self hheB
      have hfvux : edgeIndexFind t0.forwardEdges v u = none := hfvu
      have hafu : assocFind (List.map
            (fun p => if p.1 = u then
              (u, (⟨some hU0, some pU⟩ : stEulerVertex)) else p)
            (List.map
              (fun p => if p.1 = v then
                (v, (⟨some hV0, some pV⟩ : stEulerVertex)) else p)
              t1x.vertices)) u = some ⟨some hU0, some pU⟩ := by
        apply assocFind_map_update
        rw [assocFind_map_update_ne huv]
        exact hg1u
      have hafv : assocFind (List.map
            (fun p => if p.1 = u then
              (u, (⟨some hU0, some pU⟩ : stEulerVertex)) else p)
            (List.map
              (fun p => if p.1 = v then
                (v, (⟨some hV0, some pV⟩ : stEulerVertex)) else p)
              t1x.vertices)) v = some ⟨some hV0, some pV⟩ := by
        rw [assocFind_map_update_ne (Ne.symm huv)]
        exact assocFind_map_update hg1v
      have hgeFa : assocFind t1x.halfEdges t0.nextEdgeId
          = some ⟨true, u, v, t0.nextEdgeId + 1⟩ := hgeF
      have hgeBa : assocFind t1x.halfEdges (t0.nextEdgeId + 1)
          = some ⟨false, v, u, t0.nextEdgeId⟩ := hgeB
      have hg1ua : assocFind t1x.vertices u
          = some ⟨some (ru.leftOut.getD t0.nextEdgeId),
              some (t0.nextEdgeId + 1)⟩ := hg1u
      have hg1va : assocFind t1x.vertices v
          = some ⟨some (rv.leftOut.getD t0.nextEdgeId),
              some (rv.rightIn.getD (t0.nextEdgeId + 1))⟩ := hg1v
      refine ⟨(tRemoveTreeOf ts' t0.nextEdgeId ++ [hU0 :: U'])
        ++ [hV0 :: V'], ?_, ?_, ?_, ?_, ?_⟩
      · simp only [stEulerTour_cut, heidx1x, heidx2x, heidx3x, hitex,
          getEdge_set_nComponents, getEdge_set_treaps, getEdge_setVertex,
          getVertex_set_nComponents, getVertex_set_treaps,
          getEdge_mk, getVertex_mk, hgeFa, hgeBa, hg1ua, hg1va, hsvne1, hsvne2,
          hafu, hafv, hgeV0a, hgepVa, hcontV0u, hcontV0v, hminU, hszu, hszv,
          hgeF, hgeB, hprevfx, hnextbx, hnextfx, hprevbx, hsb1x, hsa2, hsa3,
          hsb4, hrmt1, hrmt2, hrmfw, hrmbw, hrmhe1, hrmhe2, hfvux,
          hg1u, hg1v, huv, Ne.symm huv,
          getVertex_setVertex_self, getVertex_setVertex_ne,
          setVertex_treaps, setVertex_halfEdges, setVertex_forwardEdges,
          setVertex_backwardEdges, setVertex_nComponents, setVertex_nextEdgeId,
          setVertex_vertices,
          deleteEdgeF, deleteEdgeB, setAnchors, Option.bind, Option.isSome,
          Bool.or_self, Bool.false_and, Bool.and_true, Bool.true_and,
          Bool.false_or, Bool.or_false, Bool.not_false, Bool.not_true,
          Bool.and_self, Bool.false_eq_true, eq_self_iff_true,
          if_false, if_true, stEulerTour.mk.injEq]
        constructor
        · rw [ht1v, List.map_map, List.map_map]
          simp only [List.head?_cons, hpU, hpV]
          refine List.map_congr_left ?_
          intro p hp
          simp only [Function.comp_apply]
          by_cases hpu : p.1 = u
          · simp [hpu, huv]
          · by_cases hpv : p.1 = v
            · simp [hpu, hpv, huv, Ne.symm huv]
            · simp [hpu, hpv]
        · exact ⟨trivial, trivial, trivial, trivial, by rw [ht1nc], ht1ne⟩
      · constructor
        · intro s hs
          rcases List.mem_append.mp hs with hs | hs
          · rcases List.mem_append.mp hs with hs | hs
            · exact h9.1 s (mem_of_mem_removeTree hs)
            · rcases List.mem_singleton.mp hs with rfl
              simp
          · rcases List.mem_singleton.mp hs with rfl
            simp
        · rw [List.flatten_append, List.flatten_append]
          simp only [List.flatten_cons, List.flatten_nil, List.append_nil]
          rw [List.nodup_append, List.nodup_append]
          refine ⟨⟨removeTree_flatten_nodup h9.2 _,
            (List.nodup_append.mp hmn).1, ?_⟩, ?_, ?_⟩
          · intro a ha hb
            exact hUOTH a hb ha
          · rcases List.nodup_cons.mp (List.nodup_append.mp hmn).2.1
              with ⟨_, hmn2⟩
            exact List.Nodup.of_append_left hmn2
          · intro a ha hb
            rcases List.mem_append.mp ha with ha | ha
            · exact hVOTH a hb ha
            · exact hVnU a hb ha
      · intro x hx
        rw [tSeqOf_append_left _ (hUF x hx),
          tSeqOf_append_new _ (fun hc => hUOTH x hx hc)]
        exact tSeqOf_single hx
      · intro x hx
        have hxnUF : x ∉ (tRemoveTreeOf ts' t0.nextEdgeId
            ++ [hU0 :: U']).flatten := by
          rw [List.flatten_append]
          intro hc
          rcases List.mem_append.mp hc with hc | hc
          · exact hVOTH x hx hc
          · simp only [List.flatten_cons, List.flatten_nil,
              List.append_nil] at hc
            exact hVnU x hx hc
        rw [tSeqOf_append_new _ hxnUF]
        exact tSeqOf_single hx
      · intro x hxU hxV hxf hxb
        have hxM : x ∉ tSeqOf ts' t0.nextEdgeId := by
          rw [hseqfid]
          intro hc
          rcases List.mem_append.mp hc with hc | hc
          · exact hxU hc
          · rcases List.mem_cons.mp hc with hc | hc
            · exact hxf hc
            · rcases List.mem_append.mp hc with hc | hc
              · exact hxV hc
              · exact hxb (List.mem_singleton.mp hc)
        by_cases hmem : x ∈ ts'.flatten
        · have hxO : x ∈ (tRemoveTreeOf ts' t0.nextEdgeId).flatten := by
            have hperm := flatten_removeTree_perm h9.2
              (mem_flatten_of_mem_tSeqOf (show t0.nextEdgeId ∈
                tSeqOf ts' t0.nextEdgeId by
                  rw [hseqfid]
                  exact List.mem_append_right _ (List.mem_cons_self _ _)))
            rcases List.mem_append.mp (hperm.mem_iff.mp hmem) with hc | hc
            · exact hc
            · exact absurd hc hxM
          have hxOF : x ∈ (tRemoveTreeOf ts' t0.nextEdgeId
              ++ [hU0 :: U']).flatten := by
            rw [List.flatten_append]
            exact List.mem_append_left _ hxO
          rw [tSeqOf_append_left _ hxOF, tSeqOf_append_left _ hxO,
            tSeqOf_removeTree h9.2 hmem hxM]
          exact h12 x hxU hxV hxf hxb
        · have hx1 : x ∉ ((tRemoveTreeOf ts' t0.nextEdgeId
              ++ [hU0 :: U']) ++ [hV0 :: V']).flatten := by
            rw [List.flatten_append, List.flatten_append]
            intro hc
            simp only [List.flatten_cons, List.flatten_nil,
              List.append_nil] at hc
            rcases List.mem_append.mp hc with hc | hc
            · rcases List.mem_append.mp hc with hc | hc
              · exact hmem ((flatten_filter_sublist _ _).subset hc)
              · exact hxU hc
            · exact hxV hc
          have hx2 : x ∉ t0.treaps.flatten := fun hc => hmem
            (h10.mem_iff.mpr (List.mem_cons_of_mem _ (List.mem_cons_of_mem _ hc)))
          rw [tSeqOf_eq_nil hx1, tSeqOf_eq_nil hx2]


theorem two_le_length_of_mem_ne {l : List EId} {a b : EId}
    (ha : a ∈ l) (hb : b ∈ l) (hab : a ≠ b) : 2 ≤ l.length := by
  cases l with
  | nil => cases ha
  | cons x rest =>
    cases rest with
    | nil =>
      rcases List.mem_singleton.mp ha with rfl
      rcases List.mem_singleton.mp hb with rfl
      exact absurd rfl hab
    | cons y rest2 =>
      simp only [List.length_cons]
      omega

/-- C3 (amended): for distinct, initially unconnected vertices `u`, `v`
present in a well-formed tour whose edge index does not hold `{u,v}`,
`link(u,v)` followed by `cut(u,v)` yields a state in which `connected(u,v)`
is false, the edge `{u,v}` is absent from the edge index (under both
orderings of both maps), `nComponents` is restored to its pre-link value,
and cross-structure invariants 1, 2 and 4 are restored; invariant 3 is not
restored in general (see the counterexample). -/
theorem C3_link_cut_roundtrip {t0 : stEulerTour} (hwf : wfTour t0 = true)
    (hi1 : inv1holds t0 = true) (hi2 : inv2holds t0 = true)
    (hi4 : inv4holds t0 = true)
    {u v : VId} {ru rv : stEulerVertex}
    (hru : getVertex t0 u = some ru) (hrv : getVertex t0 v = some rv)
    (huv : u ≠ v) (hconn : stEulerTour_connected t0 u v = some false)
    (hfuv : edgeIndexFind t0.forwardEdges u v = none)
    (hfvu : edgeIndexFind t0.forwardEdges v u = none)
    (hbuv : edgeIndexFind t0.backwardEdges u v = none)
    (hbvu : edgeIndexFind t0.backwardEdges v u = none) :
    stEulerTour_connected (stEulerTour_cut (stEulerTour_link t0 u v) u v) u v
      = some false ∧
    edgeIndexFind (stEulerTour_cut (stEulerTour_link t0 u v) u v).forwardEdges
      u v = none ∧
    edgeIndexFind (stEulerTour_cut (stEulerTour_link t0 u v) u v).forwardEdges
      v u = none ∧
    edgeIndexFind (stEulerTour_cut (stEulerTour_link t0 u v) u v).backwardEdges
      u v = none ∧
    edgeIndexFind (stEulerTour_cut (stEulerTour_link t0 u v) u v).backwardEdges
      v u = none ∧
    (stEulerTour_cut (stEulerTour_link t0 u v) u v).nComponents
      = t0.nComponents ∧
    inv1holds (stEulerTour_cut (stEulerTour_link t0 u v) u v) = true ∧
    inv2holds (stEulerTour_cut (stEulerTour_link t0 u v) u v) = true ∧
    inv4holds (stEulerTour_cut (stEulerTour_link t0 u v) u v) = true := by
  obtain ⟨hf, hvt, ha, hpr, hep, ho⟩ := wfTour_parts hwf
  have hp0 : PartForest t0.treaps := wfForest_parts hf
  obtain ⟨U, V, ts', hC⟩ := link_shape hwf hru hrv huv hconn
  have hCc := hC
  obtain ⟨c1, c2, c3, c4, c5, c6, c7, c8, c9, c10, c11, c12, c13⟩ := hCc
  have hfresh : ∀ x ∈ t0.treaps.flatten, x < t0.nextEdgeId :=
    fun x hx => wfForest_fresh hf hx
  have hhk : ∀ p ∈ t0.halfEdges, p.1 < t0.nextEdgeId := by
    intro p hp
    have hgp : getEdge t0 p.1 = some p.2 := by
      have := assocFind_of_mem (wfForest_keysNodup hf)
        (show (p.1, p.2) ∈ t0.halfEdges by simpa using hp)
      exact this
    exact wfForest_fresh hf (wfForest_keys hf hgp)
  have hUsub : ∀ x ∈ U, x ∈ t0.treaps.flatten := by
    intro x hx
    cases hulo : ru.leftOut with
    | none => rw [c1.mpr hulo] at hx; cases hx
    | some lo => exact mem_flatten_of_mem_tSeqOf ((c3 lo hulo).mem_iff.mp hx)
  have hVsub : ∀ x ∈ V, x ∈ t0.treaps.flatten := by
    intro x hx
    cases hvlo : rv.leftOut with
    | none => rw [c2.mpr hvlo] at hx; cases hx
    | some lo => exact mem_flatten_of_mem_tSeqOf ((c4 lo hvlo).mem_iff.mp hx)
  have hU2 : U = [] ∨ 2 ≤ U.length := by
    cases hulo : ru.leftOut with
    | none => exact Or.inl (c1.mpr hulo)
    | some lo =>
      right
      obtain ⟨riu, huri⟩ : ∃ riu, ru.rightIn = some riu := by
        rcases wfAnchors_iff ha hru with ⟨h, _⟩ | ⟨lo2, ri, h1, h2⟩
        · rw [hulo] at h; cases h
        · exact ⟨ri, h2⟩
      obtain ⟨hne, hloS, hriS, _, _⟩ := wfAnchors_spec ha hru hulo huri
      rw [(c3 lo hulo).length_eq]
      exact two_le_length_of_mem_ne hloS hriS hne
  have hV2 : V = [] ∨ 2 ≤ V.length := by
    cases hvlo : rv.leftOut with
    | none => exact Or.inl (c2.mpr hvlo)
    | some lo =>
      right
      obtain ⟨riv, hvri⟩ : ∃ riv, rv.rightIn = some riv := by
        rcases wfAnchors_iff ha hrv with ⟨h, _⟩ | ⟨lo2, ri, h1, h2⟩
        · rw [hvlo] at h; cases h
        · exact ⟨ri, h2⟩
      obtain ⟨hne, hloS, hriS, _, _⟩ := wfAnchors_spec ha hrv hvlo hvri
      rw [(c4 lo hvlo).length_eq]
      exact two_le_length_of_mem_ne hloS hriS hne
  have hUed : ∀ e ∈ U, ∃ ed, getEdge t0 e = some ed :=
    fun e he => wfForest_getEdge hf (hUsub e he)
  have hVed : ∀ e ∈ V, ∃ ed, getEdge t0 e = some ed :=
    fun e he => wfForest_getEdge hf (hVsub e he)
  have hVnotu : ∀ e ∈ V, ∀ ed, getEdge t0 e = some ed →
      stEulerHalfEdge_contains ed u = false := by
    intro e he ed hed
    cases hvlo : rv.leftOut with
    | none => rw [c2.mpr hvlo] at he; cases he
    | some lv =>
      have heV : e ∈ tSeqOf t0.treaps lv := (c4 lv hvlo).mem_iff.mp he
      by_contra hcon
      rw [Bool.not_eq_false] at hcon
      have hend : ed.fr = u ∨ ed.toV = u := by
        unfold stEulerHalfEdge_contains at hcon
        rcases Bool.or_eq_true_iff.mp hcon with h | h
        · exact Or.inl (beq_iff_eq.mp h)
        · exact Or.inr (beq_iff_eq.mp h)
      obtain ⟨⟨r1, lo1, hgv1, hlo1, hmem1⟩, ⟨r2, lo2, hgv2, hlo2, hmem2⟩⟩ :=
        wfEndpoints_spec hep hed
      have hclasses : ∃ lou, ru.leftOut = some lou ∧
          e ∈ tSeqOf t0.treaps lou := by
        rcases hend with h | h
        · rw [h, hru] at hgv1
          injection hgv1 with hgv1
          subst hgv1
          exact ⟨lo1, hlo1, hmem1⟩
        · rw [h, hru] at hgv2
          injection hgv2 with hgv2
          subst hgv2
          exact ⟨lo2, hlo2, hmem2⟩
      obtain ⟨lou, hulo, hmemu⟩ := hclasses
      have hceq : tSeqOf t0.treaps lou = tSeqOf t0.treaps lv :=
        (tSeqOf_same hp0.2 hmemu).symm.trans (tSeqOf_same hp0.2 heV)
      have hc : stEulerTour_connected t0 u v = some true := by
        unfold stEulerTour_connected presentId stEulerVertex_connected
        simp [hru, hrv, hulo, hvlo, huv, hceq]
      rw [hc] at hconn
      injection hconn with h2
      exact Bool.noConfusion h2
  obtain ⟨tsf, hcut, hPart, hUcl, hVcl, hOld⟩ :=
    cut_link_shape hru hrv huv hC hfresh hhk hUsub hVsub hU2 hV2 hUed hVed
      hVnotu hfuv hfvu hbuv hbvu
  -- projections of the post-cut state
  have hvs2 : (stEulerTour_cut (stEulerTour_link t0 u v) u v).vertices
      = t0.vertices.map (fun p =>
          if p.1 = u then (u, ⟨U.head?, U.getLast?⟩)
          else if p.1 = v then (v, ⟨V.head?, V.getLast?⟩)
          else p) := by rw [hcut]
  have hhe2 : (stEulerTour_cut (stEulerTour_link t0 u v) u v).halfEdges
      = t0.halfEdges := by rw [hcut]
  have hfw2 : (stEulerTour_cut (stEulerTour_link t0 u v) u v).forwardEdges
      = t0.forwardEdges := by rw [hcut]
  have hbw2 : (stEulerTour_cut (stEulerTour_link t0 u v) u v).backwardEdges
      = t0.backwardEdges := by rw [hcut]
  have htr2 : (stEulerTour_cut (stEulerTour_link t0 u v) u v).treaps
      = tsf := by rw [hcut]
  have hnc2 : (stEulerTour_cut (stEulerTour_link t0 u v) u v).nComponents
      = t0.nComponents - 1 + 1 := by rw [hcut]
  -- class preservation, as sets of nodes
  have hUlou : U ≠ [] → ∃ lou, ru.leftOut = some lou ∧
      U.Perm (tSeqOf t0.treaps lou) := by
    intro hUne
    cases hulo : ru.leftOut with
    | none => exact absurd (c1.mpr hulo) hUne
    | some lou => exact ⟨lou, rfl, c3 lou hulo⟩
  have hVlov : V ≠ [] → ∃ lov, rv.leftOut = some lov ∧
      V.Perm (tSeqOf t0.treaps lov) := by
    intro hVne
    cases hvlo : rv.leftOut with
    | none => exact absurd (c2.mpr hvlo) hVne
    | some lov => exact ⟨lov, rfl, c4 lov hvlo⟩
  have hclassF : ∀ lo, lo ∈ t0.treaps.flatten →
      (tSeqOf tsf lo).toFinset = (tSeqOf t0.treaps lo).toFinset := by
    intro lo hlo
    by_cases hU : lo ∈ U
    · obtain ⟨lou, _, hperm⟩ := hUlou (by
        intro hc; rw [hc] at hU; cases hU)
      rw [hUcl lo hU, tSeqOf_same hp0.2 (hperm.mem_iff.mp hU)]
      exact List.toFinset_eq_of_perm _ _ hperm
    · by_cases hV : lo ∈ V
      · obtain ⟨lov, _, hperm⟩ := hVlov (by
          intro hc; rw [hc] at hV; cases hV)
        rw [hVcl lo hV, tSeqOf_same hp0.2 (hperm.mem_iff.mp hV)]
        exact List.toFinset_eq_of_perm _ _ hperm
      · rw [hOld lo hU hV (Nat.ne_of_lt (hfresh lo hlo))
          (Nat.ne_of_lt (Nat.lt_succ_of_lt (hfresh lo hlo)))]
  have hclassM : ∀ a b, a ∈ t0.treaps.flatten →
      (b ∈ tSeqOf tsf a ↔ b ∈ tSeqOf t0.treaps a) := by
    intro a b hfl
    rw [← List.mem_toFinset, hclassF a hfl, List.mem_toFinset]
  -- vertex lookups at the final state
  have hgRu : getVertex (stEulerTour_cut (stEulerTour_link t0 u v) u v) u
      = some ⟨U.head?, U.getLast?⟩ := by
    unfold getVertex
    rw [hvs2]
    exact assocFind_map_double_fst huv _ _ hru
  have hgRv : getVertex (stEulerTour_cut (stEulerTour_link t0 u v) u v) v
      = some ⟨V.head?, V.getLast?⟩ := by
    unfold getVertex
    rw [hvs2]
    exact assocFind_map_double_snd huv _ _ hrv
  -- the two cut-off tours are different trees when both non-empty
  have hUVdisj : ∀ x ∈ U, x ∉ V := by
    intro x hxU hxV
    have hmn := tree_nodup c9.2 t0.nextEdgeId
    rw [c11 t0.nextEdgeId (by
      exact List.mem_append_right _ (List.mem_cons_self _ _))] at hmn
    have hdisj := (List.nodup_append.mp hmn).2.2
    exact hdisj hxU (List.mem_cons_of_mem _ (List.mem_append_left _ hxV))
  refine ⟨?_, ?_, ?_, ?_, ?_, ?_, ?_, ?_, ?_⟩
  · -- connected is false again
    unfold stEulerTour_connected presentId stEulerVertex_connected
    cases hUc : U with
    | nil =>
      cases hVc : V with
      | nil => simp [hgRu, hgRv, huv, hUc, hVc]
      | cons vh V2 => simp [hgRu, hgRv, huv, hUc, hVc]
    | cons uh U2 =>
      cases hVc : V with
      | nil => simp [hgRu, hgRv, huv, hUc, hVc]
      | cons vh V2 =>
        have hne : tSeqOf tsf uh ≠ tSeqOf tsf vh := by
          rw [hUcl uh (by rw [hUc]; exact List.mem_cons_self _ _),
            hVcl vh (by rw [hVc]; exact List.mem_cons_self _ _)]
          intro hcon
          exact hUVdisj uh (by rw [hUc]; exact List.mem_cons_self _ _)
            (by rw [← hcon, hUc]; exact List.mem_cons_self _ _)
        simp [hgRu, hgRv, huv, hUc, hVc, htr2, hne]
  · rw [hfw2]; exact hfuv
  · rw [hfw2]; exact hfvu
  · rw [hbw2]; exact hbuv
  · rw [hbw2]; exact hbvu
  · rw [hnc2]; omega
  · -- invariant 1
    unfold inv1holds sameTreeB
    rw [hvs2, htr2, List.all_map, List.all_eq_true]
    intro p hp
    simp only [Function.comp_apply]
    by_cases hpu : p.1 = u
    · have hp2 : p.2 = ru := by
        have hmem : (u, p.2) ∈ t0.vertices := by
          rw [← hpu]
          simpa using hp
        have hfind2 : getVertex t0 u = some p.2 :=
          assocFind_of_mem (wfVertices_nodup hvt) hmem
        rw [hru] at hfind2
        injection hfind2 with h2
        exact h2.symm
      rw [if_pos hpu]
      cases hUc : U with
      | nil => simp
      | cons uh U2 =>
        obtain ⟨ul, hul⟩ : ∃ y, (uh :: U2).getLast? = some y :=
          ⟨_, List.getLast?_eq_getLast _ (by simp)⟩
        simp only [List.head?_cons, hul]
        have hulU : ul ∈ U := by
          rw [hUc]
          exact List.mem_of_mem_getLast? (by rw [hul]; rfl)
        rw [hUcl uh (by rw [hUc]; exact List.mem_cons_self _ _)]
        rw [hUc] at hulU ⊢
        exact contains_iff.mpr hulU
    · by_cases hpv : p.1 = v
      · have hp2 : p.2 = rv := by
          have hmem : (v, p.2) ∈ t0.vertices := by
            rw [← hpv]
            simpa using hp
          have hfind2 : getVertex t0 v = some p.2 :=
            assocFind_of_mem (wfVertices_nodup hvt) hmem
          rw [hrv] at hfind2
          injection hfind2 with h2
          exact h2.symm
        rw [if_neg hpu, if_pos hpv]
        cases hVc : V with
        | nil => simp
        | cons vh V2 =>
          obtain ⟨vl, hvl⟩ : ∃ y, (vh :: V2).getLast? = some y :=
            ⟨_, List.getLast?_eq_getLast _ (by simp)⟩
          simp only [List.head?_cons, hvl]
          have hvlV : vl ∈ V := by
            rw [hVc]
            exact List.mem_of_mem_getLast? (by rw [hvl]; rfl)
          rw [hVcl vh (by rw [hVc]; exact List.mem_cons_self _ _)]
          rw [hVc] at hvlV ⊢
          exact contains_iff.mpr hvlV
      · rw [if_neg hpu, if_neg hpv]
        have hb := List.all_eq_true.mp hi1 p hp
        unfold sameTreeB at hb
        cases hlo : p.2.leftOut with
        | none =>
          cases hri : p.2.rightIn with
          | none => simp
          | some ri => simp only [hlo, hri] at hb; cases hb
        | some lo =>
          cases hri : p.2.rightIn with
          | none => simp only [hlo, hri] at hb; cases hb
          | some ri =>
            simp only [hlo, hri] at hb ⊢
            have hriS : ri ∈ tSeqOf t0.treaps lo := contains_iff.mp hb
            have hloS : lo ∈ tSeqOf t0.treaps lo := by
              rcases tSeqOf_spec t0.treaps lo with h | h
              · rw [h] at hriS; cases hriS
              · exact h.2
            have hlofl : lo ∈ t0.treaps.flatten :=
              mem_flatten_of_mem_tSeqOf hloS
            exact contains_iff.mpr ((hclassM lo ri hlofl).mpr hriS)
  · -- invariant 2
    unfold inv2holds sameTreeB
    rw [hhe2, htr2, List.all_eq_true]
    intro p hp
    have hb := List.all_eq_true.mp hi2 p hp
    unfold sameTreeB at hb
    have hinvS : p.2.inverse ∈ tSeqOf t0.treaps p.1 := contains_iff.mp hb
    have hself : p.1 ∈ tSeqOf t0.treaps p.1 := by
      rcases tSeqOf_spec t0.treaps p.1 with h | h
      · rw [h] at hinvS; cases hinvS
      · exact h.2
    exact contains_iff.mpr
      ((hclassM p.1 p.2.inverse (mem_flatten_of_mem_tSeqOf hself)).mpr hinvS)
  · -- invariant 4
    unfold inv4holds singletonCount componentKeys
    unfold inv4holds singletonCount componentKeys at hi4
    rw [hvs2, htr2, hnc2]
    have hint : (t0.nComponents - 1 + 1 : Int) = t0.nComponents := by omega
    rw [hint]
    have hsc : ((t0.vertices.map (fun p =>
        if p.1 = u then (u, (⟨U.head?, U.getLast?⟩ : stEulerVertex))
        else if p.1 = v then (v, (⟨V.head?, V.getLast?⟩ : stEulerVertex))
        else p)).filter (fun p => p.2.leftOut.isNone)).length
        = (t0.vertices.filter (fun p => p.2.leftOut.isNone)).length := by
      rw [List.filter_map, List.length_map]
      congr 1
      apply List.filter_congr
      intro p hp
      simp only [Function.comp_apply]
      by_cases hpu : p.1 = u
      · have hp2 : p.2 = ru := by
          have hmem : (u, p.2) ∈ t0.vertices := by
            rw [← hpu]
            simpa using hp
          have hfind2 : getVertex t0 u = some p.2 :=
            assocFind_of_mem (wfVertices_nodup hvt) hmem
          rw [hru] at hfind2
          injection hfind2 with h2
          exact h2.symm
        rw [if_pos hpu, hp2]
        cases hUc : U with
        | nil =>
          rw [c1.mp hUc]
          rfl
        | cons uh U2 =>
          have hlne : ru.leftOut ≠ none := fun hc => by
            rw [c1.mpr hc] at hUc
            cases hUc
          cases hlo : ru.leftOut with
          | none => exact absurd hlo hlne
          | some lou => simp [hlo]
      · by_cases hpv : p.1 = v
        · have hp2 : p.2 = rv := by
            have hmem : (v, p.2) ∈ t0.vertices := by
              rw [← hpv]
              simpa using hp
            have hfind2 : getVertex t0 v = some p.2 :=
              assocFind_of_mem (wfVertices_nodup hvt) hmem
            rw [hrv] at hfind2
            injection hfind2 with h2
            exact h2.symm
          rw [if_neg hpu, if_pos hpv, hp2]
          cases hVc : V with
          | nil =>
            rw [c2.mp hVc]
            rfl
          | cons vh V2 =>
            have hlne : rv.leftOut ≠ none := fun hc => by
              rw [c2.mpr hc] at hVc
              cases hVc
            cases hlo : rv.leftOut with
            | none => exact absurd hlo hlne
            | some lov => simp [hlo]
        · rw [if_neg hpu, if_neg hpv]
    have hck : ((t0.vertices.map (fun p =>
        if p.1 = u then (u, (⟨U.head?, U.getLast?⟩ : stEulerVertex))
        else if p.1 = v then (v, (⟨V.head?, V.getLast?⟩ : stEulerVertex))
        else p)).filterMap (fun p =>
          p.2.leftOut.map fun lo => (tSeqOf tsf lo).toFinset))
        = t0.vertices.filterMap (fun p =>
          p.2.leftOut.map fun lo => (tSeqOf t0.treaps lo).toFinset) := by
      rw [List.filterMap_map]
      apply List.filterMap_congr
      intro p hp
      simp only [Function.comp_apply]
      by_cases hpu : p.1 = u
      · have hp2 : p.2 = ru := by
          have hmem : (u, p.2) ∈ t0.vertices := by
            rw [← hpu]
            simpa using hp
          have hfind2 : getVertex t0 u = some p.2 :=
            assocFind_of_mem (wfVertices_nodup hvt) hmem
          rw [hru] at hfind2
          injection hfind2 with h2
          exact h2.symm
        rw [if_pos hpu, hp2]
        cases hUc : U with
        | nil =>
          rw [c1.mp hUc]
          rfl
        | cons uh U2 =>
          obtain ⟨lou, hulo, hperm⟩ := hUlou (by rw [hUc]; simp)
          rw [hulo]
          show some (tSeqOf tsf uh).toFinset
            = some (tSeqOf t0.treaps lou).toFinset
          rw [hUcl uh (by rw [hUc]; exact List.mem_cons_self _ _),
            List.toFinset_eq_of_perm _ _ hperm]
      · by_cases hpv : p.1 = v
        · have hp2 : p.2 = rv := by
            have hmem : (v, p.2) ∈ t0.vertices := by
              rw [← hpv]
              simpa using hp
            have hfind2 : getVertex t0 v = some p.2 :=
              assocFind_of_mem (wfVertices_nodup hvt) hmem
            rw [hrv] at hfind2
            injection hfind2 with h2
            exact h2.symm
          rw [if_neg hpu, if_pos hpv, hp2]
          cases hVc : V with
          | nil =>
            rw [c2.mp hVc]
            rfl
          | cons vh V2 =>
            obtain ⟨lov, hvlo, hperm⟩ := hVlov (by rw [hVc]; simp)
            rw [hvlo]
            show some (tSeqOf tsf vh).toFinset
              = some (tSeqOf t0.treaps lov).toFinset
            rw [hVcl vh (by rw [hVc]; exact List.mem_cons_self _ _),
              List.toFinset_eq_of_perm _ _ hperm]
        · rw [if_neg hpu, if_neg hpv]
          cases hlo : p.2.leftOut with
          | none => rfl
          | some lo =>
            show some (tSeqOf tsf lo).toFinset
              = some (tSeqOf t0.treaps lo).toFinset
            -- lo is an anchor of a vertex of the old state
            have hmem : (p.1, p.2) ∈ t0.vertices := by simpa using hp
            obtain ⟨ri, hri⟩ : ∃ ri, p.2.rightIn = some ri := by
              have hfind : getVertex t0 p.1 = some p.2 :=
                assocFind_of_mem (wfVertices_nodup hvt) hmem
              rcases wfAnchors_iff ha hfind with ⟨h1, _⟩ | ⟨lo2, ri, h1, h2⟩
              · rw [hlo] at h1; cases h1
              · exact ⟨ri, h2⟩
            have hfind : getVertex t0 p.1 = some p.2 :=
              assocFind_of_mem (wfVertices_nodup hvt) hmem
            obtain ⟨_, hloS, _, _, _⟩ := wfAnchors_spec ha hfind hlo hri
            rw [hclassF lo (mem_flatten_of_mem_tSeqOf hloS)]
    rw [hsc, hck]
    exact hi4




/-- C3 counterexample: on the chain `1-2-3` with isolated vertex `4` all
cross-structure invariants hold, `1` and `4` are unconnected, yet after
`link(1,4)` followed by `cut(1,4)` invariant 3 is violated: `makeRoot(1)`
inside the link rotates the tour of `1`'s component, and the anchors of
vertex `2` no longer point at its minimum and maximum occurrences. -/
theorem C3_invariant3_not_restored :
    wfTour chainTour = true ∧
    inv1holds chainTour = true ∧ inv2holds chainTour = true ∧
    inv3holds chainTour = true ∧ inv4holds chainTour = true ∧
    stEulerTour_connected chainTour 1 4 = some false ∧
    inv3holds (stEulerTour_cut (stEulerTour_link chainTour 1 4) 1 4)
      = false := by
  decide

/-- C3 witness: the amended round-trip theorem applied to the chain tour
and the unconnected pair `1`, `4`. -/
theorem C3_link_cut_roundtrip_witness :
    stEulerTour_connected (stEulerTour_cut (stEulerTour_link chainTour 1 4)
      1 4) 1 4 = some false ∧
    edgeIndexFind (stEulerTour_cut (stEulerTour_link chainTour 1 4)
      1 4).forwardEdges 1 4 = none ∧
    edgeIndexFind (stEulerTour_cut (stEulerTour_link chainTour 1 4)
      1 4).forwardEdges 4 1 = none ∧
    edgeIndexFind (stEulerTour_cut (stEulerTour_link chainTour 1 4)
      1 4).backwardEdges 1 4 = none ∧
    edgeIndexFind (stEulerTour_cut (stEulerTour_link chainTour 1 4)
      1 4).backwardEdges 4 1 = none ∧
    (stEulerTour_cut (stEulerTour_link chainTour 1 4) 1 4).nComponents
      = chainTour.nComponents ∧
    inv1holds (stEulerTour_cut (stEulerTour_link chainTour 1 4) 1 4) = true ∧
    inv2holds (stEulerTour_cut (stEulerTour_link chainTour 1 4) 1 4) = true ∧
    inv4holds (stEulerTour_cut (stEulerTour_link chainTour 1 4) 1 4)
      = true :=
  C3_link_cut_roundtrip (by decide) (by decide) (by decide) (by decide)
    (show getVertex chainTour 1 = some ⟨some 1, some 2⟩ by decide)
    (show getVertex chainTour 4 = some ⟨none, none⟩ by decide)
    (by decide) (by decide) (by decide) (by decide) (by decide) (by decide)




/-- The iterator's walk along a tour suffix: starting on edge `e` whose tour
is `P ++ e :: S`, it yields the `from` endpoints of `e :: S` and finally the
`to` endpoint of the last edge. -/
theorem tourYields_walk {t : stEulerTour} (hn : t.treaps.flatten.Nodup) :
    ∀ (S P : List EId) (e : EId) (x : VId) (fuel : Nat),
      tSeqOf t.treaps e = P ++ e :: S →
      (P ++ e :: S).Nodup →
      (∀ y ∈ P ++ e :: S, edFr t y ≠ 0 ∧ edTo t y ≠ 0 ∧
        ∃ ed, getEdge t y = some ed) →
      S.length + 2 ≤ fuel →
      tourYieldsAux t ⟨x, some e⟩ fuel
        = (e :: S).map (edFr t) ++ [edTo t (S.getLastD e)] := by
  intro S
  induction S with
  | nil =>
    intro P e x fuel hseq hnd hok hfuel
    obtain ⟨ed, hed⟩ := (hok e (by simp)).2.2
    have hfr : ed.fr ≠ 0 := by
      have h1 := (hok e (by simp)).1
      unfold edFr at h1
      rw [hed] at h1
      exact h1
    have hto : ed.toV ≠ 0 := by
      have h1 := (hok e (by simp)).2.1
      unfold edTo at h1
      rw [hed] at h1
      exact h1
    have heP : e ∉ P := by
      intro hc
      exact (List.nodup_append.mp hnd).2.2 hc (List.mem_cons_self _ _)
    have hnext : tNext t.treaps e = none := tNext_eq hseq heP
    obtain ⟨f, rfl⟩ : ∃ f, fuel = f + 2 := ⟨fuel - 2, by omega⟩
    have hzero : tourYieldsAux t ⟨0, none⟩ f = [] := by
      cases f with
      | zero => rfl
      | succ f2 =>
        rw [tourYieldsAux]
        simp [stEulerTourIterator_getNext]
    rw [tourYieldsAux]
    simp only [stEulerTourIterator_getNext, hed, hnext]
    rw [if_neg hfr, tourYieldsAux]
    simp only [stEulerTourIterator_getNext]
    rw [if_neg hto, hzero]
    simp [edFr, edTo, hed]
  | cons s S2 ih =>
    intro P e x fuel hseq hnd hok hfuel
    obtain ⟨ed, hed⟩ := (hok e (by simp)).2.2
    have hfr : ed.fr ≠ 0 := by
      have h1 := (hok e (by simp)).1
      unfold edFr at h1
      rw [hed] at h1
      exact h1
    have heP : e ∉ P := by
      intro hc
      exact (List.nodup_append.mp hnd).2.2 hc (List.mem_cons_self _ _)
    have hnext : tNext t.treaps e = some s := by
      rw [tNext_eq hseq heP]
      rfl
    obtain ⟨f, rfl⟩ : ∃ f, fuel = f + 1 := ⟨fuel - 1, by omega⟩
    have hsmem : s ∈ tSeqOf t.treaps e := by
      rw [hseq]
      exact List.mem_append_right _
        (List.mem_cons_of_mem _ (List.mem_cons_self _ _))
    have hseq2 : tSeqOf t.treaps s = (P ++ [e]) ++ s :: S2 := by
      rw [tSeqOf_same hn hsmem, hseq, List.append_assoc]
      rfl
    have hnd2 : ((P ++ [e]) ++ s :: S2).Nodup := by
      rw [List.append_assoc]
      exact hnd
    have hok2 : ∀ y ∈ (P ++ [e]) ++ s :: S2, edFr t y ≠ 0 ∧ edTo t y ≠ 0 ∧
        ∃ ed2, getEdge t y = some ed2 := by
      intro y hy
      rw [List.append_assoc] at hy
      exact hok y hy
    have hfuel2 : S2.length + 2 ≤ f := by
      rw [List.length_cons] at hfuel
      omega
    have hrec := ih (P ++ [e]) s ed.toV f hseq2 hnd2 hok2 hfuel2
    rw [tourYieldsAux]
    simp only [stEulerTourIterator_getNext, hed, hnext]
    rw [if_neg hfr, hrec, List.getLastD_cons e s S2]
    simp [edFr, hed]

/-- C4 (amended): for a present vertex `v`, if `v` is a singleton the
iterator yields exactly `[v]`; otherwise every vertex of `v`'s component is
yielded at least once (vertices with several tour occurrences can be
yielded several times, see the counterexample). -/
theorem C4_iterator_coverage {t0 : stEulerTour} (hwf : wfTour t0 = true)
    {v : VId} {rv : stEulerVertex} (hrv : getVertex t0 v = some rv) :
    (rv.leftOut = none → stEulerTour_yields t0 v = [v]) ∧
    (∀ w, stEulerTour_connected t0 v w = some true →
      w ∈ stEulerTour_yields t0 v) := by
  obtain ⟨hf, hvt, ha, hpr, hep, ho⟩ := wfTour_parts hwf
  have hp0 : PartForest t0.treaps := wfForest_parts hf
  have hv0 : v ≠ 0 := wfVertices_nonzero hvt hrv
  have hsing : rv.leftOut = none → stEulerTour_yields t0 v = [v] := by
    intro hlo
    have hroot : stEulerTour_findRoot t0 v = none := by
      unfold stEulerTour_findRoot
      simp only [hrv, hlo]
    unfold stEulerTour_yields stEulerTour_getIterator
    rw [hroot]
    show tourYieldsAux t0 ⟨v, none⟩ (t0.halfEdges.length + 2) = [v]
    rw [tourYieldsAux]
    simp only [stEulerTourIterator_getNext]
    rw [if_neg hv0, tourYieldsAux]
    simp [stEulerTourIterator_getNext]
  have hcore : ∀ w rw2 lov low, getVertex t0 w = some rw2 →
      rv.leftOut = some lov → rw2.leftOut = some low →
      tSeqOf t0.treaps lov = tSeqOf t0.treaps low →
      w ∈ stEulerTour_yields t0 v := by
    intro w rw2 lov low hgw hlov hlow hcls
    obtain ⟨riv, hriv⟩ : ∃ riv, rv.rightIn = some riv := by
      rcases wfAnchors_iff ha hrv with ⟨h1, _⟩ | ⟨lo2, ri, h1, h2⟩
      · rw [hlov] at h1; cases h1
      · exact ⟨ri, h2⟩
    obtain ⟨_, hlovS, _, _, _⟩ := wfAnchors_spec ha hrv hlov hriv
    cases hM : tSeqOf t0.treaps lov with
    | nil => rw [hM] at hlovS; cases hlovS
    | cons m0 M2 =>
      have hroot : stEulerTour_findRoot t0 v = some m0 := by
        unfold stEulerTour_findRoot
        simp only [hrv, hlov]
        show (tSeqOf t0.treaps lov).head? = some m0
        rw [hM]
        rfl
      have hm0 : m0 ∈ tSeqOf t0.treaps lov := by
        rw [hM]
        exact List.mem_cons_self _ _
      have hseq0 : tSeqOf t0.treaps m0 = [] ++ m0 :: M2 := by
        rw [tSeqOf_same hp0.2 hm0, hM]
        rfl
      have hndM : (m0 :: M2).Nodup := by
        rw [← hM]
        exact tree_nodup hp0.2 lov
      have hok : ∀ y ∈ [] ++ m0 :: M2, edFr t0 y ≠ 0 ∧ edTo t0 y ≠ 0 ∧
          ∃ ed, getEdge t0 y = some ed := by
        intro y hy
        have hyfl : y ∈ t0.treaps.flatten := by
          refine mem_flatten_of_mem_tSeqOf (x := lov) ?_
          rw [hM]
          simpa using hy
        obtain ⟨ed, hed⟩ := wfForest_getEdge hf hyfl
        obtain ⟨⟨r1, lo1, hgv1, _, _⟩, ⟨r2, lo2, hgv2, _, _⟩⟩ :=
          wfEndpoints_spec hep hed
        refine ⟨?_, ?_, ed, hed⟩
        · unfold edFr
          rw [hed]
          exact wfVertices_nonzero hvt hgv1
        · unfold edTo
          rw [hed]
          exact wfVertices_nonzero hvt hgv2
      have hfuel : M2.length + 2 ≤ t0.halfEdges.length + 2 := by
        have hsub : (m0 :: M2) ⊆ t0.halfEdges.map Prod.fst := by
          intro y hy
          have hyfl : y ∈ t0.treaps.flatten := by
            refine mem_flatten_of_mem_tSeqOf (x := lov) ?_
            rw [hM]
            exact hy
          obtain ⟨ed, hed⟩ := wfForest_getEdge hf hyfl
          exact List.mem_map.mpr ⟨(y, ed), assocFind_mem hed, rfl⟩
        have hlen := (List.Nodup.subperm hndM hsub).length_le
        rw [List.length_map] at hlen
        rw [List.length_cons] at hlen
        omega
      have hyields : stEulerTour_yields t0 v
          = (m0 :: M2).map (edFr t0) ++ [edTo t0 (M2.getLastD m0)] := by
        unfold stEulerTour_yields stEulerTour_getIterator
        rw [hroot]
        exact tourYields_walk hp0.2 M2 [] m0 v (t0.halfEdges.length + 2)
          hseq0 (by simpa using hndM) hok hfuel
      obtain ⟨riw, hriw⟩ : ∃ riw, rw2.rightIn = some riw := by
        rcases wfAnchors_iff ha hgw with ⟨h1, _⟩ | ⟨lo2, ri, h1, h2⟩
        · rw [hlow] at h1; cases h1
        · exact ⟨ri, h2⟩
      obtain ⟨_, hlowS, _, ⟨elo, hgelo, hcont⟩, _⟩ :=
        wfAnchors_spec ha hgw hlow hriw
      have hlowM : low ∈ tSeqOf t0.treaps lov := by
        rw [hcls]
        exact hlowS
      have hcont2 : elo.fr = w ∨ elo.toV = w := by
        unfold stEulerHalfEdge_contains at hcont
        rcases Bool.or_eq_true_iff.mp hcont with h | h
        · exact Or.inl (beq_iff_eq.mp h)
        · exact Or.inr (beq_iff_eq.mp h)
      rcases hcont2 with hfr | hto
      · rw [hyields]
        refine List.mem_append_left _ (List.mem_map.mpr ⟨low, ?_, ?_⟩)
        · rw [← hM]
          exact hlowM
        · unfold edFr
          rw [hgelo]
          exact hfr
      · obtain ⟨_, _, hinvS, _, ⟨iv, hgiv, _, hivfr, _⟩⟩ :=
          wfPairs_spec hpr hgelo
        have hinvM : elo.inverse ∈ tSeqOf t0.treaps lov := by
          rw [hcls]
          exact hinvS
        rw [hyields]
        refine List.mem_append_left _
          (List.mem_map.mpr ⟨elo.inverse, ?_, ?_⟩)
        · rw [← hM]
          exact hinvM
        · unfold edFr
          rw [hgiv]
          exact hivfr.trans hto
  refine ⟨hsing, ?_⟩
  intro w hcw
  unfold stEulerTour_connected presentId stEulerVertex_connected at hcw
  cases hgw : getVertex t0 w with
  | none =>
    simp only [hrv, hgw] at hcw
    simp at hcw
  | some rw2 =>
    by_cases hwv : w = v
    · subst hwv
      cases hlov : rv.leftOut with
      | none =>
        rw [hsing hlov]
        exact List.mem_singleton.mpr rfl
      | some lov => exact hcore w rv lov lov hrv hlov hlov rfl
    · simp only [hrv, hgw] at hcw
      rw [if_neg (by
        intro hc
        injection hc with hc
        exact hwv hc.symm)] at hcw
      cases hlov : rv.leftOut with
      | none =>
        cases hlow : rw2.leftOut with
        | none =>
          simp only [hlov, hlow] at hcw
          simp at hcw
        | some low =>
          simp only [hlov, hlow] at hcw
          simp at hcw
      | some lov =>
        cases hlow : rw2.leftOut with
        | none =>
          simp only [hlov, hlow] at hcw
          simp at hcw
        | some low =>
          simp only [hlov, hlow] at hcw
          injection hcw with hcw
          exact hcore w rw2 lov low hgw hlov hlow (of_decide_eq_true hcw)

/-- C4 counterexample: on the two-vertex tour `1 - 2` the iterator started
at vertex `1` yields `[1, 2, 1]` — vertex `1` is yielded twice, not exactly
once. -/
theorem C4_iterator_yields_duplicate :
    wfTour pairTour = true ∧
    stEulerTour_yields pairTour 1 = [1, 2, 1] ∧
    (stEulerTour_yields pairTour 1).count 1 = 2 := by
  decide

/-- C4 witness: the amended iterator theorem applied to the two-vertex
tour at vertex `1`. -/
theorem C4_iterator_coverage_witness :
    (((⟨some 1, some 2⟩ : stEulerVertex).leftOut = none →
      stEulerTour_yields pairTour 1 = [1]) ∧
    (∀ w, stEulerTour_connected pairTour 1 w = some true →
      w ∈ stEulerTour_yields pairTour 1)) ∧
    stEulerTour_connected pairTour 1 2 = some true :=
  ⟨C4_iterator_coverage (by decide)
    (show getVertex pairTour 1 = some ⟨some 1, some 2⟩ by decide),
  by decide⟩
